import Mathlib

/-!
ARC: metamorph RPC boundary, BlockTx Merkle paths and gaps, callbacks, peers

A shallow embedding of the parts of `metamorph/server.go` that decide how a
submission is answered, of the gap query of the BlockTx store, of the callback
sender and of the peer and peer manager, followed by the properties proved
about them.

Conventions of the embedding

* `metamorph_api.Status` is the enumeration of the thirteen named values; the
  zero value of the Go type is `UNKNOWN`.
* A Go `error` is the text of its `Error()`; `nil` is `none`.
* A byte is a natural number, a byte slice a `List Nat`, a nil slice `none`.
* Calls into collaborators (BlockTx client, store, processor, remote owner,
  bitcoin node) are fields of `Collaborators`; every call a function makes is
  also written to a trace of `Effect`s, in program order.
* The `select` loop of `processTransaction` reads the responses that arrive on
  the response channel before the timer fires, one per iteration, and then the
  timer case.
-/

namespace Arc

/-! ## Data model -/

/-- The values of `metamorph_api.Status`. -/
inductive Status where
  | UNKNOWN
  | QUEUED
  | RECEIVED
  | STORED
  | ANNOUNCED_TO_NETWORK
  | REQUESTED_BY_NETWORK
  | SENT_TO_NETWORK
  | REJECTED
  | SEEN_IN_ORPHAN_MEMPOOL
  | ACCEPTED_BY_NETWORK
  | SEEN_ON_NETWORK
  | MINED
  | CONFIRMED
  deriving DecidableEq, Repr, Inhabited

/-- A `chainhash.Hash`: an array of exactly 32 bytes. -/
abbrev Hash := { l : List Nat // l.length = 32 }

/-- The function `chainhash.NewHash`: fails unless the slice holds 32 bytes. -/
def NewHash (newHash : List Nat) : Option Hash :=
  if h : newHash.length = 32 then some ⟨newHash, h⟩ else none

/-- The struct `processor_response.StatusAndError`. -/
structure StatusAndError where
  Hash : Option Hash
  Status : Status
  Err : Option String
  deriving DecidableEq, Repr

/-- The message `metamorph_api.TransactionStatus`; timestamps are optional
numbers of seconds. -/
structure TransactionStatus where
  TimedOut : Bool := false
  StoredAt : Option Int := none
  AnnouncedAt : Option Int := none
  MinedAt : Option Int := none
  Txid : String := ""
  Status : Status := Status.UNKNOWN
  RejectReason : String := ""
  BlockHeight : Nat := 0
  BlockHash : String := ""
  MerklePath : String := ""
  deriving DecidableEq, Repr

/-! ## Waiting for a status -/

/-- The map literal `statusValueMap` of `hasWaitForStatusReached`. -/
def statusValueMap : List (Status × Int) :=
  [ (Status.UNKNOWN, 0),
    (Status.QUEUED, 1),
    (Status.RECEIVED, 2),
    (Status.STORED, 3),
    (Status.ANNOUNCED_TO_NETWORK, 4),
    (Status.REQUESTED_BY_NETWORK, 5),
    (Status.SENT_TO_NETWORK, 6),
    (Status.REJECTED, 7),
    (Status.SEEN_IN_ORPHAN_MEMPOOL, 8),
    (Status.ACCEPTED_BY_NETWORK, 9),
    (Status.SEEN_ON_NETWORK, 10),
    (Status.MINED, 11),
    (Status.CONFIRMED, 12) ]

/-- Indexing a Go `map[Status]int`: the value stored under the key, or the zero
value when the key is missing. -/
def mapIndex (m : List (Status × Int)) (k : Status) : Int :=
  match m.find? (fun kv => decide (kv.1 = k)) with
  | some kv => kv.2
  | none => 0

/-- The function `hasWaitForStatusReached`. -/
def hasWaitForStatusReached (status waitForStatus : Status) : Bool :=
  decide (mapIndex statusValueMap status ≥ mapIndex statusValueMap waitForStatus)

/-- The ordinal of a status as the specification lists it (section 4.3). -/
def specOrd : Status → Nat
  | Status.UNKNOWN => 0
  | Status.QUEUED => 1
  | Status.RECEIVED => 2
  | Status.STORED => 3
  | Status.ANNOUNCED_TO_NETWORK => 4
  | Status.REQUESTED_BY_NETWORK => 5
  | Status.SENT_TO_NETWORK => 6
  | Status.REJECTED => 7
  | Status.SEEN_IN_ORPHAN_MEMPOOL => 8
  | Status.ACCEPTED_BY_NETWORK => 9
  | Status.SEEN_ON_NETWORK => 10
  | Status.MINED => 11
  | Status.CONFIRMED => 12

/-- One iteration of the `case res := <-responseChannel` branch: the status and
the reject reason of the returned record are overwritten. -/
def recordResponse (returnedStatus : TransactionStatus) (res : StatusAndError) :
    TransactionStatus :=
  { returnedStatus with
    Status := res.Status
    RejectReason := match res.Err with
      | some e => e
      | none => "" }

/-- The `for { select { ... } }` loop of `processTransaction`, run on the
responses received before the timer fires; the empty list is the timer case. -/
def waitLoop (waitForStatus : Status) :
    TransactionStatus → List StatusAndError → TransactionStatus
  | returnedStatus, [] => { returnedStatus with TimedOut := true }
  | returnedStatus, res :: rest =>
    let returnedStatus := recordResponse returnedStatus res
    if hasWaitForStatusReached returnedStatus.Status waitForStatus then
      returnedStatus
    else
      waitLoop waitForStatus returnedStatus rest

/-- The method `Server.processTransaction`; `responses` is what the processor
delivers on the response channel before the timer fires. -/
def processTransaction (waitForStatus : Status) (TxID : String)
    (responses : List StatusAndError) : TransactionStatus :=
  let waitForStatus :=
    if waitForStatus = Status.UNKNOWN then Status.SEEN_ON_NETWORK else waitForStatus
  waitLoop waitForStatus { Txid := TxID } responses

/-! ## Requests, contexts and collaborators -/

/-- A gRPC `metadata.MD`: keys with their values. -/
abbrev MD := List (String × List String)

/-- The method `metadata.MD.Get` for a key written in lower case. -/
def MD.Get (md : MD) (k : String) : List String :=
  match md.find? (fun kv => decide (kv.1 = k)) with
  | some kv => kv.2
  | none => []

/-- The part of a `context.Context` the server reads: the metadata that came in
with the call and the metadata attached for outgoing calls. -/
structure Context where
  incoming : Option MD := none
  outgoing : Option MD := none
  deriving DecidableEq, Repr

/-- The function `createForwardedContext`. -/
def createForwardedContext (ctx : Context) : Context :=
  { ctx with outgoing := some [("forwarded", ["true"])] }

/-- The function `isForwarded`. -/
def isForwarded (ctx : Context) : Bool :=
  match ctx.incoming with
  | some md =>
    let f := MD.Get md "forwarded"
    match f with
    | f0 :: _ => decide (f0 = "true")
    | [] => false
  | none => false

/-- What the callee of an RPC sees of the caller's context: the caller's
outgoing metadata arrives as incoming metadata. -/
def received (ctx : Context) : Context :=
  { incoming := ctx.outgoing, outgoing := none }

/-- The message `metamorph_api.TransactionRequest`. -/
structure TransactionRequest where
  RawTx : List Nat := []
  CallbackUrl : String := ""
  CallbackToken : String := ""
  MerkleProof : Bool := false
  WaitForStatus : Status := Status.UNKNOWN
  deriving DecidableEq, Repr

/-- The message `blocktx_api.RegisterTransactionResponse`. -/
structure RegisterTransactionResponse where
  Source : String := ""
  MerklePath : String := ""
  BlockHash : Option (List Nat) := none
  BlockHeight : Nat := 0
  deriving DecidableEq, Repr

/-- The struct `store.StoreData` (the fields the server touches); a time is a
number of seconds. -/
structure StoreData where
  StoredAt : Int := 0
  AnnouncedAt : Int := 0
  MinedAt : Int := 0
  Hash : Option Arc.Hash := none
  Status : Arc.Status := Arc.Status.UNKNOWN
  BlockHeight : Nat := 0
  BlockHash : Option Arc.Hash := none
  CallbackUrl : String := ""
  CallbackToken : String := ""
  MerkleProof : Bool := false
  RawTx : List Nat := []
  RejectReason : String := ""
  deriving DecidableEq, Repr

/-- The sixteen hexadecimal digits. -/
def hexDigits : List Char :=
  ['0', '1', '2', '3', '4', '5', '6', '7', '8', '9', 'a', 'b', 'c', 'd', 'e', 'f']

/-- Two hexadecimal digits of a byte. -/
def hexByte (b : Nat) : List Char :=
  [hexDigits.getD (b / 16 % 16) '0', hexDigits.getD (b % 16) '0']

/-- The method `chainhash.Hash.String`: the bytes in reverse order, in
hexadecimal. -/
def Hash.String (hash : Hash) : String :=
  String.mk (hash.val.reverse.foldr (fun b acc => hexByte b ++ acc) [])

/-- The verb `%v` of `fmt.Sprintf` on a `*chainhash.Hash`. -/
def sprintHash : Option Hash → String
  | some hash => Hash.String hash
  | none => "<nil>"

/-- An input of a parsed transaction: the outpoint it spends. -/
structure Input where
  PreviousTxIDStr : String
  PreviousTxOutIndex : Nat
  deriving DecidableEq, Repr

/-- Library functions the server calls: `chainhash.DoubleHashH`,
`url.ParseRequestURI` (its error, if any) and `bt.NewTxFromBytes` (the inputs
of the parsed transaction). -/
structure Library where
  DoubleHashH : List Nat → Hash
  ParseRequestURI : String → Option String
  NewTxFromBytes : List Nat → Except String (List Input)

/-- The services a server talks to, as the answers they give: the BlockTx
client, the dialled owner, the metamorph store, the bitcoin node and the
processor. -/
structure Collaborators where
  RegisterTransaction : Hash → String → Except String RegisterTransactionResponse
  IsCentralised : Bool
  dialMetamorph : String → Option String
  ownerPutTransaction : String → Context → TransactionRequest → Except String TransactionStatus
  storeSet : Hash → StoreData → Option String
  storeUpdateMined : Hash → Option Hash → Nat → Option String
  storeGet : Hash → Option StoreData × Option String
  GetTxOut : String → Nat → Bool → Except String (Option Unit)
  processorSet : StoreData → Option String
  responses : StoreData → List StatusAndError

/-- A call made to a collaborator. -/
inductive Effect where
  | RegisterTransaction (hash : Hash) (source : String)
  | dialMetamorph (address : String)
  | ownerPutTransaction (address : String) (ctx : Context) (req : TransactionRequest)
  | storeSet (key : Hash) (value : StoreData)
  | storeUpdateMined (hash : Hash) (blockHash : Option Hash) (blockHeight : Nat)
  | storeGet (key : Hash)
  | GetTxOut (txHex : String) (vout : Nat) (includeMempool : Bool)
  | processorSet (data : StoreData)
  | ProcessTransaction (data : StoreData)
  deriving DecidableEq, Repr

/-- How a Go call ends: it returns, or the goroutine panics. -/
inductive Outcome (α : Type) where
  | returned (a : α)
  | panicked (msg : String)
  deriving DecidableEq, Repr

/-- The fields of `Server` that steer a submission. -/
structure Server where
  source : String
  forceCheckUtxos : Bool := false
  deriving DecidableEq, Repr

/-- The values `putTransactionInit` returns, without the timing counter. -/
structure InitResult where
  status : Status := Status.UNKNOWN
  hash : Option Hash := none
  transactionStatus : Option TransactionStatus := none
  err : Option String := none
  deriving DecidableEq, Repr

/-- The function `ValidateCallbackURL`: the error it returns, if any. -/
def ValidateCallbackURL (lib : Library) (callbackURL : String) : Option String :=
  if callbackURL = "" then none
  else
    match lib.ParseRequestURI callbackURL with
    | some err => some ("invalid URL [" ++ err ++ "]")
    | none => none

/-- The method `Server.checkStore`. A read error is only logged. -/
def checkStore (c : Collaborators) (hash : Hash) : Option TransactionStatus :=
  match (c.storeGet hash).1 with
  | some storeData =>
    some { TimedOut := false
           StoredAt := some storeData.StoredAt
           AnnouncedAt := some storeData.AnnouncedAt
           MinedAt := some storeData.MinedAt
           Txid := sprintHash storeData.Hash
           Status := storeData.Status
           RejectReason := storeData.RejectReason
           BlockHeight := storeData.BlockHeight
           BlockHash := sprintHash storeData.BlockHash }
  | none => none

/-- The loop over the inputs in `Server.CheckUtxos`: the error and the calls
made to the bitcoin node. -/
def checkInputs (c : Collaborators) : List Input → Option String × List Effect
  | [] => (none, [])
  | input :: rest =>
    let call := Effect.GetTxOut input.PreviousTxIDStr input.PreviousTxOutIndex true
    match c.GetTxOut input.PreviousTxIDStr input.PreviousTxOutIndex true with
    | Except.error err => (some ("failed to get utxo: " ++ err), [call])
    | Except.ok none =>
      (some ("utxo " ++ input.PreviousTxIDStr ++ ":" ++ toString input.PreviousTxOutIndex
        ++ " not found"), [call])
    | Except.ok (some _) =>
      let r := checkInputs c rest
      (r.1, call :: r.2)

/-- The method `Server.CheckUtxos`. -/
def CheckUtxos (lib : Library) (c : Collaborators) (rawTx : List Nat) :
    Option String × List Effect :=
  match lib.NewTxFromBytes rawTx with
  | Except.error err => (some ("failed to create bitcoin tx: " ++ err), [])
  | Except.ok inputs => checkInputs c inputs

/-- An error return of `putTransactionInit`: `0, 0, nil, nil, err`. -/
def initError (err : String) : InitResult :=
  { status := Status.UNKNOWN, hash := none, transactionStatus := none, err := some err }

/-- A return of `putTransactionInit` that carries a finished status record:
`0, 0, nil, transactionStatus, nil`. -/
def initStatus (transactionStatus : TransactionStatus) : InitResult :=
  { status := Status.UNKNOWN, hash := none, transactionStatus := some transactionStatus,
    err := none }

/-- The tail of `putTransactionInit`, from the store check on. With forced
UTXO checking the error of `CheckUtxos` is logged through `err.Error()` before
it is compared with nil. -/
def initCheck (s : Server) (lib : Library) (c : Collaborators) (req : TransactionRequest)
    (rtr : RegisterTransactionResponse) (hash : Hash) (status : Status)
    (trace : List Effect) : Outcome InitResult × List Effect :=
  let trace := trace ++ [Effect.storeGet hash]
  match checkStore c hash with
  | some transactionStatus =>
    (Outcome.returned (initStatus { transactionStatus with MerklePath := rtr.MerklePath }),
      trace)
  | none =>
    if s.forceCheckUtxos then
      let r := CheckUtxos lib c req.RawTx
      match r.1 with
      | none =>
        (Outcome.panicked "invalid memory address or nil pointer dereference", trace ++ r.2)
      | some err =>
        (Outcome.returned
          (initStatus { Status := Status.REJECTED
                        Txid := Hash.String hash
                        MerklePath := rtr.MerklePath
                        RejectReason := err }), trace ++ r.2)
    else
      (Outcome.returned { status := status, hash := some hash }, trace)

/-- The method `Server.putTransactionInit`, with the calls it makes. -/
def putTransactionInit (s : Server) (lib : Library) (c : Collaborators) (ctx : Context)
    (req : TransactionRequest) : Outcome InitResult × List Effect :=
  let status := Status.UNKNOWN
  let hash := lib.DoubleHashH req.RawTx
  let trace := [Effect.RegisterTransaction hash s.source]
  match c.RegisterTransaction hash s.source with
  | Except.error err => (Outcome.returned (initError err), trace)
  | Except.ok rtr =>
    if !c.IsCentralised && decide (rtr.Source ≠ s.source) then
      if isForwarded ctx then
        (Outcome.returned (initError "endless forwarding loop detected"), trace)
      else
        let trace := trace ++ [Effect.dialMetamorph rtr.Source]
        match c.dialMetamorph rtr.Source with
        | some err => (Outcome.returned (initError err), trace)
        | none =>
          let trace := trace
            ++ [Effect.ownerPutTransaction rtr.Source (createForwardedContext ctx) req]
          match c.ownerPutTransaction rtr.Source (createForwardedContext ctx) req with
          | Except.error err => (Outcome.returned (initError err), trace)
          | Except.ok transactionStatus =>
            (Outcome.returned
              (initStatus { transactionStatus with MerklePath := rtr.MerklePath }), trace)
    else
      match rtr.BlockHash with
      | some blockHashBytes =>
        let data : StoreData :=
          { Hash := some hash
            Status := status
            CallbackUrl := req.CallbackUrl
            CallbackToken := req.CallbackToken
            MerkleProof := req.MerkleProof
            RawTx := req.RawTx }
        let trace := trace ++ [Effect.storeSet hash data]
        let status := Status.MINED
        let blockHash := NewHash blockHashBytes
        let trace := trace ++ [Effect.storeUpdateMined hash blockHash rtr.BlockHeight]
        match c.storeUpdateMined hash blockHash rtr.BlockHeight with
        | some err => (Outcome.returned (initError err), trace)
        | none => initCheck s lib c req rtr hash status trace
      | none => initCheck s lib c req rtr hash status trace

/-- The method `Server.PutTransaction`. -/
def PutTransaction (s : Server) (lib : Library) (c : Collaborators) (ctx : Context)
    (req : TransactionRequest) : Outcome (Except String TransactionStatus) × List Effect :=
  match ValidateCallbackURL lib req.CallbackUrl with
  | some err => (Outcome.returned (Except.error err), [])
  | none =>
    match putTransactionInit s lib c ctx req with
    | (Outcome.panicked msg, trace) => (Outcome.panicked msg, trace)
    | (Outcome.returned r, trace) =>
      match r.err with
      | some err => (Outcome.returned (Except.error err), trace)
      | none =>
        match r.transactionStatus with
        | some transactionStatus => (Outcome.returned (Except.ok transactionStatus), trace)
        | none =>
          match r.hash with
          | none =>
            (Outcome.panicked "invalid memory address or nil pointer dereference", trace)
          | some hash =>
            let sReq : StoreData :=
              { Hash := some hash
                Status := r.status
                CallbackUrl := req.CallbackUrl
                CallbackToken := req.CallbackToken
                MerkleProof := req.MerkleProof
                RawTx := req.RawTx }
            (Outcome.returned (Except.ok
                (processTransaction req.WaitForStatus (Hash.String hash) (c.responses sReq))),
              trace ++ [Effect.ProcessTransaction sReq])

/-- Whether a call forwards the request: dialling another metamorph or calling
its `PutTransaction`. -/
def Effect.isForward : Effect → Bool
  | Effect.dialMetamorph _ => true
  | Effect.ownerPutTransaction _ _ _ => true
  | _ => false

/-- Whether a call hands a transaction to the local processor's
`ProcessTransaction`. -/
def Effect.isProcess : Effect → Bool
  | Effect.ProcessTransaction _ => true
  | _ => false

/-! ## Batches -/

/-- The local struct `processTxInput` of `PutTransactions`. -/
structure processTxInput where
  data : StoreData
  waitForStatus : Status
  responseIndex : Nat
  deriving DecidableEq, Repr

/-- The assignment `processTxsInputMap[*hash] = input` on a Go map kept as a
list of entries: an entry under the same key is replaced. -/
def processTxsInputMapSet (m : List (Hash × processTxInput)) (hash : Hash)
    (input : processTxInput) : List (Hash × processTxInput) :=
  m.filter (fun kv => !decide (kv.1 = hash)) ++ [(hash, input)]

/-- The first loop of `PutTransactions`, from request number `ind` on:
`Statuses` is the response array, `inputs` the map of transactions still to be
processed. The collaborators answer the request with number `i` as `cs i`. -/
def initTransactions (s : Server) (lib : Library) (cs : Nat → Collaborators) (ctx : Context) :
    List TransactionRequest → Nat → List (Option TransactionStatus) →
    List (Hash × processTxInput) →
    Outcome (Except String (List (Option TransactionStatus) × List (Hash × processTxInput)))
  | [], _, Statuses, inputs => Outcome.returned (Except.ok (Statuses, inputs))
  | txReq :: rest, ind, Statuses, inputs =>
    match ValidateCallbackURL lib txReq.CallbackUrl with
    | some err => Outcome.returned (Except.error err)
    | none =>
      match (putTransactionInit s lib (cs ind) ctx txReq).1 with
      | Outcome.panicked msg => Outcome.panicked msg
      | Outcome.returned r =>
        match r.err with
        | some err => Outcome.returned (Except.error err)
        | none =>
          match r.transactionStatus with
          | some transactionStatus =>
            initTransactions s lib cs ctx rest (ind + 1)
              (Statuses.set ind (some transactionStatus)) inputs
          | none =>
            match r.hash with
            | none => Outcome.panicked "invalid memory address or nil pointer dereference"
            | some hash =>
              let sReq : StoreData :=
                { Hash := some hash
                  Status := r.status
                  CallbackUrl := txReq.CallbackUrl
                  CallbackToken := txReq.CallbackToken
                  MerkleProof := txReq.MerkleProof
                  RawTx := txReq.RawTx }
              match (cs ind).processorSet sReq with
              | some err => Outcome.returned (Except.error err)
              | none =>
                initTransactions s lib cs ctx rest (ind + 1) Statuses
                  (processTxsInputMapSet inputs hash
                    { data := sReq, waitForStatus := txReq.WaitForStatus, responseIndex := ind })

/-- The second loop of `PutTransactions`: every entry of the map is processed
and its record written at the entry's response index. The goroutines write to
different indices, so the entries are taken one after the other. -/
def processTransactions (cs : Nat → Collaborators) (inputs : List (Hash × processTxInput))
    (Statuses : List (Option TransactionStatus)) : List (Option TransactionStatus) :=
  inputs.foldl
    (fun resp kv =>
      resp.set kv.2.responseIndex
        (some (processTransaction kv.2.waitForStatus (Hash.String kv.1)
          ((cs kv.2.responseIndex).responses kv.2.data))))
    Statuses

/-- The method `Server.PutTransactions`: the error, or the response array, in
which a nil entry is `none`. -/
def PutTransactions (s : Server) (lib : Library) (cs : Nat → Collaborators) (ctx : Context)
    (Transactions : List TransactionRequest) :
    Outcome (Except String (List (Option TransactionStatus))) :=
  match initTransactions s lib cs ctx Transactions 0
      (List.replicate Transactions.length none) [] with
  | Outcome.panicked msg => Outcome.panicked msg
  | Outcome.returned (Except.error err) => Outcome.returned (Except.error err)
  | Outcome.returned (Except.ok (Statuses, inputs)) =>
    Outcome.returned (Except.ok (processTransactions cs inputs Statuses))

/-! ## The processor response map and status updates -/

/-- The struct `processor_response.ProcessorResponse` (the fields the response
map and the status update read). -/
structure ProcessorResponse where
  Hash : Option Arc.Hash := none
  Status : Arc.Status := Arc.Status.UNKNOWN
  Retries : Nat := 0
  Start : Int := 0
  Err : Option String := none
  deriving DecidableEq, Repr

/-- The field `ResponseItems` of `ProcessorResponseMap`: a Go map, kept as a
list of entries with one entry per key. -/
abbrev ResponseItems := List (Hash × ProcessorResponse)

/-- The method `ProcessorResponseMap.Get`. -/
def ResponseItems.Get (m : ResponseItems) (hash : Hash) : Option ProcessorResponse :=
  match m.find? (fun kv => decide (kv.1 = hash)) with
  | some kv => some kv.2
  | none => none

/-- The method `ProcessorResponseMap.Delete`. -/
def ResponseItems.Delete (m : ResponseItems) (hash : Hash) : ResponseItems :=
  m.filter (fun kv => !decide (kv.1 = hash))

/-- The method `ProcessorResponseMap.Set`. -/
def ResponseItems.Set (m : ResponseItems) (hash : Hash) (value : ProcessorResponse) :
    ResponseItems :=
  (hash, value) :: ResponseItems.Delete m hash

/-- Modelled from the spec: the terminal statuses of the glossary, MINED and
REJECTED (`metamorph/processor.go` is not among the sources). -/
def isTerminal : Status → Bool
  | Status.MINED => true
  | Status.REJECTED => true
  | _ => false

/-- Modelled from the spec: the rule of section 4.3 for a status update that
reaches `send_status_for_transaction` (`metamorph/processor.go` is not among
the sources). An entry that is REJECTED takes no other status here (MINED
overrides it only on the block-observation path); REJECTED is taken from any
non-terminal status; every other update must not lower the ordinal. -/
def statusUpdateAccepted (current new : Status) : Bool :=
  if current = Status.REJECTED then decide (new = Status.REJECTED)
  else if new = Status.REJECTED then !isTerminal current
  else decide (specOrd new ≥ specOrd current)

/-- A call of `store.UpdateStatus`. -/
structure UpdateStatusCall where
  hash : Hash
  status : Status
  rejectReason : String
  deriving DecidableEq, Repr

/-- What `SendStatusForTransaction` returns and leaves behind. -/
structure SendStatusResult where
  statusUpdated : Bool
  items : ResponseItems
  updateStatusCalls : List UpdateStatusCall
  deriving DecidableEq, Repr

/-- Modelled from the spec: the operation `send_status_for_transaction` of
section 4.3 (`Processor.SendStatusForTransaction` in `metamorph/processor.go`
is not among the sources; its test is). The entry is looked up; when it is
absent nothing happens; otherwise the rule above decides; an accepted update
is written to the store with its reject reason, and the entry takes the new
status or, on MINED, leaves the map. Callbacks are left out. -/
def SendStatusForTransaction (items : ResponseItems) (hash : Hash) (status : Status)
    (err : Option String) : SendStatusResult :=
  match ResponseItems.Get items hash with
  | none => { statusUpdated := false, items := items, updateStatusCalls := [] }
  | some processorResponse =>
    if statusUpdateAccepted processorResponse.Status status then
      let rejectReason := match err with
        | some e => e
        | none => ""
      { statusUpdated := true
        items :=
          if status = Status.MINED then ResponseItems.Delete items hash
          else ResponseItems.Set items hash { processorResponse with Status := status, Err := err }
        updateStatusCalls := [{ hash := hash, status := status, rejectReason := rejectReason }] }
    else
      { statusUpdated := false, items := items, updateStatusCalls := [] }

/-! ## Merkle trees and BUMPs -/

/-- Modelled from the spec: one level of the Merkle tree of section 4.5
(`blocktx/peer_handler.go` and the Merkle library it calls are not among the
sources). Nodes are hashed in pairs with the node hash `H`; the last node of a
level of odd length is paired with itself. -/
def merkleParents (H : Hash → Hash → Hash) : List Hash → List Hash
  | [] => []
  | [a] => [H a a]
  | a :: b :: rest => H a b :: merkleParents H rest

/-- Modelled from the spec: the root of the Merkle tree over a level, climbing
at most `fuel` levels (`blocktx/peer_handler.go` is not among the sources). -/
def merkleRootFrom (H : Hash → Hash → Hash) (fuel : Nat) (level : List Hash) : Option Hash :=
  match fuel with
  | 0 => if level.length ≤ 1 then level.head? else none
  | fuel + 1 =>
    if level.length ≤ 1 then level.head?
    else merkleRootFrom H fuel (merkleParents H level)

/-- Modelled from the spec: the block's merkle-root, the root of the full
Merkle tree over the transaction hashes of the block; a block of one
transaction has that transaction's hash as its root
(`blocktx/peer_handler.go` is not among the sources). -/
def merkleRoot (H : Hash → Hash → Hash) (txs : List Hash) : Option Hash :=
  merkleRootFrom H txs.length txs

/-- Modelled from the spec: an entry of a BUMP level (section 6): an offset in
the level and either a hash, the mark "duplicate" (the working hash is paired
with itself), or the hash of the client's transaction, marked `txid`
(`blocktx/peer_handler.go` is not among the sources). -/
structure leaf where
  offset : Nat
  hash : Option Hash := none
  txid : Bool := false
  duplicate : Bool := false
  deriving DecidableEq, Repr

/-- Modelled from the spec: a BUMP (section 6): the block height and the
sibling entries level by level, lowest level first
(`blocktx/peer_handler.go` is not among the sources). -/
structure BUMP where
  blockHeight : Nat
  path : List (List leaf)
  deriving DecidableEq, Repr

/-- Modelled from the spec: the sibling entry of the node at `index` in a
level: the node to its right when `index` is even, to its left when it is odd,
and "duplicate" when the level has no node there
(`blocktx/peer_handler.go` is not among the sources). -/
def siblingLeaf (level : List Hash) (index : Nat) : leaf :=
  let offset := if index % 2 = 0 then index + 1 else index - 1
  match level[offset]? with
  | some hash => { offset := offset, hash := some hash }
  | none => { offset := offset, duplicate := true }

/-- Modelled from the spec: the path of siblings from the node at `index` of a
level up to the root, one entry per level
(`blocktx/peer_handler.go` is not among the sources). -/
def siblingPath (H : Hash → Hash → Hash) (fuel : Nat) (level : List Hash) (index : Nat) :
    List (List leaf) :=
  match fuel with
  | 0 => []
  | fuel + 1 =>
    if level.length ≤ 1 then []
    else [siblingLeaf level index] :: siblingPath H fuel (merkleParents H level) (index / 2)

/-- Modelled from the spec: the BUMP emitted for the transaction at `txIndex`
of a block (section 4.5, step 4): the siblings on the way to the root, and at
the lowest level also the transaction's own hash, marked `txid`, placed after
its sibling when `txIndex` is odd and before it otherwise; a block of one
transaction gets the single level that holds only that entry
(`blocktx/peer_handler.go` is not among the sources). -/
def NewBUMP (H : Hash → Hash → Hash) (blockHeight : Nat) (txs : List Hash) (txIndex : Nat) :
    Option BUMP :=
  match txs[txIndex]? with
  | none => none
  | some txid =>
    let txidLeaf : leaf := { offset := txIndex, hash := some txid, txid := true }
    match siblingPath H txs.length txs txIndex with
    | [] => some { blockHeight := blockHeight, path := [[txidLeaf]] }
    | level0 :: rest =>
      some { blockHeight := blockHeight
             path := (if txIndex % 2 = 1 then level0 ++ [txidLeaf] else txidLeaf :: level0)
               :: rest }

/-- Modelled from the spec: reducing the levels of a BUMP from `height` up. At
each level the entry at the offset of the sibling, `(index >> height) ^ 1`, is
looked up; a duplicate pairs the working hash with itself, a hash goes to the
right of the working hash when its offset is odd and to the left otherwise
(`blocktx/peer_handler.go` is not among the sources; its test calls the
reduction). -/
def reduceLevels (H : Hash → Hash → Hash) (index : Nat) :
    Nat → Hash → List (List leaf) → Option Hash
  | _, workingHash, [] => some workingHash
  | height, workingHash, leaves :: rest =>
    match leaves.find? (fun l => decide (l.offset = (index >>> height) ^^^ 1)) with
    | none => none
    | some leafAtThisLevel =>
      if leafAtThisLevel.duplicate then
        reduceLevels H index (height + 1) (H workingHash workingHash) rest
      else
        match leafAtThisLevel.hash with
        | none => none
        | some leafHash =>
          if ((index >>> height) ^^^ 1) % 2 ≠ 0 then
            reduceLevels H index (height + 1) (H workingHash leafHash) rest
          else
            reduceLevels H index (height + 1) (H leafHash workingHash) rest

/-- Modelled from the spec: reducing a BUMP with a transaction hash (section
6): a BUMP of one level with one entry reduces to the hash itself; otherwise
the entry of the lowest level that carries the hash gives the index, and the
levels are reduced from the hash (`blocktx/peer_handler.go` is not among the
sources; its test calls `CalculateRootGivenTxid`). -/
def CalculateRootGivenTxid (H : Hash → Hash → Hash) (bump : BUMP) (txid : Hash) :
    Option Hash :=
  match bump.path with
  | [] => none
  | level0 :: rest =>
    if rest.length = 0 ∧ level0.length = 1 then some txid
    else
      match level0.find? (fun l => decide (l.hash = some txid)) with
      | none => none
      | some l => reduceLevels H l.offset 0 txid (level0 :: rest)

/-- Modelled from the spec: the BUMPs `HandleBlock` emits for a block (section
4.5, step 4), one for each transaction in block order, each with the hash of
its transaction (`blocktx/peer_handler.go` is not among the sources). -/
def HandleBlockBUMPs (H : Hash → Hash → Hash) (blockHeight : Nat) (txs : List Hash) :
    List (Hash × Option BUMP) :=
  txs.enum.map (fun p => (p.2, NewBUMP H blockHeight txs p.1))

/-! ## Block gaps -/

/-- A row of the table `blocks` (the columns the gap query reads). -/
structure BlockRow where
  hash : List Nat
  prevhash : List Nat
  height : Nat
  deriving DecidableEq, Repr

/-- The struct `store.BlockGap`. -/
structure BlockGap where
  Height : Nat
  Hash : Arc.Hash
  deriving DecidableEq, Repr

/-- The subquery `SELECT max(height) FROM blocks`, on the column `height`:
NULL on an empty table. -/
def maxHeight : List Nat → Option Int
  | [] => none
  | height :: rest =>
    match maxHeight rest with
    | none => some (height : Int)
    | some m => some (max (height : Int) m)

/-- The rows of `generate_series(start, stop)`, highest first. -/
def generateSeriesDesc (start stop : Int) : List Int :=
  (List.range (stop - start + 1).toNat).map (fun (k : Nat) => stop - (k : Int))

/-- The subquery `missing_blocks`, on the column `height` of `blocks`: the
heights of the series from `max(height) - $1` to `max(height)` that no row
has, highest first. -/
def missingBlocks (heights : List Nat) (blockHeightRange : Int) : List Int :=
  match maxHeight heights with
  | none => []
  | some m =>
    (generateSeriesDesc (m - blockHeightRange) m).filter
      (fun h => heights.all (fun height => !decide ((height : Int) = h)))

/-- The rows of the query of `GetBlockGaps`: every missing height joined with
the rows of `blocks` at the next height, each giving its `prevhash`; `ORDER BY
missing_block_height DESC` (rows of one height in table order). -/
def gapRows (blocks : List BlockRow) (blockHeightRange : Int) : List (Int × List Nat) :=
  (missingBlocks (blocks.map (fun b => b.height)) blockHeightRange).flatMap
    (fun h =>
      (blocks.filter (fun b => decide ((b.height : Int) = h + 1))).map
        (fun b => (h, b.prevhash)))

/-- The loop over `rows.Next()` of `GetBlockGaps`: the height is scanned into a
`uint64`, the hash must be 32 bytes; the first row that fails ends the call
with its error. -/
def scanGaps : List (Int × List Nat) → Except String (List BlockGap)
  | [] => Except.ok []
  | (height, hash) :: rows =>
    if height < 0 then
      Except.error "sql: Scan error on column index 0: converting to uint64"
    else
      match NewHash hash with
      | none => Except.error "invalid hash length"
      | some txHash =>
        match scanGaps rows with
        | Except.error err => Except.error err
        | Except.ok blockGaps => Except.ok ({ Height := height.toNat, Hash := txHash } :: blockGaps)

/-- The method `SQL.GetBlockGaps` on the rows of `blocks`. -/
def GetBlockGaps (blocks : List BlockRow) (blockHeightRange : Int) :
    Except String (List BlockGap) :=
  scanGaps (gapRows blocks blockHeightRange)

/-- A hash of 32 equal bytes, for the worked examples. -/
def sampleHash (b : Nat) : Hash := ⟨List.replicate 32 b, by simp⟩

/-- A table with blocks at the given heights; the block at height `h` has the
hash of bytes `h` and the previous hash of bytes `h - 1`. -/
def sampleBlocks (heights : List Nat) : List BlockRow :=
  heights.map (fun h =>
    { hash := (sampleHash h).val, prevhash := (sampleHash (h - 1)).val, height := h })

/-! ## Callbacks -/

/-- The constant `CallbackTries`. -/
def CallbackTries : Nat := 5

/-- The constant `CallbackIntervalSeconds`. -/
def CallbackIntervalSeconds : Nat := 5

/-- What one pass of the loop of `SendCallback` meets: `json.Marshal` fails,
`http.NewRequest` fails, `httpClient.Do` fails, or a response arrives with its
status code. -/
inductive CallbackAttempt where
  | marshalError (err : String)
  | newRequestError (err : String)
  | doError (err : String)
  | response (StatusCode : Nat)
  deriving DecidableEq, Repr

/-- What `SendCallback` does that can be seen from outside: a call of
`httpClient.Do` in pass `i`, a `time.Sleep` of some seconds, an error log, and
the final log after the last try. -/
inductive CallbackEvent where
  | Do (i : Nat)
  | Sleep (seconds : Nat)
  | logError (msg : String)
  | logGaveUp (retries : Nat)
  deriving DecidableEq, Repr

/-- The loop `for i := 0; i < CallbackTries; i++` of `SendCallback`, with
`remaining` passes to go; `attempt i` is what pass `i` meets. -/
def sendCallbackLoop (attempt : Nat → CallbackAttempt) :
    Nat → Nat → Nat → List CallbackEvent
  | 0, _, _ => [CallbackEvent.logGaveUp CallbackTries]
  | remaining + 1, i, sleepDuration =>
    match attempt i with
    | CallbackAttempt.marshalError _ => [CallbackEvent.logError "Couldn't marshal status"]
    | CallbackAttempt.newRequestError _ => [CallbackEvent.logError "Couldn't marshal status"]
    | CallbackAttempt.doError _ =>
      CallbackEvent.Do i
        :: CallbackEvent.logError "Couldn't send transaction info through callback url"
        :: sendCallbackLoop attempt remaining (i + 1) sleepDuration
    | CallbackAttempt.response StatusCode =>
      if StatusCode = 200 then [CallbackEvent.Do i]
      else
        CallbackEvent.Do i
          :: CallbackEvent.logError "Callback response status code not ok"
          :: CallbackEvent.Sleep sleepDuration
          :: sendCallbackLoop attempt remaining (i + 1) (sleepDuration * 2)

/-- The function `SendCallback`. -/
def SendCallback (attempt : Nat → CallbackAttempt) : List CallbackEvent :=
  sendCallbackLoop attempt CallbackTries 0 CallbackIntervalSeconds

/-- The HTTP attempts in a run of `SendCallback`: the passes that called
`httpClient.Do`. -/
def attemptsMade (events : List CallbackEvent) : List Nat :=
  events.filterMap (fun e =>
    match e with
    | CallbackEvent.Do i => some i
    | _ => none)

/-- The sleeps in a run of `SendCallback`, in seconds. -/
def sleepsMade (events : List CallbackEvent) : List Nat :=
  events.filterMap (fun e =>
    match e with
    | CallbackEvent.Sleep seconds => some seconds
    | _ => none)

/-- Whether a pass can build its request and does not get status 200. -/
def CallbackAttempt.failsAfterDo : CallbackAttempt → Bool
  | CallbackAttempt.doError _ => true
  | CallbackAttempt.response StatusCode => !decide (StatusCode = 200)
  | _ => false

/-! ## Peers -/

/-- The type `wire.InvType`, as far as the peer tells the values apart. -/
inductive InvType where
  | InvTypeTx
  | InvTypeBlock
  | other (value : Nat)
  deriving DecidableEq, Repr

/-- The struct `wire.InvVect`; `Typ` is its field `Type`. -/
structure InvVect where
  Typ : InvType
  Hash : Arc.Hash
  deriving DecidableEq, Repr

/-- The function `wire.NewInvVect`. -/
def NewInvVect (typ : InvType) (hash : Hash) : InvVect :=
  { Typ := typ, Hash := hash }

/-- A `wire.Message`, by command; a transaction message carries the parsed
transaction. -/
inductive Message where
  | MsgPing (Nonce : Nat)
  | MsgPong (Nonce : Nat)
  | MsgInv (InvList : List InvVect)
  | MsgGetData (InvList : List InvVect)
  | MsgTx (tx : List Nat)
  | other (command : String)
  deriving DecidableEq, Repr

/-- A `net.Conn`, by a number that tells connections apart. -/
abbrev Conn := Nat

/-- Where the reconnect goroutine of `NewPeer` stands: outside `connect`, after
the reset at the start of `connect` and before the dial, after the dial and
before the version message is written, inside the loop that waits for both
flags, or past that loop and before `writeConn` is assigned. -/
inductive ConnectPhase where
  | idle
  | dialling
  | dialled (conn : Conn)
  | handshaking (conn : Conn)
  | ready (conn : Conn)
  deriving DecidableEq, Repr

/-- The struct `Peer`: the two connections, the two flags and the outbound
buffer, with the position of the reconnect goroutine, the connections that
have a `readHandler` running, and the connections this side has closed. -/
structure Peer where
  readConn : Option Conn := none
  writeConn : Option Conn := none
  sentVerAck : Bool := false
  receivedVerAck : Bool := false
  writeChan : List Message := []
  phase : ConnectPhase := ConnectPhase.idle
  readers : List Conn := []
  closed : List Conn := []
  deriving DecidableEq, Repr

/-- The method `Peer.Connected`. -/
def Peer.Connected (p : Peer) : Bool :=
  p.readConn.isSome && p.writeConn.isSome

/-- The method `Peer.disconnect`. -/
def Peer.disconnect (p : Peer) : Peer :=
  { p with
    closed := match p.readConn with
      | some conn => conn :: p.closed
      | none => p.closed
    readConn := none
    writeConn := none
    sentVerAck := false
    receivedVerAck := false }

/-- The method `Peer.WriteMsg`: the error, or the peer with the message in its
outbound buffer (a send on a full buffer waits until the writer has made
room). -/
def Peer.WriteMsg (p : Peer) (msg : Message) : Except String Peer :=
  match p.writeConn with
  | none => Except.error "peer is not connected"
  | some _ => Except.ok { p with writeChan := p.writeChan ++ [msg] }

/-- The steps the goroutines of a peer take, each one a region of `Peer.go`
that runs under the lock or is a single atomic store. -/
inductive PeerAction where
  | connectStart
  | dial (conn : Option Conn)
  | writeVersion (ok : Bool)
  | recvVersion (conn : Conn)
  | recvVerAck (conn : Conn)
  | handshakeDone
  | setWriteConn
  | readEOF (conn : Conn)
  | WriteMsg (msg : Message)
  deriving DecidableEq, Repr

/-- One step of a peer, `none` when the step cannot be taken in the state.

* `connectStart`: the reconnect loop finds `!p.Connected()` and `connect`
  resets `readConn` and both flags (lines 93 to 97).
* `dial`: `net.Dial` fails and `connect` returns, or it gives a new connection,
  which becomes `readConn` and gets a `readHandler` (lines 100 to 110).
* `writeVersion`: the version message is written, or the write fails and
  `connect` returns (lines 114 to 119).
* `recvVersion`, `recvVerAck`: a running `readHandler` reads the message and
  stores the flag (lines 179 to 186 and 245 to 247).
* `handshakeDone`: the waiting loop of `connect` sees both flags and is left
  (lines 121 to 126).
* `setWriteConn`: `connect` assigns `writeConn` and returns (lines 129 to 133).
* `readEOF`: a running `readHandler` reads end-of-file, calls `disconnect` and
  ends (lines 169 to 172).
* `WriteMsg`: a caller queues a message. -/
def Peer.step (p : Peer) : PeerAction → Option Peer
  | PeerAction.connectStart =>
    if p.phase = ConnectPhase.idle ∧ p.Connected = false then
      some { p with readConn := none, sentVerAck := false, receivedVerAck := false,
                    phase := ConnectPhase.dialling }
    else none
  | PeerAction.dial none =>
    if p.phase = ConnectPhase.dialling then some { p with phase := ConnectPhase.idle }
    else none
  | PeerAction.dial (some conn) =>
    if p.phase = ConnectPhase.dialling ∧ conn ∉ p.readers ∧ conn ∉ p.closed then
      some { p with readConn := some conn, readers := conn :: p.readers,
                    phase := ConnectPhase.dialled conn }
    else none
  | PeerAction.writeVersion ok =>
    match p.phase with
    | ConnectPhase.dialled conn =>
      some { p with phase := if ok then ConnectPhase.handshaking conn else ConnectPhase.idle }
    | _ => none
  | PeerAction.recvVersion conn =>
    if conn ∈ p.readers ∧ conn ∉ p.closed then some { p with sentVerAck := true }
    else none
  | PeerAction.recvVerAck conn =>
    if conn ∈ p.readers ∧ conn ∉ p.closed then some { p with receivedVerAck := true }
    else none
  | PeerAction.handshakeDone =>
    match p.phase with
    | ConnectPhase.handshaking conn =>
      if p.receivedVerAck = true ∧ p.sentVerAck = true then
        some { p with phase := ConnectPhase.ready conn }
      else none
    | _ => none
  | PeerAction.setWriteConn =>
    match p.phase with
    | ConnectPhase.ready conn =>
      some { p with writeConn := some conn, phase := ConnectPhase.idle }
    | _ => none
  | PeerAction.readEOF conn =>
    if conn ∈ p.readers ∧ conn ∉ p.closed then
      some { p.disconnect with readers := p.readers.erase conn }
    else none
  | PeerAction.WriteMsg msg =>
    match p.WriteMsg msg with
    | Except.ok q => some q
    | Except.error _ => some p

/-- A run of steps from a state, `none` when some step cannot be taken. -/
def Peer.run : Peer → List PeerAction → Option Peer
  | p, [] => some p
  | p, a :: rest =>
    match p.step a with
    | some q => Peer.run q rest
    | none => none

/-- The peer `NewPeer` returns: no connection, both flags false, an empty
outbound buffer. -/
def NewPeer : Peer := {}

/-- The steps of one connection attempt in which the remote side closes the
connection right after the handshake: the waiting loop of `connect` has seen
both flags when the `readHandler` reads end-of-file and disconnects, and
`connect` then assigns `writeConn`. -/
def handshakeThenEOF : List PeerAction :=
  [ PeerAction.connectStart, PeerAction.dial (some 1), PeerAction.writeVersion true,
    PeerAction.recvVersion 1, PeerAction.recvVerAck 1, PeerAction.handshakeDone,
    PeerAction.readEOF 1, PeerAction.setWriteConn ]

/-- The peer after the steps of `handshakeThenEOF`: `writeConn` is set to the
closed connection, `readConn` is nil and both flags are false. -/
def stalePeer : Peer :=
  { writeConn := some 1, closed := [1] }

/-- How `wire.WriteMessage` fails: with `io.EOF`, or with another error. -/
inductive WriteError where
  | EOF
  | other (err : String)
  deriving DecidableEq, Repr

/-- What becomes of the call `wire.WriteMessage(p.writeConn, msg, ...)` in the
writer: it returns nil, it returns an error, or `disconnect` has set
`writeConn` to nil after the wait loop saw a connection, so that the call gets
a nil connection and panics. -/
inductive WriteResult where
  | written
  | failed (err : WriteError)
  | noConn
  deriving DecidableEq, Repr

/-- What the writer of a peer does that can be seen from outside. -/
inductive WriterEvent where
  | WriteMessage (msg : Message)
  | logError (text : String)
  | HandleTransactionSent (msg : Message)
  deriving DecidableEq, Repr

/-- The method `Peer.writeChannelHandler` on the messages taken from the
outbound buffer, each with what becomes of its `wire.WriteMessage` once the
write connection is there. The loop writes the message; a failure that is
`io.EOF` panics, any other failure is logged; a transaction message is then
reported to the handler in either case; the type switch that follows reads
`m.InvList[0]` of a GETDATA message, which panics when the list is empty. Then
the loop goes on; `returned` stands for the writer having handled every
message and waiting for the next. -/
def writeChannelHandler (HandleTransactionSent : Message → Option String) :
    List (Message × WriteResult) → Outcome Unit × List WriterEvent
  | [] => (Outcome.returned (), [])
  | (msg, result) :: rest =>
    match result with
    | WriteResult.noConn =>
      (Outcome.panicked "invalid memory address or nil pointer dereference",
        [WriterEvent.WriteMessage msg])
    | WriteResult.failed WriteError.EOF =>
      (Outcome.panicked "WRITE EOF", [WriterEvent.WriteMessage msg])
    | result =>
      let failure : List WriterEvent :=
        match result with
        | WriteResult.failed (WriteError.other err) =>
          [WriterEvent.logError ("Failed to write message: " ++ err)]
        | _ => []
      let sent : List WriterEvent :=
        match msg with
        | Message.MsgTx _ =>
          WriterEvent.HandleTransactionSent msg ::
            (match HandleTransactionSent msg with
              | some err => [WriterEvent.logError ("Unable to process tx: " ++ err)]
              | none => [])
        | _ => []
      match msg with
      | Message.MsgGetData [] =>
        (Outcome.panicked "index out of range [0] with length 0",
          WriterEvent.WriteMessage msg :: (failure ++ sent))
      | _ =>
        let r := writeChannelHandler HandleTransactionSent rest
        (r.1, WriterEvent.WriteMessage msg :: (failure ++ sent ++ r.2))

/-- Whether the writer gets past a queued message: its write returned, with nil
or with an error other than `io.EOF`, and it is not a GETDATA message without
vectors. -/
def writerGoesOn (q : Message × WriteResult) : Bool :=
  (match q.2 with
    | WriteResult.written => true
    | WriteResult.failed (WriteError.other _) => true
    | _ => false)
  && decide (q.1 ≠ Message.MsgGetData [])

/-- The messages the writer handed to `wire.WriteMessage`, in order. -/
def writesMade (events : List WriterEvent) : List Message :=
  events.filterMap (fun e =>
    match e with
    | WriterEvent.WriteMessage msg => some msg
    | _ => none)

/-- The method `Peer.handleGetDataMsg`: the outbound buffer after the vectors
of a GETDATA message were handled. `GetTransactionBytes` is the handler's
answer (bytes and error), `NewTxFromBytes` the parser of `bsvutil`. The list
is the sequence of sends on `writeChan`: a send on a full channel waits for the
writer and then takes its place in the same order. -/
def handleGetDataMsg (GetTransactionBytes : InvVect → Option (List Nat) × Option String)
    (NewTxFromBytes : List Nat → Except String (List Nat)) :
    List Message → List InvVect → List Message
  | writeChan, [] => writeChan
  | writeChan, invVect :: rest =>
    match invVect.Typ with
    | InvType.InvTypeTx =>
      match (GetTransactionBytes invVect).2 with
      | some _ => handleGetDataMsg GetTransactionBytes NewTxFromBytes writeChan rest
      | none =>
        match (GetTransactionBytes invVect).1 with
        | none => handleGetDataMsg GetTransactionBytes NewTxFromBytes writeChan rest
        | some txBytes =>
          match NewTxFromBytes txBytes with
          | Except.error _ =>
            handleGetDataMsg GetTransactionBytes NewTxFromBytes writeChan rest
          | Except.ok tx =>
            handleGetDataMsg GetTransactionBytes NewTxFromBytes
              (writeChan ++ [Message.MsgTx tx]) rest
    | InvType.InvTypeBlock =>
      handleGetDataMsg GetTransactionBytes NewTxFromBytes writeChan rest
    | InvType.other _ =>
      handleGetDataMsg GetTransactionBytes NewTxFromBytes writeChan rest

/-- The TX message owed for an inventory vector, as the specification words it:
one for a transaction vector whose bytes the handler returns without error and
which parse, none for any other vector. -/
def expectedTxMessage (GetTransactionBytes : InvVect → Option (List Nat) × Option String)
    (NewTxFromBytes : List Nat → Except String (List Nat)) (invVect : InvVect) :
    Option Message :=
  if invVect.Typ = InvType.InvTypeTx then
    match GetTransactionBytes invVect with
    | (some txBytes, none) =>
      match NewTxFromBytes txBytes with
      | Except.ok tx => some (Message.MsgTx tx)
      | Except.error _ => none
    | _ => none
  else none

/-- The first loop of `PeerManager.sendInvBatch`: the inventory list of the INV
message. `AddInvVect` is the method of `wire.MsgInv`, which returns the list
and an error; the error is dropped. -/
def buildInvList (AddInvVect : List InvVect → InvVect → List InvVect × Option String) :
    List InvVect → List (List Nat) → List InvVect
  | InvList, [] => InvList
  | InvList, txid :: rest =>
    match NewHash txid with
    | none => buildInvList AddInvVect InvList rest
    | some hash =>
      buildInvList AddInvVect (AddInvVect InvList (NewInvVect InvType.InvTypeTx hash)).1 rest

/-- The capacity of `writeChan`: `make(chan wire.Message, 100)` in `NewPeer`. -/
def writeChanCapacity : Nat := 100

/-- The call `utils.SafeSend(peer.writeChan, msg)`: a send on the channel (it
is never closed, so the recover of `SafeSend` plays no part). With room in the
buffer the message is queued. On a full buffer the send waits until the writer
of the peer receives a message; `writerReceives` tells whether it does, which
it does not while it waits for the write connection with a message in hand
(`Peer.go`, the loop at the head of `writeChannelHandler`). When it does, the
head of the buffer goes to the writer and the message is queued; when it does
not, the send does not return (`none`). -/
def SafeSend (writerReceives : Bool) (writeChan : List Message) (msg : Message) :
    Option (List Message) :=
  if writeChan.length < writeChanCapacity then some (writeChan ++ [msg])
  else if writerReceives then some (writeChan.tail ++ [msg])
  else none

/-- The second loop of `PeerManager.sendInvBatch`, over the peers in the order
of the range: whether the loop came to its end, and the peers as it left them.
A send that does not return leaves the peers after it as they were. -/
def sendToPeers (writerReceives : String → Bool) (invMsg : Message) :
    List (String × Peer) → Bool × List (String × Peer)
  | [] => (true, [])
  | (address, peer) :: rest =>
    match SafeSend (writerReceives address) peer.writeChan invMsg with
    | none => (false, (address, peer) :: rest)
    | some writeChan =>
      let r := sendToPeers writerReceives invMsg rest
      (r.1, (address, { peer with writeChan := writeChan }) :: r.2)

/-- A peer after a send that returned: the message is the last of its buffer,
behind the messages that were queued, less the first of them when the writer
had to make room. -/
def afterSend (msg : Message) (ap : String × Peer) : String × Peer :=
  (ap.1, { ap.2 with
    writeChan :=
      (if ap.2.writeChan.length < writeChanCapacity then ap.2.writeChan
        else ap.2.writeChan.tail) ++ [msg] })

/-- The method `PeerManager.sendInvBatch`: whether the call returns, and the
peers of the manager, by address, as it leaves them. `writerReceives` tells
for each address whether the writer of that peer receives from a full
buffer. -/
def sendInvBatch (AddInvVect : List InvVect → InvVect → List InvVect × Option String)
    (writerReceives : String → Bool) (batch : List (List Nat))
    (peers : List (String × Peer)) : Bool × List (String × Peer) :=
  let invMsg := Message.MsgInv (buildInvList AddInvVect [] batch)
  sendToPeers writerReceives invMsg peers

/-- A method `AddInvVect` that adds the vector unless the message would hold
more than `MaxInvPerMsg` vectors. -/
def AddInvVectUpTo (MaxInvPerMsg : Nat) (InvList : List InvVect) (iv : InvVect) :
    List InvVect × Option String :=
  if InvList.length + 1 > MaxInvPerMsg then (InvList, some "too many invvect in message")
  else (InvList ++ [iv], none)

/-! ## Status lookup and lock release -/

/-- The method `Server.getTransactionData`: the record with the announced,
mined and stored timestamps. `DecodeString` is `hex.DecodeString` and
`storeGet` the method `Get` of the store, called on the reversed bytes; a time
of the record is a number of seconds counted from the zero time. A store that
returns neither a record nor an error leaves a nil record to be read. -/
def getTransactionData (DecodeString : String → Except String (List Nat))
    (storeGet : List Nat → Option StoreData × Option String) (Txid : String) :
    Outcome (Except String (StoreData × Option Int × Option Int × Option Int)) :=
  match DecodeString Txid with
  | Except.error err => Outcome.returned (Except.error err)
  | Except.ok txBytes =>
    let hash := txBytes.reverse
    match storeGet hash with
    | (_, some err) => Outcome.returned (Except.error err)
    | (none, none) => Outcome.panicked "invalid memory address or nil pointer dereference"
    | (some data, none) =>
      let announcedAt := if data.AnnouncedAt = 0 then none else some data.AnnouncedAt
      let minedAt := if data.MinedAt = 0 then none else some data.MinedAt
      let storedAt := if data.StoredAt = 0 then none else some data.StoredAt
      Outcome.returned (Except.ok (data, announcedAt, minedAt, storedAt))

/-- The method `Server.GetTransactionStatus`. `NewHashFromStr` is
`chainhash.NewHashFromStr` and `GetTransactionMerklePath` the call to BlockTx,
which returns a string and an error; the error is only logged. -/
def GetTransactionStatus (DecodeString : String → Except String (List Nat))
    (NewHashFromStr : String → Except String Hash)
    (storeGet : List Nat → Option StoreData × Option String)
    (GetTransactionMerklePath : Hash → String × Option String) (Txid : String) :
    Outcome (Except String TransactionStatus) :=
  match getTransactionData DecodeString storeGet Txid with
  | Outcome.panicked msg => Outcome.panicked msg
  | Outcome.returned (Except.error err) => Outcome.returned (Except.error err)
  | Outcome.returned (Except.ok (data, announcedAt, minedAt, storedAt)) =>
    let blockHash :=
      match data.BlockHash with
      | some b => Hash.String b
      | none => ""
    match NewHashFromStr Txid with
    | Except.error err => Outcome.returned (Except.error err)
    | Except.ok hash =>
      match data.Hash with
      | none => Outcome.panicked "invalid memory address or nil pointer dereference"
      | some dataHash =>
        let status : TransactionStatus :=
          { Txid := Hash.String dataHash
            AnnouncedAt := announcedAt
            StoredAt := storedAt
            MinedAt := minedAt
            Status := data.Status
            BlockHeight := data.BlockHeight
            BlockHash := blockHash
            RejectReason := data.RejectReason }
        let merklePath := (GetTransactionMerklePath hash).1
        Outcome.returned (Except.ok { status with MerklePath := merklePath })

/-- The message `metamorph_api.SetUnlockedByNameResponse`; `RecordsAffected`
is an `int32`. -/
structure SetUnlockedByNameResponse where
  RecordsAffected : Int
  deriving DecidableEq, Repr

/-- The conversion `int32(x)` of an `int64`: the low 32 bits, read as a signed
number. -/
def int32 (x : Int) : Int :=
  (x + 2147483648) % 4294967296 - 2147483648

/-- The method `Server.SetUnlockedByName`; `storeSetUnlockedByName` is the
method of the store, which returns an `int64` and an error. -/
def SetUnlockedByName (storeSetUnlockedByName : String → Int × Option String)
    (Name : String) : Except String SetUnlockedByNameResponse :=
  let r := storeSetUnlockedByName Name
  match r.2 with
  | some err => Except.error err
  | none => Except.ok { RecordsAffected := int32 r.1 }

/-! ## The methods of the processor response map -/

/-- The struct `ProcessorResponseMap`. The field `now` is a clock: it gives the
time it shows when the time of the system clock is its argument, so that
`time.Now` is the identity. -/
structure ProcessorResponseMap where
  Expiry : Int
  ResponseItems : Arc.ResponseItems
  now : Int → Int

/-- The option `WithNowResponseMap`. -/
def WithNowResponseMap (nowFunc : Int → Int) (p : ProcessorResponseMap) :
    ProcessorResponseMap :=
  { p with now := nowFunc }

/-- The constructor `NewProcessorResponseMap` (without the clean-up ticker it
starts). -/
def NewProcessorResponseMap (expiry : Int)
    (opts : List (ProcessorResponseMap → ProcessorResponseMap)) : ProcessorResponseMap :=
  opts.foldl (fun m opt => opt m) { Expiry := expiry, ResponseItems := [], now := id }

/-- The method `ProcessorResponseMap.Len`. -/
def ResponseItems.Len (m : ResponseItems) : Nat :=
  m.length

/-- The filter in force in `Hashes` and `Items`: the first of the variadic
arguments, or the function that accepts every item. -/
def filterInForce (filterFunc : List (ProcessorResponse → Bool)) : ProcessorResponse → Bool :=
  match filterFunc with
  | f :: _ => f
  | [] => fun _ => true

/-- The loop of `ProcessorResponseMap.Hashes`: the field `Hash` of every item
that passes is copied and appended; slicing a nil `Hash` panics. -/
def hashesLoop (fn : ProcessorResponse → Bool) :
    List (Hash × ProcessorResponse) → List Hash → Outcome (List Hash)
  | [], hashes => Outcome.returned hashes
  | (_, item) :: rest, hashes =>
    if fn item then
      match item.Hash with
      | some h => hashesLoop fn rest (hashes ++ [h])
      | none => Outcome.panicked "invalid memory address or nil pointer dereference"
    else hashesLoop fn rest hashes

/-- The method `ProcessorResponseMap.Hashes`; the entries are visited in the
order of the list. -/
def ResponseItems.Hashes (m : ResponseItems) (filterFunc : List (ProcessorResponse → Bool)) :
    Outcome (List Hash) :=
  hashesLoop (filterInForce filterFunc) m []

/-- The loop of `ProcessorResponseMap.Items`: every entry that passes is put
into the new map under its key. -/
def itemsLoop (fn : ProcessorResponse → Bool) :
    List (Hash × ProcessorResponse) → ResponseItems → ResponseItems
  | [], items => items
  | (hash, item) :: rest, items =>
    if fn item then itemsLoop fn rest (ResponseItems.Set items hash item)
    else itemsLoop fn rest items

/-- The method `ProcessorResponseMap.Items`: the new map, and the response map
as the call leaves it. -/
def ResponseItems.Items (m : ResponseItems) (filterFunc : List (ProcessorResponse → Bool)) :
    ResponseItems × ResponseItems :=
  (itemsLoop (filterInForce filterFunc) m [], m)

/-- The method `ProcessorResponseMap.Clear`. -/
def ProcessorResponseMap.Clear (m : ProcessorResponseMap) : ProcessorResponseMap :=
  { m with ResponseItems := [] }

/-- The loop of `ProcessorResponseMap.Clean`: `timeNow` is what `time.Now`
gives inside `time.Since`. -/
def cleanLoop (timeNow Expiry : Int) :
    List (Hash × ProcessorResponse) → ResponseItems → ResponseItems
  | [], items => items
  | (key, item) :: rest, items =>
    if timeNow - item.Start > Expiry then
      cleanLoop timeNow Expiry rest (ResponseItems.Delete items key)
    else cleanLoop timeNow Expiry rest items

/-- The method `ProcessorResponseMap.Clean`, called when the system clock
shows `timeNow`. -/
def ProcessorResponseMap.Clean (m : ProcessorResponseMap) (timeNow : Int) :
    ProcessorResponseMap :=
  { m with ResponseItems := cleanLoop timeNow m.Expiry m.ResponseItems m.ResponseItems }

/-- Modelled from the spec: the method `ProcessorResponse.GetRetries` of the
package `processor_response`, which is not among the sources: the value of the
retry counter, a `uint32`. -/
def ProcessorResponse.GetRetries (r : ProcessorResponse) : Nat :=
  r.Retries

/-- Modelled from the spec: the method `ProcessorResponse.IncrementRetry` of
the package `processor_response`, which is not among the sources: the retry
counter, a `uint32`, is incremented and its new value returned. -/
def ProcessorResponse.IncrementRetry (r : ProcessorResponse) : Nat × ProcessorResponse :=
  let n := (r.Retries + 1) % 4294967296
  (n, { r with Retries := n })

/-- The field `ResponseItems` as Go holds it, a
`map[chainhash.Hash]*ProcessorResponse`, with the objects the pointers lead
to: `objects` are the items, an address is a position in that list, and
`entries` gives every key its pointer. A pointer that is no position of
`objects` stands for nil. Two keys may hold the same pointer. -/
structure PointerItems where
  objects : List ProcessorResponse := []
  entries : List (Hash × Nat) := []
  deriving DecidableEq, Repr

/-- The lookup `m.ResponseItems[*hash]` with its `ok`: the pointer under the
key. -/
def PointerItems.lookup (m : PointerItems) (hash : Hash) : Option Nat :=
  match m.entries.find? (fun kv => decide (kv.1 = hash)) with
  | some kv => some kv.2
  | none => none

/-- The method `ProcessorResponseMap.Get`, followed through the pointer: the
item a key leads to. -/
def PointerItems.Get (m : PointerItems) (hash : Hash) : Option ProcessorResponse :=
  match m.lookup hash with
  | some ptr => m.objects[ptr]?
  | none => none

/-- The method `ProcessorResponseMap.Set` with the pointer `value`: the entry
of the key is replaced, the objects stay as they are. -/
def PointerItems.Set (m : PointerItems) (hash : Hash) (value : Nat) : PointerItems :=
  { m with entries := (hash, value) :: m.entries.filter (fun kv => !decide (kv.1 = hash)) }

/-- The map after a write through a pointer: the object at `ptr` is replaced,
the entries are as before. -/
def PointerItems.store (m : PointerItems) (ptr : Nat) (item : ProcessorResponse) :
    PointerItems :=
  { m with objects := m.objects.set ptr item }

/-- An item with its retry counter set to `n`. -/
def ProcessorResponse.withRetries (r : ProcessorResponse) (n : Nat) : ProcessorResponse :=
  { r with Retries := n }

/-- The method `ProcessorResponseMap.Retries`; a nil item under the key is
dereferenced by `GetRetries`, which reads its counter. -/
def PointerItems.Retries (m : PointerItems) (hash : Hash) : Outcome Nat :=
  match m.lookup hash with
  | none => Outcome.returned 0
  | some ptr =>
    match m.objects[ptr]? with
    | none => Outcome.panicked "invalid memory address or nil pointer dereference"
    | some item => Outcome.returned item.GetRetries

/-- The method `ProcessorResponseMap.IncrementRetry`: the count it returns and
the map after the call. The item is changed in place, through the pointer the
map holds under the key; a nil item is dereferenced by the method of the item,
which writes its counter. -/
def PointerItems.IncrementRetry (m : PointerItems) (hash : Hash) :
    Outcome (Nat × PointerItems) :=
  match m.lookup hash with
  | none => Outcome.returned (0, m)
  | some ptr =>
    match m.objects[ptr]? with
    | none => Outcome.panicked "invalid memory address or nil pointer dereference"
    | some item =>
      let r := item.IncrementRetry
      Outcome.returned (r.1, m.store ptr r.2)

/-- A call of one of the methods that change the response map; `Clean` comes
with the time the system clock shows. -/
inductive MapCall where
  | Set (hash : Hash) (value : ProcessorResponse)
  | Delete (hash : Hash)
  | Clear
  | Clean (timeNow : Int)

/-- The response map after one call. -/
def ProcessorResponseMap.call (m : ProcessorResponseMap) : MapCall → ProcessorResponseMap
  | MapCall.Set hash value => { m with ResponseItems := ResponseItems.Set m.ResponseItems hash value }
  | MapCall.Delete hash => { m with ResponseItems := ResponseItems.Delete m.ResponseItems hash }
  | MapCall.Clear => m.Clear
  | MapCall.Clean timeNow => m.Clean timeNow

/-- The response map after a sequence of calls. -/
def ProcessorResponseMap.calls (m : ProcessorResponseMap) (cs : List MapCall) :
    ProcessorResponseMap :=
  cs.foldl ProcessorResponseMap.call m

/-- Whether a call stores an item under the hash the item carries; a call
that is not a `Set` stores nothing. -/
def MapCall.keyed : MapCall → Bool
  | MapCall.Set hash value => decide (value.Hash = some hash)
  | _ => true

/-- The keys of the entries that pass a filter, in the order of the list. -/
def keysPassing (m : ResponseItems) (fn : ProcessorResponse → Bool) : List Hash :=
  (m.filter (fun kv => fn kv.2)).map Prod.fst

/-! ## Sample collaborators for the worked examples -/

/-- A stand-in for the double SHA-256: the first 32 bytes of the input padded
with zeros. Short inputs that differ get different hashes. -/
def padHash (raw : List Nat) : Hash :=
  ⟨(raw ++ List.replicate 32 0).take 32, by simp [List.length_take, List.length_append]⟩

/-- A library in which every callback URL but "api.callback.com" parses and a
transaction has the single input "prev":0. -/
def demoLibrary : Library :=
  { DoubleHashH := padHash
    ParseRequestURI := fun url =>
      if url = "api.callback.com" then some "parse \"api.callback.com\": invalid URI for request"
      else none
    NewTxFromBytes := fun _ => Except.ok [{ PreviousTxIDStr := "prev", PreviousTxOutIndex := 0 }] }

/-- Collaborators of instance "B" at a time when BlockTx names `owner` as the
owner of every transaction and reports the block `blockHash` at `blockHeight`;
the owner answers SEEN_ON_NETWORK with Merkle path "feed", the store holds no
record, every call succeeds and the processor delivers STORED and then
ANNOUNCED_TO_NETWORK. -/
def demoCollaborators (owner : String) (blockHash : Option (List Nat)) (blockHeight : Nat) :
    Collaborators :=
  { RegisterTransaction := fun _ _ =>
      Except.ok { Source := owner, MerklePath := "", BlockHash := blockHash,
                  BlockHeight := blockHeight }
    IsCentralised := false
    dialMetamorph := fun _ => none
    ownerPutTransaction := fun _ _ _ =>
      Except.ok { Txid := "owner-txid", Status := Status.SEEN_ON_NETWORK, MerklePath := "feed" }
    storeSet := fun _ _ => none
    storeUpdateMined := fun _ _ _ => none
    storeGet := fun _ => (none, some "not found")
    GetTxOut := fun _ _ _ => Except.ok (some ())
    processorSet := fun _ => none
    responses := fun _ =>
      [ { Hash := none, Status := Status.STORED, Err := none },
        { Hash := none, Status := Status.ANNOUNCED_TO_NETWORK, Err := none } ] }

/-- Collaborators of instance "B" during a batch: BlockTx names "B" as the
owner and reports no block; the store has no record of the first request and
its read fails for every later request; the processor delivers STORED. -/
def batchCollaborators (i : Nat) : Collaborators :=
  { demoCollaborators "B" none 0 with
    storeGet := fun _ => if i = 0 then (none, some "not found") else (none, some "read timeout")
    responses := fun _ => [{ Hash := none, Status := Status.STORED, Err := none }] }

/-- A row of the table of `TestSendStatusForTransaction`: a response map that
holds the transaction with status `current` receives the update `new`; the
result is whether the status was updated and how often the store was called. -/
def sendStatusTestRow (current new : Status) : Bool × Nat :=
  let r := SendStatusForTransaction [(padHash [1], { Hash := some (padHash [1]), Status := current })]
    (padHash [1]) new none
  (r.statusUpdated, r.updateStatusCalls.length)

/-- The context of a call that arrived with the metadata `forwarded=true`. -/
def forwardedContext : Context :=
  received (createForwardedContext {})

/-- The record the loop holds after reading every response of a list. -/
def lastRecorded (r : TransactionStatus) (responses : List StatusAndError) :
    TransactionStatus :=
  match responses.getLast? with
  | some e => recordResponse r e
  | none => r

/-! ## Properties of the wait -/

/-- The comparison of the code agrees with the ordinals of the specification. -/
theorem reached_iff_specOrd (s w : Status) :
    hasWaitForStatusReached s w = true ↔ specOrd w ≤ specOrd s := by
  cases s <;> cases w <;> decide

/-- C1: for the thirteen statuses, `hasWaitForStatusReached s w` holds exactly
when the ordinal of `s` is at least the ordinal of `w`. -/
theorem hasWaitForStatusReached_iff_specOrd (s w : Status) :
    hasWaitForStatusReached s w = true ↔ specOrd s ≥ specOrd w := by
  cases s <;> cases w <;> decide

/-- Recording a response forgets what an earlier response had recorded. -/
theorem recordResponse_recordResponse (r : TransactionStatus) (a b : StatusAndError) :
    recordResponse (recordResponse r a) b = recordResponse r b := rfl

/-- The loop stops at the first response that reaches the target. -/
theorem waitLoop_first_reached (t : Status) (e : StatusAndError) (post : List StatusAndError)
    (he : hasWaitForStatusReached e.Status t = true) :
    ∀ (pre : List StatusAndError) (r : TransactionStatus),
      (∀ x ∈ pre, hasWaitForStatusReached x.Status t = false) →
      waitLoop t r (pre ++ e :: post) = recordResponse r e := by
  intro pre
  induction pre with
  | nil =>
    intro r _
    simp [waitLoop, recordResponse, he]
  | cons a pre ih =>
    intro r hpre
    have ha : hasWaitForStatusReached a.Status t = false := hpre a (List.mem_cons_self a pre)
    have hrest : ∀ x ∈ pre, hasWaitForStatusReached x.Status t = false :=
      fun x hx => hpre x (List.mem_cons_of_mem a hx)
    have hstep : waitLoop t r (a :: (pre ++ e :: post))
        = waitLoop t (recordResponse r a) (pre ++ e :: post) := by
      simp [waitLoop, recordResponse, ha]
    rw [List.cons_append, hstep, ih (recordResponse r a) hrest, recordResponse_recordResponse]

/-- When no response reaches the target the loop ends in the timer case with
the last response recorded. -/
theorem waitLoop_none_reached (t : Status) :
    ∀ (responses : List StatusAndError) (r : TransactionStatus),
      (∀ x ∈ responses, hasWaitForStatusReached x.Status t = false) →
      waitLoop t r responses = { lastRecorded r responses with TimedOut := true } := by
  intro responses
  induction responses with
  | nil =>
    intro r _
    simp [waitLoop, lastRecorded]
  | cons a rest ih =>
    intro r h
    have ha : hasWaitForStatusReached a.Status t = false := h a (List.mem_cons_self a rest)
    have hrest : ∀ x ∈ rest, hasWaitForStatusReached x.Status t = false :=
      fun x hx => h x (List.mem_cons_of_mem a hx)
    have hstep : waitLoop t r (a :: rest) = waitLoop t (recordResponse r a) rest := by
      simp [waitLoop, recordResponse, ha]
    rw [hstep, ih (recordResponse r a) hrest]
    cases rest with
    | nil => simp [lastRecorded]
    | cons b rest2 =>
      simp [lastRecorded, List.getLast?_cons_cons]
      cases hl : (b :: rest2).getLast? with
      | none => simp at hl
      | some e => simp [recordResponse]

theorem reached_false_of_lt (s t : Status) (h : specOrd s < specOrd t) :
    hasWaitForStatusReached s t = false := by
  cases hr : hasWaitForStatusReached s t with
  | false => rfl
  | true =>
    have := (reached_iff_specOrd s t).1 hr
    omega

/-- C2, as stated, fails: a request without a wait target (value 0, `UNKNOWN`)
does not return at the first response, although every ordinal is at least 0. -/
theorem processTransaction_first_reached_literal_fails :
    ¬ (∀ (w : Status) (txid : String) (pre post : List StatusAndError) (e : StatusAndError),
        (∀ x ∈ pre, specOrd x.Status < specOrd w) → specOrd e.Status ≥ specOrd w →
        processTransaction w txid (pre ++ e :: post)
          = { Txid := txid, Status := e.Status, RejectReason := e.Err.getD "",
              TimedOut := false }) := by
  intro h
  have h1 := h Status.UNKNOWN "tx" [] []
    { Hash := none, Status := Status.RECEIVED, Err := none }
    (by intro x hx; cases hx) (by decide)
  revert h1
  decide

/-- C2 (amended): with the target `t` that is `w`, or `SEEN_ON_NETWORK` when
`w` is 0, the call returns at the first response whose ordinal is at least
that of `t`, with that response's status and reject reason and without the
timeout flag; the responses after it play no part. -/
theorem processTransaction_first_reached (w : Status) (txid : String)
    (pre post : List StatusAndError) (e : StatusAndError)
    (hpre : ∀ x ∈ pre, specOrd x.Status
      < specOrd (if w = Status.UNKNOWN then Status.SEEN_ON_NETWORK else w))
    (he : specOrd e.Status
      ≥ specOrd (if w = Status.UNKNOWN then Status.SEEN_ON_NETWORK else w)) :
    processTransaction w txid (pre ++ e :: post)
      = { Txid := txid, Status := e.Status, RejectReason := e.Err.getD "",
          TimedOut := false } := by
  unfold processTransaction
  have h := waitLoop_first_reached
    (if w = Status.UNKNOWN then Status.SEEN_ON_NETWORK else w) e post
    ((reached_iff_specOrd _ _).2 he) pre { Txid := txid }
    (fun x hx => reached_false_of_lt _ _ (hpre x hx))
  simp only [h, recordResponse]
  cases e.Err <;> rfl

theorem processTransaction_first_reached_witness :
    processTransaction Status.SENT_TO_NETWORK "tx"
        ([{ Hash := none, Status := Status.STORED, Err := none }]
          ++ { Hash := none, Status := Status.REJECTED, Err := some "some error" }
          :: [{ Hash := none, Status := Status.MINED, Err := none }])
      = { Txid := "tx", Status := Status.REJECTED, RejectReason := "some error",
          TimedOut := false } :=
  processTransaction_first_reached Status.SENT_TO_NETWORK "tx"
    [{ Hash := none, Status := Status.STORED, Err := none }]
    [{ Hash := none, Status := Status.MINED, Err := none }]
    { Hash := none, Status := Status.REJECTED, Err := some "some error" }
    (by decide) (by decide)

/-- C3: when no response has an ordinal at least that of the wait target `w`,
the call ends on the timeout with the status and reject reason of the last
response (`UNKNOWN` and no reason when there was none); responses RECEIVED,
STORED, ANNOUNCED_TO_NETWORK under target SEEN_ON_NETWORK give a timed-out
record with status ANNOUNCED_TO_NETWORK. -/
theorem processTransaction_timeout (w : Status) (txid : String)
    (responses : List StatusAndError)
    (h : ∀ x ∈ responses, specOrd x.Status < specOrd w) :
    processTransaction w txid responses
        = { Txid := txid, TimedOut := true,
            Status := (responses.getLast?.map (fun e => e.Status)).getD Status.UNKNOWN,
            RejectReason := (responses.getLast?.bind (fun e => e.Err)).getD "" }
      ∧ processTransaction Status.SEEN_ON_NETWORK txid
          [ { Hash := none, Status := Status.RECEIVED, Err := none },
            { Hash := none, Status := Status.STORED, Err := none },
            { Hash := none, Status := Status.ANNOUNCED_TO_NETWORK, Err := none } ]
        = { Txid := txid, TimedOut := true, Status := Status.ANNOUNCED_TO_NETWORK } := by
  have h1 : hasWaitForStatusReached Status.RECEIVED Status.SEEN_ON_NETWORK = false := by decide
  have h2 : hasWaitForStatusReached Status.STORED Status.SEEN_ON_NETWORK = false := by decide
  have h3 : hasWaitForStatusReached Status.ANNOUNCED_TO_NETWORK Status.SEEN_ON_NETWORK = false := by
    decide
  refine ⟨?_, by simp [processTransaction, waitLoop, recordResponse, h1, h2, h3]⟩
  unfold processTransaction
  by_cases hw : w = Status.UNKNOWN
  · subst hw
    have hnil : responses = [] := by
      cases responses with
      | nil => rfl
      | cons a rest =>
        have := h a (List.mem_cons_self a rest)
        simp [specOrd] at this
    subst hnil
    simp [waitLoop]
  · simp only [hw, if_false]
    rw [waitLoop_none_reached w responses { Txid := txid }
      (fun x hx => reached_false_of_lt _ _ (h x hx))]
    unfold lastRecorded
    cases responses.getLast? with
    | none => rfl
    | some e =>
      simp only [recordResponse, Option.map, Option.bind, Option.getD]
      cases e.Err <;> rfl

theorem processTransaction_timeout_witness :
    processTransaction Status.MINED "tx"
        [ { Hash := none, Status := Status.STORED, Err := none },
          { Hash := none, Status := Status.REJECTED, Err := some "bad" } ]
      = { Txid := "tx", TimedOut := true, Status := Status.REJECTED, RejectReason := "bad" } :=
  (processTransaction_timeout Status.MINED "tx"
    [ { Hash := none, Status := Status.STORED, Err := none },
      { Hash := none, Status := Status.REJECTED, Err := some "bad" } ]
    (by decide)).1

/-- The timeout case for the target in force: the responses only have to stay
below `SEEN_ON_NETWORK` when the request names no target. -/
theorem processTransaction_timeout_in_force (w : Status) (txid : String)
    (responses : List StatusAndError)
    (h : ∀ x ∈ responses, specOrd x.Status
      < specOrd (if w = Status.UNKNOWN then Status.SEEN_ON_NETWORK else w)) :
    processTransaction w txid responses
      = { Txid := txid, TimedOut := true,
          Status := (responses.getLast?.map (fun e => e.Status)).getD Status.UNKNOWN,
          RejectReason := (responses.getLast?.bind (fun e => e.Err)).getD "" } := by
  unfold processTransaction
  rw [waitLoop_none_reached _ responses { Txid := txid }
    (fun x hx => reached_false_of_lt _ _ (h x hx))]
  unfold lastRecorded
  cases responses.getLast? with
  | none => rfl
  | some e =>
    simp only [recordResponse, Option.map, Option.bind, Option.getD]
    cases e.Err <;> rfl

/-- C4: a call without a wait target (value 0, `UNKNOWN`) returns the same
record as a call with target `SEEN_ON_NETWORK`, whatever the responses. -/
theorem processTransaction_default_wait (txid : String) (responses : List StatusAndError) :
    processTransaction Status.UNKNOWN txid responses
      = processTransaction Status.SEEN_ON_NETWORK txid responses := by
  simp [processTransaction]

/-! ## Properties of the submission path -/

theorem checkInputs_no_forward (c : Collaborators) :
    ∀ (inputs : List Input), ∀ e ∈ (checkInputs c inputs).2, Effect.isForward e = false := by
  intro inputs
  induction inputs with
  | nil => intro e he; simp [checkInputs] at he
  | cons input rest ih =>
    intro e he
    unfold checkInputs at he
    split at he
    · simp at he; subst he; rfl
    · simp at he; subst he; rfl
    · simp at he
      rcases he with he | he
      · subst he; rfl
      · exact ih e he

theorem CheckUtxos_no_forward (lib : Library) (c : Collaborators) (rawTx : List Nat) :
    ∀ e ∈ (CheckUtxos lib c rawTx).2, Effect.isForward e = false := by
  intro e he
  unfold CheckUtxos at he
  split at he
  · simp at he
  · exact checkInputs_no_forward c _ e he

theorem initCheck_no_forward (s : Server) (lib : Library) (c : Collaborators)
    (req : TransactionRequest) (rtr : RegisterTransactionResponse) (hash : Hash)
    (status : Status) (trace : List Effect)
    (ht : ∀ e ∈ trace, Effect.isForward e = false) :
    ∀ e ∈ (initCheck s lib c req rtr hash status trace).2, Effect.isForward e = false := by
  intro e he
  have hget : ∀ e ∈ trace ++ [Effect.storeGet hash], Effect.isForward e = false := by
    intro e he
    rcases List.mem_append.1 he with h | h
    · exact ht e h
    · simp at h; subst h; rfl
  unfold initCheck at he
  split at he
  · exact hget e he
  · split at he
    · dsimp only at he
      split at he
      · rcases List.mem_append.1 he with h | h
        · exact hget e h
        · exact CheckUtxos_no_forward lib c _ e h
      · rcases List.mem_append.1 he with h | h
        · exact hget e h
        · exact CheckUtxos_no_forward lib c _ e h
    · exact hget e he

/-- C5: a request that carries `forwarded=true` is never forwarded: no call of
`putTransactionInit` dials another instance or calls a remote `PutTransaction`;
and when the registered owner is another instance and the store is not
centralised, the call returns the error "endless forwarding loop detected"
and no status. -/
theorem putTransactionInit_forwarded_not_forwarded (s : Server) (lib : Library)
    (c : Collaborators) (ctx : Context) (req : TransactionRequest)
    (hf : isForwarded ctx = true) :
    (∀ e ∈ (putTransactionInit s lib c ctx req).2, Effect.isForward e = false)
    ∧ (∀ rtr : RegisterTransactionResponse,
        c.RegisterTransaction (lib.DoubleHashH req.RawTx) s.source = Except.ok rtr →
        c.IsCentralised = false → rtr.Source ≠ s.source →
        (putTransactionInit s lib c ctx req).1
          = Outcome.returned { status := Status.UNKNOWN, hash := none,
                               transactionStatus := none,
                               err := some "endless forwarding loop detected" }) := by
  constructor
  · intro e he
    unfold putTransactionInit at he
    simp only [hf, if_true] at he
    split at he
    · simp at he; subst he; rfl
    · split at he
      · simp at he; subst he; rfl
      · have h0 : ∀ e ∈ [Effect.RegisterTransaction (lib.DoubleHashH req.RawTx) s.source],
            Effect.isForward e = false := by
          intro e he; simp at he; subst he; rfl
        split at he
        · split at he
          · rcases List.mem_append.1 he with h | h
            · rcases List.mem_append.1 h with h | h
              · exact h0 e h
              · simp at h; subst h; rfl
            · simp at h; subst h; rfl
          · refine initCheck_no_forward s lib c req _ _ _ _ ?_ e he
            intro e he
            rcases List.mem_append.1 he with h | h
            · rcases List.mem_append.1 h with h | h
              · exact h0 e h
              · simp at h; subst h; rfl
            · simp at h; subst h; rfl
        · exact initCheck_no_forward s lib c req _ _ _ _ h0 e he
  · intro rtr hr hc hs
    unfold putTransactionInit
    simp [hr, hc, hs, hf, initError]

theorem putTransactionInit_forwarded_not_forwarded_witness :
    (∀ e ∈ (putTransactionInit { source := "B" } demoLibrary (demoCollaborators "A" none 0)
        forwardedContext { RawTx := [1, 2, 3] }).2, Effect.isForward e = false)
    ∧ (∀ rtr : RegisterTransactionResponse,
        (demoCollaborators "A" none 0).RegisterTransaction
            (demoLibrary.DoubleHashH [1, 2, 3]) "B" = Except.ok rtr →
        (demoCollaborators "A" none 0).IsCentralised = false → rtr.Source ≠ "B" →
        (putTransactionInit { source := "B" } demoLibrary (demoCollaborators "A" none 0)
            forwardedContext { RawTx := [1, 2, 3] }).1
          = Outcome.returned { status := Status.UNKNOWN, hash := none,
                               transactionStatus := none,
                               err := some "endless forwarding loop detected" }) :=
  putTransactionInit_forwarded_not_forwarded { source := "B" } demoLibrary
    (demoCollaborators "A" none 0) forwardedContext { RawTx := [1, 2, 3] } (by decide)

/-- The calls `checkInputs` makes are all `GetTxOut`. -/
theorem checkInputs_trace (c : Collaborators) :
    ∀ (inputs : List Input), ∀ e ∈ (checkInputs c inputs).2,
      ∃ txHex vout includeMempool, e = Effect.GetTxOut txHex vout includeMempool := by
  intro inputs
  induction inputs with
  | nil => intro e he; simp [checkInputs] at he
  | cons input rest ih =>
    intro e he
    unfold checkInputs at he
    split at he
    · simp at he; exact ⟨_, _, _, he⟩
    · simp at he; exact ⟨_, _, _, he⟩
    · simp at he
      rcases he with he | he
      · exact ⟨_, _, _, he⟩
      · exact ih e he

/-- The tail of `putTransactionInit` adds only the store read and `GetTxOut`
calls to the trace. -/
theorem initCheck_trace (s : Server) (lib : Library) (c : Collaborators)
    (req : TransactionRequest) (rtr : RegisterTransactionResponse) (hash : Hash)
    (status : Status) (trace : List Effect) :
    ∀ e ∈ (initCheck s lib c req rtr hash status trace).2,
      e ∈ trace ∨ e = Effect.storeGet hash
        ∨ ∃ txHex vout includeMempool, e = Effect.GetTxOut txHex vout includeMempool := by
  intro e he
  have hget : ∀ e ∈ trace ++ [Effect.storeGet hash], e ∈ trace ∨ e = Effect.storeGet hash := by
    intro e he
    rcases List.mem_append.1 he with h | h
    · exact Or.inl h
    · simp at h; exact Or.inr h
  have hutxo : ∀ e ∈ (CheckUtxos lib c req.RawTx).2,
      ∃ txHex vout includeMempool, e = Effect.GetTxOut txHex vout includeMempool := by
    intro e he
    unfold CheckUtxos at he
    split at he
    · simp at he
    · exact checkInputs_trace c _ e he
  have hboth : ∀ e ∈ (trace ++ [Effect.storeGet hash]) ++ (CheckUtxos lib c req.RawTx).2,
      e ∈ trace ∨ e = Effect.storeGet hash
        ∨ ∃ txHex vout includeMempool, e = Effect.GetTxOut txHex vout includeMempool := by
    intro e he
    rcases List.mem_append.1 he with h | h
    · rcases hget e h with h | h
      · exact Or.inl h
      · exact Or.inr (Or.inl h)
    · exact Or.inr (Or.inr (hutxo e h))
  unfold initCheck at he
  split at he
  · rcases hget e he with h | h
    · exact Or.inl h
    · exact Or.inr (Or.inl h)
  · split at he
    · dsimp only at he
      split at he
      · exact hboth e he
      · exact hboth e he
    · rcases hget e he with h | h
      · exact Or.inl h
      · exact Or.inr (Or.inl h)

/-- The tail of `putTransactionInit` keeps the calls made before it. -/
theorem initCheck_trace_keeps (s : Server) (lib : Library) (c : Collaborators)
    (req : TransactionRequest) (rtr : RegisterTransactionResponse) (hash : Hash)
    (status : Status) (trace : List Effect) :
    ∀ e ∈ trace, e ∈ (initCheck s lib c req rtr hash status trace).2 := by
  intro e he
  unfold initCheck
  split
  · simp [he]
  · split
    · dsimp only
      split <;> simp [he]
    · simp [he]

/-- C6, as stated, fails: the record `PutTransaction` returns for a forwarded
request is not always the record the owner returned. -/
theorem PutTransaction_forward_literal_fails :
    ¬ (∀ (s : Server) (lib : Library) (c : Collaborators) (ctx : Context)
        (req : TransactionRequest) (rtr : RegisterTransactionResponse)
        (ownerStatus : TransactionStatus),
        isForwarded ctx = false → c.IsCentralised = false →
        ValidateCallbackURL lib req.CallbackUrl = none →
        c.RegisterTransaction (lib.DoubleHashH req.RawTx) s.source = Except.ok rtr →
        rtr.Source ≠ s.source → c.dialMetamorph rtr.Source = none →
        c.ownerPutTransaction rtr.Source (createForwardedContext ctx) req
          = Except.ok ownerStatus →
        (PutTransaction s lib c ctx req).1 = Outcome.returned (Except.ok ownerStatus)) := by
  intro h
  have h1 := h { source := "B" } demoLibrary (demoCollaborators "A" none 0) {}
    { RawTx := [1, 2, 3] } { Source := "A" }
    { Txid := "owner-txid", Status := Status.SEEN_ON_NETWORK, MerklePath := "feed" }
    (by decide) rfl (by decide) rfl (by decide) rfl rfl
  have hv : (PutTransaction { source := "B" } demoLibrary (demoCollaborators "A" none 0) {}
      { RawTx := [1, 2, 3] }).1
      = Outcome.returned (Except.ok
          { Txid := "owner-txid", Status := Status.SEEN_ON_NETWORK, MerklePath := "" }) := by
    rfl
  rw [hv] at h1
  simp at h1

/-- C6 (amended): for a request that is not marked forwarded and whose callback
URL is valid, when the store is not centralised, the registered owner is
another instance, the dial succeeds and the owner returns a record,
`PutTransaction` calls the owner with a context tagged `forwarded=true`,
returns the owner's record with its Merkle path replaced by the one of the
registration response, and never calls the local `ProcessTransaction`. -/
theorem PutTransaction_forward (s : Server) (lib : Library) (c : Collaborators)
    (ctx : Context) (req : TransactionRequest) (rtr : RegisterTransactionResponse)
    (ownerStatus : TransactionStatus)
    (hf : isForwarded ctx = false) (hc : c.IsCentralised = false)
    (hu : ValidateCallbackURL lib req.CallbackUrl = none)
    (hr : c.RegisterTransaction (lib.DoubleHashH req.RawTx) s.source = Except.ok rtr)
    (hs : rtr.Source ≠ s.source) (hd : c.dialMetamorph rtr.Source = none)
    (ho : c.ownerPutTransaction rtr.Source (createForwardedContext ctx) req
      = Except.ok ownerStatus) :
    (PutTransaction s lib c ctx req).1
        = Outcome.returned (Except.ok { ownerStatus with MerklePath := rtr.MerklePath })
      ∧ (PutTransaction s lib c ctx req).2
        = [ Effect.RegisterTransaction (lib.DoubleHashH req.RawTx) s.source,
            Effect.dialMetamorph rtr.Source,
            Effect.ownerPutTransaction rtr.Source (createForwardedContext ctx) req ]
      ∧ isForwarded (received (createForwardedContext ctx)) = true
      ∧ ∀ e ∈ (PutTransaction s lib c ctx req).2, Effect.isProcess e = false := by
  have hinit : putTransactionInit s lib c ctx req
      = (Outcome.returned (initStatus { ownerStatus with MerklePath := rtr.MerklePath }),
         [ Effect.RegisterTransaction (lib.DoubleHashH req.RawTx) s.source,
           Effect.dialMetamorph rtr.Source,
           Effect.ownerPutTransaction rtr.Source (createForwardedContext ctx) req ]) := by
    unfold putTransactionInit
    simp [hr, hc, hs, hf, hd, ho]
  have hput : PutTransaction s lib c ctx req
      = (Outcome.returned (Except.ok { ownerStatus with MerklePath := rtr.MerklePath }),
         [ Effect.RegisterTransaction (lib.DoubleHashH req.RawTx) s.source,
           Effect.dialMetamorph rtr.Source,
           Effect.ownerPutTransaction rtr.Source (createForwardedContext ctx) req ]) := by
    unfold PutTransaction
    simp [hu, hinit, initStatus]
  refine ⟨by rw [hput], by rw [hput], rfl, ?_⟩
  intro e he
  rw [hput] at he
  simp at he
  rcases he with he | he | he <;> subst he <;> rfl

theorem PutTransaction_forward_witness :
    (PutTransaction { source := "B" } demoLibrary (demoCollaborators "A" none 0) {}
        { RawTx := [1, 2, 3] }).1
      = Outcome.returned (Except.ok
          { Txid := "owner-txid", Status := Status.SEEN_ON_NETWORK, MerklePath := "" }) :=
  (PutTransaction_forward { source := "B" } demoLibrary (demoCollaborators "A" none 0) {}
    { RawTx := [1, 2, 3] } { Source := "A" }
    { Txid := "owner-txid", Status := Status.SEEN_ON_NETWORK, MerklePath := "feed" }
    (by decide) rfl (by decide) rfl (by decide) rfl rfl).1

/-- C10, as stated, fails: a registration response that reports a block with a
hash of three bytes at height 0 makes `putTransactionInit` call
`store.UpdateMined` with a nil block hash and height 0. -/
theorem putTransactionInit_mined_literal_fails :
    ¬ (∀ (s : Server) (lib : Library) (c : Collaborators) (ctx : Context)
        (req : TransactionRequest) (rtr : RegisterTransactionResponse),
        c.RegisterTransaction (lib.DoubleHashH req.RawTx) s.source = Except.ok rtr →
        rtr.BlockHash ≠ none →
        ∀ (hash : Hash) (blockHash : Option Hash) (blockHeight : Nat),
          Effect.storeUpdateMined hash blockHash blockHeight
              ∈ (putTransactionInit s lib c ctx req).2 →
          blockHash ≠ none ∧ blockHeight ≠ 0) := by
  intro h
  have h1 := h { source := "B" } demoLibrary (demoCollaborators "B" (some [1, 2, 3]) 0) {}
    { RawTx := [1, 2, 3] } { Source := "B", BlockHash := some [1, 2, 3], BlockHeight := 0 }
    rfl (by decide) (padHash [1, 2, 3]) none 0 (by decide)
  exact h1.1 rfl

/-- C10 (amended): `putTransactionInit` hands to `store.UpdateMined` what the
registration response reports: the block hash parsed from its bytes and its
height. When the response carries a block hash of 32 bytes and a non-zero
height, every `UpdateMined` call gets that hash (present) and that height
(non-zero), and the call is made whenever the request is handled locally. -/
theorem putTransactionInit_mined (s : Server) (lib : Library) (c : Collaborators)
    (ctx : Context) (req : TransactionRequest) (rtr : RegisterTransactionResponse)
    (bytes : List Nat)
    (hr : c.RegisterTransaction (lib.DoubleHashH req.RawTx) s.source = Except.ok rtr)
    (hb : rtr.BlockHash = some bytes) (hlen : bytes.length = 32)
    (hh : rtr.BlockHeight ≠ 0) :
    (∀ (hash : Hash) (blockHash : Option Hash) (blockHeight : Nat),
        Effect.storeUpdateMined hash blockHash blockHeight
            ∈ (putTransactionInit s lib c ctx req).2 →
        hash = lib.DoubleHashH req.RawTx
          ∧ blockHash = some ⟨bytes, hlen⟩ ∧ blockHeight = rtr.BlockHeight
          ∧ blockHash ≠ none ∧ blockHeight ≠ 0)
    ∧ ((c.IsCentralised = true ∨ rtr.Source = s.source) →
        Effect.storeUpdateMined (lib.DoubleHashH req.RawTx) (some ⟨bytes, hlen⟩)
            rtr.BlockHeight ∈ (putTransactionInit s lib c ctx req).2) := by
  have hnew : NewHash bytes = some ⟨bytes, hlen⟩ := by simp [NewHash, hlen]
  constructor
  · intro hash blockHash blockHeight hmem
    have key : hash = lib.DoubleHashH req.RawTx
        ∧ blockHash = some ⟨bytes, hlen⟩ ∧ blockHeight = rtr.BlockHeight := by
      unfold putTransactionInit at hmem
      simp only [hr, hb, hnew] at hmem
      split at hmem
      · split at hmem
        · simp at hmem
        · split at hmem
          · simp at hmem
          · split at hmem
            · simp at hmem
            · simp at hmem
      · split at hmem
        · simp at hmem
          exact hmem
        · rcases initCheck_trace _ _ _ _ _ _ _ _ _ hmem with h | h | ⟨_, _, _, h⟩
          · simp at h
            exact h
          · cases h
          · cases h
    obtain ⟨h1, h2, h3⟩ := key
    refine ⟨h1, h2, h3, ?_, ?_⟩
    · rw [h2]; simp
    · rw [h3]; exact hh
  · intro hlocal
    have hcond : (!c.IsCentralised && decide (rtr.Source ≠ s.source)) = false := by
      rcases hlocal with h | h
      · simp [h]
      · simp [h]
    unfold putTransactionInit
    simp only [hr, hb, hnew, hcond]
    split
    · rename_i hfalse
      cases hfalse
    · split
      · simp
      · exact initCheck_trace_keeps _ _ _ _ _ _ _ _ _ (by simp)

theorem putTransactionInit_mined_witness :
    Effect.storeUpdateMined (padHash [1, 2, 3]) (some ⟨List.replicate 32 7, rfl⟩) 812
      ∈ (putTransactionInit { source := "B" } demoLibrary
          (demoCollaborators "B" (some (List.replicate 32 7)) 812) {}
          { RawTx := [1, 2, 3] }).2 :=
  (putTransactionInit_mined { source := "B" } demoLibrary
    (demoCollaborators "B" (some (List.replicate 32 7)) 812) {} { RawTx := [1, 2, 3] }
    { Source := "B", BlockHash := some (List.replicate 32 7), BlockHeight := 812 }
    (List.replicate 32 7) rfl rfl rfl (by decide)).2 (Or.inr rfl)

/-! ## Status updates -/

/-- C9: for an entry of the response map with status `current`, an update to
`new` is accepted only if the ordinal of `new` is at least that of `current`
or `new` is REJECTED and `current` is not terminal; REJECTED is accepted from
every non-terminal status; once the entry is REJECTED every non-terminal
update is refused, the map is left as it was and the store is not called; for
a hash that is absent nothing is updated and false is returned. -/
theorem SendStatusForTransaction_rule (items : ResponseItems) (hash : Hash)
    (new : Status) (err : Option String) :
    (ResponseItems.Get items hash = none →
        SendStatusForTransaction items hash new err
          = { statusUpdated := false, items := items, updateStatusCalls := [] })
    ∧ (∀ entry : ProcessorResponse, ResponseItems.Get items hash = some entry →
        ((SendStatusForTransaction items hash new err).statusUpdated = true →
            specOrd new ≥ specOrd entry.Status
              ∨ (new = Status.REJECTED ∧ isTerminal entry.Status = false))
        ∧ (new = Status.REJECTED → isTerminal entry.Status = false →
            (SendStatusForTransaction items hash new err).statusUpdated = true
              ∧ (SendStatusForTransaction items hash new err).updateStatusCalls
                = [{ hash := hash, status := Status.REJECTED, rejectReason := err.getD "" }])
        ∧ (entry.Status = Status.REJECTED → isTerminal new = false →
            SendStatusForTransaction items hash new err
              = { statusUpdated := false, items := items, updateStatusCalls := [] })) := by
  refine ⟨?_, ?_⟩
  · intro h
    simp [SendStatusForTransaction, h]
  · intro entry h
    refine ⟨?_, ?_, ?_⟩
    · intro hup
      have hacc : statusUpdateAccepted entry.Status new = true := by
        by_contra hn
        simp [SendStatusForTransaction, h, hn] at hup
      revert hacc
      cases entry.Status <;> cases new <;> decide
    · intro hnew hterm
      subst hnew
      have hacc : statusUpdateAccepted entry.Status Status.REJECTED = true := by
        revert hterm
        cases entry.Status <;> decide
      simp only [SendStatusForTransaction, h, hacc, if_true]
      cases err <;> simp
    · intro hcur hterm
      have hacc : statusUpdateAccepted entry.Status new = false := by
        rw [hcur]
        revert hterm
        cases new <;> decide
      simp [SendStatusForTransaction, h, hacc]

/-! ## Batches -/

/-- The hash `putTransactionInit` returns is the double hash of the raw
transaction. -/
theorem putTransactionInit_hash (s : Server) (lib : Library) (c : Collaborators)
    (ctx : Context) (req : TransactionRequest) (r : InitResult) (hash : Hash)
    (hr : (putTransactionInit s lib c ctx req).1 = Outcome.returned r)
    (hh : r.hash = some hash) : hash = lib.DoubleHashH req.RawTx := by
  have hcheck : ∀ (rtr : RegisterTransactionResponse) (status : Status) (trace : List Effect),
      (initCheck s lib c req rtr (lib.DoubleHashH req.RawTx) status trace).1
        = Outcome.returned r → hash = lib.DoubleHashH req.RawTx := by
    intro rtr status trace h
    unfold initCheck at h
    split at h
    · simp [initStatus] at h; subst h; simp at hh
    · split at h
      · dsimp only at h
        split at h
        · simp at h
        · simp [initStatus] at h; subst h; simp at hh
      · simp at h; subst h; simp at hh; exact hh.symm
  unfold putTransactionInit at hr
  dsimp only at hr
  cases hreg : c.RegisterTransaction (lib.DoubleHashH req.RawTx) s.source with
  | error e =>
    simp [hreg, initError] at hr; subst hr; simp at hh
  | ok rtr =>
    simp only [hreg] at hr
    by_cases hcond : (!c.IsCentralised && decide (rtr.Source ≠ s.source)) = true
    · rw [if_pos hcond] at hr
      by_cases hf : isForwarded ctx = true
      · rw [if_pos hf] at hr
        simp [initError] at hr; subst hr; simp at hh
      · rw [if_neg hf] at hr
        cases hd : c.dialMetamorph rtr.Source with
        | some e =>
          simp [hd, initError] at hr; subst hr; simp at hh
        | none =>
          simp only [hd] at hr
          cases ho : c.ownerPutTransaction rtr.Source (createForwardedContext ctx) req with
          | error e =>
            simp [ho, initError] at hr; subst hr; simp at hh
          | ok ts =>
            simp [ho, initStatus] at hr; subst hr; simp at hh
    · rw [if_neg hcond] at hr
      cases hb : rtr.BlockHash with
      | none =>
        simp only [hb] at hr
        exact hcheck _ _ _ hr
      | some bytes =>
        simp only [hb] at hr
        cases hu : c.storeUpdateMined (lib.DoubleHashH req.RawTx) (NewHash bytes)
            rtr.BlockHeight with
        | some e =>
          simp [hu, initError] at hr; subst hr; simp at hh
        | none =>
          simp only [hu] at hr
          exact hcheck _ _ _ hr

/-- The second loop fills the index of every map entry and keeps the length
and the records already present. -/
theorem processTransactions_fills (cs : Nat → Collaborators) :
    ∀ (inputs : List (Hash × processTxInput)) (Statuses : List (Option TransactionStatus)),
      (processTransactions cs inputs Statuses).length = Statuses.length
      ∧ ∀ j, ((∃ r, Statuses[j]? = some (some r))
              ∨ (j < Statuses.length ∧ ∃ kv ∈ inputs, kv.2.responseIndex = j)) →
          ∃ r, (processTransactions cs inputs Statuses)[j]? = some (some r) := by
  intro inputs
  induction inputs with
  | nil =>
    intro Statuses
    refine ⟨rfl, ?_⟩
    intro j h
    rcases h with h | ⟨_, kv, hkv, _⟩
    · exact h
    · simp at hkv
  | cons kv rest ih =>
    intro Statuses
    have hunfold : processTransactions cs (kv :: rest) Statuses
        = processTransactions cs rest
            (Statuses.set kv.2.responseIndex
              (some (processTransaction kv.2.waitForStatus (Hash.String kv.1)
                ((cs kv.2.responseIndex).responses kv.2.data)))) := rfl
    rw [hunfold]
    obtain ⟨hlen, hfill⟩ := ih (Statuses.set kv.2.responseIndex
      (some (processTransaction kv.2.waitForStatus (Hash.String kv.1)
        ((cs kv.2.responseIndex).responses kv.2.data))))
    refine ⟨by rw [hlen, List.length_set], ?_⟩
    intro j h
    apply hfill
    by_cases hj : kv.2.responseIndex = j
    · rcases h with ⟨r, hr⟩ | ⟨hlt, _⟩
      · have hlt : j < Statuses.length := by
          by_contra hge
          have : Statuses[j]? = none := List.getElem?_eq_none (by omega)
          rw [this] at hr
          simp at hr
        left
        exact ⟨_, by rw [hj, List.getElem?_set_self hlt]⟩
      · left
        exact ⟨_, by rw [hj, List.getElem?_set_self hlt]⟩
    · rcases h with ⟨r, hr⟩ | ⟨hlt, kv2, hkv2, hidx⟩
      · left
        exact ⟨r, by rw [List.getElem?_set_ne hj]; exact hr⟩
      · right
        refine ⟨by rw [List.length_set]; exact hlt, kv2, ?_, hidx⟩
        rcases List.mem_cons.1 hkv2 with h1 | h1
        · subst h1; exact absurd hidx hj
        · exact h1

/-- The first loop, on requests with pairwise different hashes, leaves every
request either with a record in the response array or with its own entry in
the map of transactions to process. -/
theorem initTransactions_covers (s : Server) (lib : Library) (cs : Nat → Collaborators)
    (ctx : Context) (n : Nat) :
    ∀ (rest : List TransactionRequest) (ind : Nat) (Statuses : List (Option TransactionStatus))
      (inputs : List (Hash × processTxInput)) (Statuses2 : List (Option TransactionStatus))
      (inputs2 : List (Hash × processTxInput)),
      initTransactions s lib cs ctx rest ind Statuses inputs
        = Outcome.returned (Except.ok (Statuses2, inputs2)) →
      Statuses.length = n → ind + rest.length = n →
      (rest.map (fun r => lib.DoubleHashH r.RawTx)).Nodup →
      (∀ kv ∈ inputs, kv.1 ∉ rest.map (fun r => lib.DoubleHashH r.RawTx)) →
      (∀ j, j < ind → (∃ r, Statuses[j]? = some (some r))
          ∨ (∃ kv ∈ inputs, kv.2.responseIndex = j)) →
      Statuses2.length = n
        ∧ ∀ j, j < n → (∃ r, Statuses2[j]? = some (some r))
            ∨ (∃ kv ∈ inputs2, kv.2.responseIndex = j) := by
  intro rest
  induction rest with
  | nil =>
    intro ind Statuses inputs Statuses2 inputs2 hr hlen hind _ _ hcov
    simp [initTransactions] at hr
    obtain ⟨h1, h2⟩ := hr
    subst h1 h2
    simp at hind
    subst hind
    exact ⟨hlen, hcov⟩
  | cons txReq rest ih =>
    intro ind Statuses inputs Statuses2 inputs2 hr hlen hind hnd hdis hcov
    have hnd2 : (rest.map (fun r => lib.DoubleHashH r.RawTx)).Nodup := by
      simp only [List.map_cons, List.nodup_cons] at hnd
      exact hnd.2
    have hnew : lib.DoubleHashH txReq.RawTx ∉ rest.map (fun r => lib.DoubleHashH r.RawTx) := by
      simp only [List.map_cons, List.nodup_cons] at hnd
      exact hnd.1
    have hind2 : ind + 1 + rest.length = n := by simp at hind; omega
    have hlt : ind < Statuses.length := by simp at hind; omega
    unfold initTransactions at hr
    cases hv : ValidateCallbackURL lib txReq.CallbackUrl with
    | some e => simp [hv] at hr
    | none =>
      simp only [hv] at hr
      cases hp : (putTransactionInit s lib (cs ind) ctx txReq).1 with
      | panicked msg => simp [hp] at hr
      | returned r =>
        simp only [hp] at hr
        cases he : r.err with
        | some e => simp [he] at hr
        | none =>
          simp only [he] at hr
          cases hts : r.transactionStatus with
          | some ts =>
            simp only [hts] at hr
            refine ih (ind + 1) _ inputs Statuses2 inputs2 hr
              (by rw [List.length_set]; exact hlen) hind2 hnd2 ?_ ?_
            · intro kv hkv hmem
              exact hdis kv hkv (List.mem_cons_of_mem _ hmem)
            · intro j hj
              by_cases hji : ind = j
              · left
                exact ⟨ts, by rw [hji.symm, List.getElem?_set_self hlt]⟩
              · rcases hcov j (by omega) with ⟨r2, hr2⟩ | h
                · left
                  exact ⟨r2, by rw [List.getElem?_set_ne hji]; exact hr2⟩
                · exact Or.inr h
          | none =>
            simp only [hts] at hr
            cases hh : r.hash with
            | none => simp [hh] at hr
            | some hash =>
              simp only [hh] at hr
              have hhash : hash = lib.DoubleHashH txReq.RawTx :=
                putTransactionInit_hash s lib (cs ind) ctx txReq r hash hp hh
              cases hset : (cs ind).processorSet
                  { Hash := some hash, Status := r.status, CallbackUrl := txReq.CallbackUrl,
                    CallbackToken := txReq.CallbackToken, MerkleProof := txReq.MerkleProof,
                    RawTx := txReq.RawTx } with
              | some e => simp [hset] at hr
              | none =>
                simp only [hset] at hr
                have hkeep : ∀ kv ∈ inputs,
                    kv ∈ processTxsInputMapSet inputs hash
                      { data := { Hash := some hash, Status := r.status,
                                  CallbackUrl := txReq.CallbackUrl,
                                  CallbackToken := txReq.CallbackToken,
                                  MerkleProof := txReq.MerkleProof, RawTx := txReq.RawTx },
                        waitForStatus := txReq.WaitForStatus, responseIndex := ind } := by
                  intro kv hkv
                  have hneq : kv.1 ≠ hash := by
                    intro heq
                    apply hdis kv hkv
                    rw [heq, hhash]
                    exact List.mem_cons_self _ _
                  simp [processTxsInputMapSet, List.mem_filter, hkv, hneq]
                refine ih (ind + 1) Statuses _ Statuses2 inputs2 hr hlen hind2 hnd2 ?_ ?_
                · intro kv hkv hmem
                  simp only [processTxsInputMapSet, List.mem_append, List.mem_filter,
                    List.mem_singleton] at hkv
                  rcases hkv with ⟨hkv, _⟩ | hkv
                  · exact hdis kv hkv (List.mem_cons_of_mem _ hmem)
                  · subst hkv
                    exact hnew (hhash ▸ hmem)
                · intro j hj
                  by_cases hji : ind = j
                  · right
                    refine ⟨(hash,
                      { data := { Hash := some hash, Status := r.status,
                                  CallbackUrl := txReq.CallbackUrl,
                                  CallbackToken := txReq.CallbackToken,
                                  MerkleProof := txReq.MerkleProof, RawTx := txReq.RawTx },
                        waitForStatus := txReq.WaitForStatus, responseIndex := ind }), ?_, hji⟩
                    simp [processTxsInputMapSet]
                  · rcases hcov j (by omega) with h | ⟨kv, hkv, hidx⟩
                    · exact Or.inl h
                    · exact Or.inr ⟨kv, hkeep kv hkv, hidx⟩

/-- On a batch whose transactions have pairwise different hashes, a response
returned without error has one slot for each request and a record in every
slot. -/
theorem PutTransactions_distinct_present (s : Server) (lib : Library)
    (cs : Nat → Collaborators) (ctx : Context) (Transactions : List TransactionRequest)
    (Statuses : List (Option TransactionStatus))
    (hnd : (Transactions.map (fun r => lib.DoubleHashH r.RawTx)).Nodup)
    (hok : PutTransactions s lib cs ctx Transactions = Outcome.returned (Except.ok Statuses)) :
    Statuses.length = Transactions.length
      ∧ ∀ j, j < Transactions.length → ∃ r, Statuses[j]? = some (some r) := by
  unfold PutTransactions at hok
  cases hinit : initTransactions s lib cs ctx Transactions 0
      (List.replicate Transactions.length none) [] with
  | panicked msg => simp [hinit] at hok
  | returned res =>
    cases res with
    | error e => simp [hinit] at hok
    | ok pair =>
      obtain ⟨Statuses1, inputs1⟩ := pair
      simp only [hinit] at hok
      have hres : processTransactions cs inputs1 Statuses1 = Statuses := by
        simpa using hok
      obtain ⟨hlen, hcov⟩ := initTransactions_covers s lib cs ctx Transactions.length
        Transactions 0 _ [] Statuses1 inputs1 hinit (by simp) (by simp) hnd
        (by intro kv hkv; simp at hkv) (by intro j hj; omega)
      obtain ⟨hlen2, hfill⟩ := processTransactions_fills cs inputs1 Statuses1
      rw [← hres]
      refine ⟨by rw [hlen2, hlen], ?_⟩
      intro j hj
      apply hfill
      rcases hcov j hj with h | h
      · exact Or.inl h
      · exact Or.inr ⟨by omega, h⟩

/-- C7 fails on a batch that holds the same transaction twice when the store
returns no record for either: `PutTransactions` returns no error and the
response has no record (nil) at index 0; both requests share one map entry,
and only the index of the second is filled. -/
theorem PutTransactions_duplicate_leaves_nil :
    PutTransactions { source := "B" } demoLibrary batchCollaborators {}
        [ { RawTx := [1, 2, 3], WaitForStatus := Status.STORED },
          { RawTx := [1, 2, 3], WaitForStatus := Status.STORED } ]
      = Outcome.returned (Except.ok
          [ none,
            some { Txid := Hash.String (padHash [1, 2, 3]), Status := Status.STORED } ]) := by
  rfl

/-- The rows of `TestSendStatusForTransaction` (expected result and number of
`UpdateStatus` calls) hold of the modelled operation. -/
theorem SendStatusForTransaction_test_rows :
    (SendStatusForTransaction [] (padHash [1]) Status.ANNOUNCED_TO_NETWORK none).statusUpdated
        = false
    ∧ sendStatusTestRow Status.REJECTED Status.SEEN_ON_NETWORK = (false, 0)
    ∧ sendStatusTestRow Status.STORED Status.ANNOUNCED_TO_NETWORK = (true, 1)
    ∧ sendStatusTestRow Status.SENT_TO_NETWORK Status.REJECTED = (true, 1)
    ∧ sendStatusTestRow Status.SENT_TO_NETWORK Status.SEEN_ON_NETWORK = (true, 1)
    ∧ sendStatusTestRow Status.SENT_TO_NETWORK Status.ACCEPTED_BY_NETWORK = (true, 1)
    ∧ sendStatusTestRow Status.REQUESTED_BY_NETWORK Status.SENT_TO_NETWORK = (true, 1)
    ∧ sendStatusTestRow Status.STORED Status.REQUESTED_BY_NETWORK = (true, 1)
    ∧ sendStatusTestRow Status.SEEN_ON_NETWORK Status.MINED = (true, 1) := by
  refine ⟨rfl, rfl, rfl, rfl, rfl, rfl, rfl, rfl, rfl⟩

/-! ## Merkle paths -/

theorem xor_one_eq (n : Nat) : n ^^^ 1 = if n % 2 = 0 then n + 1 else n - 1 := by
  have h1 : (n ^^^ 1) / 2 = n / 2 := by
    rw [Nat.xor_div_two]; simp
  have h2 := @Nat.xor_mod_two_eq_one n 1
  simp only [Nat.one_mod, iff_true] at h2
  by_cases hp : n % 2 = 1
  · have : ¬ ((n ^^^ 1) % 2 = 1) := fun h => (h2.1 h) hp
    split <;> omega
  · have : (n ^^^ 1) % 2 = 1 := h2.2 hp
    split <;> omega

theorem merkleParents_length (H : Hash → Hash → Hash) :
    ∀ (n : Nat) (level : List Hash), level.length ≤ n →
      (merkleParents H level).length = (level.length + 1) / 2 := by
  intro n
  induction n using Nat.strong_induction_on with
  | _ n ih =>
    intro level hn
    match level with
    | [] => simp [merkleParents]
    | [a] => simp [merkleParents]
    | a :: b :: rest =>
      simp only [merkleParents, List.length_cons]
      have hlt : rest.length < n := by simp at hn; omega
      rw [ih rest.length hlt rest (le_refl _)]
      omega

/-- The parent of the node at `index`: paired with its right neighbour (or
itself) when `index` is even, with its left neighbour when it is odd. -/
theorem merkleParents_getElem (H : Hash → Hash → Hash) :
    ∀ (n : Nat) (level : List Hash) (index : Nat) (a : Hash), level.length ≤ n →
      level[index]? = some a →
      (index % 2 = 0 →
        (merkleParents H level)[index / 2]?
          = some (match level[index + 1]? with
                  | some b => H a b
                  | none => H a a))
      ∧ (index % 2 = 1 →
        ∃ p, level[index - 1]? = some p ∧ (merkleParents H level)[index / 2]? = some (H p a)) := by
  intro n
  induction n using Nat.strong_induction_on with
  | _ n ih =>
    intro level index a hn ha
    match level, index with
    | [], _ => simp at ha
    | [x], 0 =>
      simp at ha; subst ha
      simp [merkleParents]
    | [x], k + 1 => simp at ha
    | x :: y :: rest, 0 =>
      simp at ha; subst ha
      simp [merkleParents]
    | x :: y :: rest, 1 =>
      simp at ha; subst ha
      simp [merkleParents]
    | x :: y :: rest, k + 2 =>
      have hlt : rest.length < n := by simp at hn; omega
      have ha2 : rest[k]? = some a := by simpa using ha
      obtain ⟨he, ho⟩ := ih rest.length hlt rest k a (le_refl _) ha2
      have hdiv : (k + 2) / 2 = k / 2 + 1 := by omega
      constructor
      · intro hpar
        have hk : k % 2 = 0 := by omega
        have := he hk
        simp only [merkleParents, hdiv, List.getElem?_cons_succ]
        simpa using this
      · intro hpar
        have hk : k % 2 = 1 := by omega
        obtain ⟨p, hp, hpar2⟩ := ho hk
        refine ⟨p, ?_, ?_⟩
        · have hk1 : k + 2 - 1 = (k - 1) + 2 := by omega
          rw [hk1]
          simpa using hp
        · simp only [merkleParents, hdiv, List.getElem?_cons_succ]
          exact hpar2

/-- One step of the reduction on a level that holds the sibling entry. -/
theorem reduceLevels_step (H : Hash → Hash → Hash) (index height : Nat) (w : Hash)
    (leaves : List leaf) (rest : List (List leaf)) (l : leaf)
    (hfind : leaves.find? (fun l => decide (l.offset = (index >>> height) ^^^ 1)) = some l) :
    reduceLevels H index height w (leaves :: rest)
      = if l.duplicate then reduceLevels H index (height + 1) (H w w) rest
        else
          match l.hash with
          | none => none
          | some leafHash =>
            if ((index >>> height) ^^^ 1) % 2 ≠ 0 then
              reduceLevels H index (height + 1) (H w leafHash) rest
            else
              reduceLevels H index (height + 1) (H leafHash w) rest := by
  rw [reduceLevels]
  simp only [hfind]

/-- One step of the reduction climbs from a node to its parent. -/
theorem reduceLevels_climb (H : Hash → Hash → Hash) (index height i : Nat) (w : Hash)
    (level : List Hash) (leaves : List leaf) (rest : List (List leaf))
    (hw : level[i]? = some w) (hidx : index >>> height = i)
    (hfind : leaves.find? (fun l => decide (l.offset = (index >>> height) ^^^ 1))
      = some (siblingLeaf level i)) :
    ∃ parent, (merkleParents H level)[i / 2]? = some parent
      ∧ reduceLevels H index height w (leaves :: rest)
        = reduceLevels H index (height + 1) parent rest := by
  obtain ⟨he, ho⟩ := merkleParents_getElem H _ level i w le_rfl hw
  have hoff : (index >>> height) ^^^ 1 = if i % 2 = 0 then i + 1 else i - 1 := by
    rw [hidx, xor_one_eq]
  rw [reduceLevels_step H index height w leaves rest _ hfind, hoff]
  by_cases hpar : i % 2 = 0
  · have hpar1 : (i + 1) % 2 ≠ 0 := by omega
    cases hsib : level[i + 1]? with
    | none =>
      refine ⟨H w w, ?_, ?_⟩
      · simpa [hsib] using he hpar
      · simp [siblingLeaf, hpar, hsib]
    | some b =>
      refine ⟨H w b, ?_, ?_⟩
      · simpa [hsib] using he hpar
      · simp [siblingLeaf, hpar, hsib, hpar1]
  · have hodd : i % 2 = 1 := by omega
    obtain ⟨p, hp, hparent⟩ := ho hodd
    have hpar1 : (i - 1) % 2 = 0 := by omega
    refine ⟨H p w, hparent, ?_⟩
    simp [siblingLeaf, hpar, hp, hpar1]

/-- Reducing the sibling path of a node yields the root of the level's tree. -/
theorem reduceLevels_siblingPath (H : Hash → Hash → Hash) (index : Nat) :
    ∀ (fuel : Nat) (level : List Hash) (i height : Nat) (w : Hash),
      level.length ≤ fuel → level[i]? = some w → index >>> height = i →
      reduceLevels H index height w (siblingPath H fuel level i)
        = merkleRootFrom H fuel level := by
  intro fuel
  induction fuel with
  | zero =>
    intro level i height w hlen hw _
    have hnil : level = [] := by
      cases level with
      | nil => rfl
      | cons a t => simp at hlen
    subst hnil
    simp at hw
  | succ fuel ih =>
    intro level i height w hlen hw hidx
    by_cases hshort : level.length ≤ 1
    · simp only [siblingPath, merkleRootFrom, hshort, if_true, reduceLevels]
      match level, i with
      | [], _ => simp at hw
      | [a], 0 => simpa using hw.symm
      | [a], k + 1 => simp at hw
      | a :: b :: t, _ => simp at hshort
    · have hplen : (merkleParents H level).length ≤ fuel := by
        rw [merkleParents_length H _ level le_rfl]; omega
      have hnext : index >>> (height + 1) = i / 2 := by
        rw [Nat.shiftRight_succ, hidx]
      have hfind : [siblingLeaf level i].find?
          (fun l => decide (l.offset = (index >>> height) ^^^ 1)) = some (siblingLeaf level i) := by
        have hoff : (siblingLeaf level i).offset = (index >>> height) ^^^ 1 := by
          rw [hidx, xor_one_eq]
          unfold siblingLeaf
          dsimp only
          split <;> rfl
        simp [List.find?, hoff]
      obtain ⟨parent, hparent, hstep⟩ := reduceLevels_climb H index height i w level
        [siblingLeaf level i] (siblingPath H fuel (merkleParents H level) (i / 2)) hw hidx hfind
      simp only [siblingPath, merkleRootFrom, hshort, if_false]
      rw [hstep]
      exact ih (merkleParents H level) (i / 2) (height + 1) parent hplen hparent hnext

/-- A level that is not empty has a root once the fuel covers its length. -/
theorem merkleRootFrom_isSome (H : Hash → Hash → Hash) :
    ∀ (fuel : Nat) (level : List Hash), level ≠ [] → level.length ≤ fuel →
      ∃ root, merkleRootFrom H fuel level = some root := by
  intro fuel
  induction fuel with
  | zero =>
    intro level hne hlen
    cases level with
    | nil => exact absurd rfl hne
    | cons a t => simp at hlen
  | succ fuel ih =>
    intro level hne hlen
    by_cases hshort : level.length ≤ 1
    · cases level with
      | nil => exact absurd rfl hne
      | cons a t =>
        have ht : t = [] := by
          cases t with
          | nil => rfl
          | cons b u => simp at hshort
        subst ht
        exact ⟨a, by simp [merkleRootFrom]⟩
    · have hplen : (merkleParents H level).length ≤ fuel := by
        rw [merkleParents_length H _ level le_rfl]; omega
      have hpne : merkleParents H level ≠ [] := by
        intro h
        have := merkleParents_length H _ level le_rfl
        rw [h] at this
        simp at this
        omega
      obtain ⟨root, hroot⟩ := ih (merkleParents H level) hpne hplen
      exact ⟨root, by simp [merkleRootFrom, hshort, hroot]⟩

/-- The BUMP built for a transaction of a block reduces, with the hash of that
transaction, to the root of the block's Merkle tree. -/
theorem NewBUMP_reduces (H : Hash → Hash → Hash) (blockHeight : Nat) (txs : List Hash)
    (i : Nat) (txid : Hash) (hw : txs[i]? = some txid) :
    ∃ bump root, NewBUMP H blockHeight txs i = some bump
      ∧ merkleRoot H txs = some root
      ∧ CalculateRootGivenTxid H bump txid = some root := by
  have hne : txs ≠ [] := by
    intro h; subst h; simp at hw
  obtain ⟨root, hroot⟩ := merkleRootFrom_isSome H txs.length txs hne le_rfl
  obtain ⟨m, hm⟩ : ∃ m, txs.length = m + 1 := by
    cases txs with
    | nil => exact absurd rfl hne
    | cons a t => exact ⟨t.length, rfl⟩
  have hroot2 : merkleRootFrom H (m + 1) txs = some root := by rw [← hm]; exact hroot
  unfold NewBUMP merkleRoot
  rw [hw, hm]
  by_cases hshort : txs.length ≤ 1
  · -- a block of one transaction
    have htx : txs = [txid] ∧ i = 0 := by
      match txs, i with
      | [], _ => simp at hw
      | [a], 0 => simp at hw; simp [hw]
      | [a], k + 1 => simp at hw
      | a :: b :: t, _ => simp at hshort
    obtain ⟨h1, h2⟩ := htx
    subst h1 h2
    refine ⟨{ blockHeight := blockHeight,
              path := [[{ offset := 0, hash := some txid, txid := true }]] },
      txid, by simp [siblingPath], by simp [merkleRootFrom], ?_⟩
    simp [CalculateRootGivenTxid]
  · have hplen : (merkleParents H txs).length ≤ m := by
      rw [merkleParents_length H _ txs le_rfl]; omega
    have hsp : siblingPath H (m + 1) txs i
        = [siblingLeaf txs i] :: siblingPath H m (merkleParents H txs) (i / 2) := by
      simp [siblingPath, hshort]
    have hrootp : merkleRootFrom H m (merkleParents H txs) = some root := by
      simpa [merkleRootFrom, hshort] using hroot2
    have hoff : (siblingLeaf txs i).offset = i ^^^ 1 := by
      rw [xor_one_eq]
      unfold siblingLeaf
      dsimp only
      split <;> rfl
    have hne1 : i ^^^ 1 ≠ i := by
      rw [xor_one_eq]; split <;> omega
    rw [hsp]
    refine ⟨_, root, rfl, hroot2, ?_⟩
    -- the reduction started at the transaction's own index
    have hown : ∀ leaves : List leaf,
        leaves.find? (fun l => decide (l.offset = (i >>> 0) ^^^ 1)) = some (siblingLeaf txs i) →
        reduceLevels H i 0 txid
            (leaves :: siblingPath H m (merkleParents H txs) (i / 2)) = some root := by
      intro leaves hfind
      obtain ⟨parent, hparent, hstep⟩ := reduceLevels_climb H i 0 i txid txs leaves
        (siblingPath H m (merkleParents H txs) (i / 2)) hw (by simp) hfind
      rw [hstep, reduceLevels_siblingPath H i m (merkleParents H txs) (i / 2) 1 parent hplen
        hparent (by simp [Nat.shiftRight_succ]), hrootp]
    by_cases hpar : i % 2 = 1
    · -- the sibling stands first
      simp only [CalculateRootGivenTxid, hpar, if_true]
      have hcond : ¬ ((siblingPath H m (merkleParents H txs) (i / 2)).length = 0
          ∧ ([siblingLeaf txs i]
              ++ [({ offset := i, hash := some txid, txid := true } : leaf)]).length = 1) := by
        simp
      rw [if_neg hcond]
      by_cases hs : (siblingLeaf txs i).hash = some txid
      · -- the sibling carries the same hash and is found first
        have hfindh : List.find? (fun l => decide (l.hash = some txid))
            ([siblingLeaf txs i] ++ [({ offset := i, hash := some txid, txid := true } : leaf)])
            = some (siblingLeaf txs i) := by
          simp [List.find?, hs]
        simp only [hfindh, hoff]
        have hback : (i ^^^ 1) ^^^ 1 = i := by
          rw [xor_one_eq (i ^^^ 1), xor_one_eq i]
          split <;> split <;> omega
        obtain ⟨p, hp, hparent⟩ := (merkleParents_getElem H _ txs i txid le_rfl hw).2 hpar
        have hpeq : p = txid := by
          have hi : ¬ i % 2 = 0 := by omega
          simp [siblingLeaf, hi, hp] at hs
          exact hs
        subst hpeq
        have hfindo : List.find? (fun l => decide (l.offset = ((i ^^^ 1) >>> 0) ^^^ 1))
            ([siblingLeaf txs i] ++ [({ offset := i, hash := some p, txid := true } : leaf)])
            = some { offset := i, hash := some p, txid := true } := by
          simp [List.find?, hoff, hback, hne1]
        rw [reduceLevels_step H (i ^^^ 1) 0 p _ _ _ hfindo]
        have hodd : ((i ^^^ 1) >>> 0 ^^^ 1) % 2 ≠ 0 := by
          simp only [Nat.shiftRight_zero, hback]; omega
        simp only [hodd]
        have hshift : (i ^^^ 1) >>> 1 = i / 2 := by
          rw [Nat.shiftRight_succ, Nat.shiftRight_zero, Nat.xor_div_two]; simp
        simp only [Bool.false_eq_true, if_false, ne_eq, not_false_eq_true, if_true]
        rw [reduceLevels_siblingPath H (i ^^^ 1) m (merkleParents H txs) (i / 2) 1 (H p p) hplen
          hparent hshift, hrootp]
        simp
      · have hfindh : List.find? (fun l => decide (l.hash = some txid))
            ([siblingLeaf txs i] ++ [({ offset := i, hash := some txid, txid := true } : leaf)])
            = some { offset := i, hash := some txid, txid := true } := by
          simp [List.find?, hs]
        simp only [hfindh]
        apply hown
        simp [List.find?, hoff]
    · simp only [CalculateRootGivenTxid, hpar, if_false]
      have hcond : ¬ ((siblingPath H m (merkleParents H txs) (i / 2)).length = 0
          ∧ [({ offset := i, hash := some txid, txid := true } : leaf),
              siblingLeaf txs i].length = 1) := by
        simp
      rw [if_neg hcond]
      have hfindh : List.find? (fun l => decide (l.hash = some txid))
          [({ offset := i, hash := some txid, txid := true } : leaf), siblingLeaf txs i]
          = some { offset := i, hash := some txid, txid := true } := by
        simp [List.find?]
      simp only [hfindh]
      apply hown
      simp [List.find?, hoff, hne1.symm]

/-- C8: for every block (its transaction hashes in block order, one
transaction or many) `HandleBlock` emits one BUMP for each transaction, and
each emitted BUMP, reduced with the hash of its transaction, yields the
merkle-root of the block; for a block of a single transaction the BUMP is the
one level holding that transaction and reduces to its hash, the root. -/
theorem HandleBlockBUMPs_reduce_to_root (H : Hash → Hash → Hash) (blockHeight : Nat)
    (txs : List Hash) :
    (HandleBlockBUMPs H blockHeight txs).map Prod.fst = txs
    ∧ (∀ q ∈ HandleBlockBUMPs H blockHeight txs,
        ∃ bump root, q.2 = some bump ∧ merkleRoot H txs = some root
          ∧ CalculateRootGivenTxid H bump q.1 = some root)
    ∧ (∀ txid : Hash,
        HandleBlockBUMPs H blockHeight [txid]
            = [(txid, some { blockHeight := blockHeight,
                             path := [[{ offset := 0, hash := some txid, txid := true }]] })]
          ∧ merkleRoot H [txid] = some txid
          ∧ CalculateRootGivenTxid H
              { blockHeight := blockHeight,
                path := [[{ offset := 0, hash := some txid, txid := true }]] } txid
            = some txid) := by
  refine ⟨?_, ?_, ?_⟩
  · unfold HandleBlockBUMPs
    rw [List.map_map]
    exact List.enum_map_snd txs
  · intro q hq
    unfold HandleBlockBUMPs at hq
    obtain ⟨p, hp, hqp⟩ := List.mem_map.1 hq
    have hget : txs[p.1]? = some p.2 := List.mem_enum_iff_getElem?.1 hp
    obtain ⟨bump, root, hb, hr, hc⟩ := NewBUMP_reduces H blockHeight txs p.1 p.2 hget
    subst hqp
    exact ⟨bump, root, hb, hr, hc⟩
  · intro txid
    refine ⟨?_, ?_, ?_⟩
    · simp [HandleBlockBUMPs, List.enum, List.enumFrom, NewBUMP, siblingPath]
    · simp [merkleRoot, merkleRootFrom]
    · simp [CalculateRootGivenTxid]

/-! ## Block gaps -/

theorem NewHash_eq_some (bytes : List Nat) (hash : Hash) (h : NewHash bytes = some hash) :
    hash.val = bytes := by
  unfold NewHash at h
  split at h
  · simp at h; rw [← h]
  · simp at h

theorem NewHash_val (hash : Hash) : NewHash hash.val = some hash := by
  simp [NewHash, hash.property]

/-- A scan that succeeds returns the rows, one gap for each row. -/
theorem scanGaps_ok :
    ∀ (rows : List (Int × List Nat)) (gaps : List BlockGap),
      scanGaps rows = Except.ok gaps →
      rows = gaps.map (fun g => ((g.Height : Int), g.Hash.val)) := by
  intro rows
  induction rows with
  | nil =>
    intro gaps h
    simp [scanGaps] at h
    subst h
    rfl
  | cons row rows ih =>
    intro gaps h
    obtain ⟨height, hash⟩ := row
    unfold scanGaps at h
    split at h
    · simp at h
    · rename_i hneg
      cases hn : NewHash hash with
      | none => simp [hn] at h
      | some txHash =>
        simp only [hn] at h
        cases hs : scanGaps rows with
        | error e => simp [hs] at h
        | ok blockGaps =>
          simp only [hs] at h
          simp at h
          subst h
          have hval := NewHash_eq_some hash txHash hn
          have hh : ((height.toNat : Nat) : Int) = height := Int.toNat_of_nonneg (by omega)
          simp [hval, hh, ← ih blockGaps hs]

theorem mem_generateSeriesDesc (start stop h : Int) :
    h ∈ generateSeriesDesc start stop ↔ start ≤ h ∧ h ≤ stop := by
  unfold generateSeriesDesc
  simp only [List.mem_map, List.mem_range]
  constructor
  · rintro ⟨k, hk, rfl⟩
    have hk2 : (k : Int) < stop - start + 1 := Int.lt_toNat.1 hk
    omega
  · rintro ⟨h1, h2⟩
    have hnn : ((stop - h).toNat : Int) = stop - h := Int.toNat_of_nonneg (by omega)
    refine ⟨(stop - h).toNat, ?_, ?_⟩
    · apply Int.lt_toNat.2
      omega
    · omega

/-- The rows of the gap query: a missing height of the range, with the previous
hash of a block at the next height. -/
theorem mem_gapRows (blocks : List BlockRow) (r : Int) (h : Int) (p : List Nat) :
    (h, p) ∈ gapRows blocks r ↔
      ∃ m, maxHeight (blocks.map (fun b => b.height)) = some m ∧ m - r ≤ h ∧ h ≤ m
        ∧ (∀ b ∈ blocks, (b.height : Int) ≠ h)
        ∧ ∃ b ∈ blocks, (b.height : Int) = h + 1 ∧ b.prevhash = p := by
  unfold gapRows missingBlocks
  cases hm : maxHeight (blocks.map (fun b => b.height)) with
  | none => simp
  | some m =>
    simp only [List.mem_flatMap, List.mem_filter, List.mem_map, mem_generateSeriesDesc,
      List.all_eq_true, Bool.not_eq_true', decide_eq_false_iff_not, decide_eq_true_eq,
      Prod.mk.injEq, Option.some.injEq]
    constructor
    · rintro ⟨h2, ⟨⟨h3, h4⟩, h5⟩, b, ⟨hb, hb2⟩, rfl, rfl⟩
      refine ⟨m, rfl, h3, h4, ?_, b, hb, hb2, rfl⟩
      intro b2 hb2
      exact h5 b2.height ⟨b2, hb2, rfl⟩
    · rintro ⟨m2, rfl, h3, h4, h5, b, hb, hb2, rfl⟩
      refine ⟨h, ⟨⟨h3, h4⟩, ?_⟩, b, ⟨hb, hb2⟩, rfl, rfl⟩
      rintro x ⟨b2, hb2, rfl⟩
      exact h5 b2 hb2

theorem generateSeriesDesc_pairwise (start stop : Int) :
    (generateSeriesDesc start stop).Pairwise (fun a b => a > b) := by
  unfold generateSeriesDesc
  refine List.Pairwise.map _ ?_ (List.pairwise_lt_range _)
  intro a b hab
  omega

/-- The rows of the gap query come in descending order of height. -/
theorem gapRows_pairwise (blocks : List BlockRow) (r : Int) :
    (gapRows blocks r).Pairwise (fun a b => a.1 ≥ b.1) := by
  unfold gapRows missingBlocks
  cases hm : maxHeight (blocks.map (fun b => b.height)) with
  | none => simp
  | some m =>
    rw [List.pairwise_flatMap]
    constructor
    · intro h _
      rw [List.pairwise_map]
      exact List.pairwise_of_forall (fun _ _ => le_refl _)
    · refine List.Pairwise.imp ?_
        (List.Pairwise.filter _ (generateSeriesDesc_pairwise (m - r) m))
      intro a b hab x hx y hy
      simp only [List.mem_map] at hx hy
      obtain ⟨_, _, rfl⟩ := hx
      obtain ⟨_, _, rfl⟩ := hy
      exact le_of_lt hab

/-- Heights that join with no row may be left out before the join. -/
theorem flatMap_filter_of_nil {α β : Type} (f : α → List β) (p : α → Bool) :
    ∀ (l : List α), (∀ a ∈ l, p a = false → f a = []) →
      l.flatMap f = (l.filter p).flatMap f := by
  intro l
  induction l with
  | nil => intro _; rfl
  | cons a l ih =>
    intro h
    have hl : ∀ x ∈ l, p x = false → f x = [] := fun x hx => h x (List.mem_cons_of_mem a hx)
    cases hp : p a with
    | true =>
      simp only [List.flatMap_cons, List.filter_cons, hp, if_true]
      rw [ih hl]
    | false =>
      simp only [List.flatMap_cons, List.filter_cons, hp]
      rw [h a (List.mem_cons_self a l) hp, ih hl]
      simp

set_option maxRecDepth 100000 in
/-- The missing heights below 104 in range 288 that have a block right above
them, for blocks at heights 100, 101, 103 and 104. -/
theorem missingBlocks_S6 :
    (missingBlocks [100, 101, 103, 104] 288).filter
        (fun h => decide (h + 1 ∈ ([100, 101, 103, 104] : List Int)))
      = [102, 99] := by
  decide

/-- The result of `GetBlockGaps` for blocks at heights 100, 101, 103 and 104
(any hashes, previous hashes of 32 bytes) and range 288. -/
theorem GetBlockGaps_S6 (h100 h101 h103 h104 : List Nat) (p100 p101 p103 p104 : Hash) :
    GetBlockGaps
        [ { hash := h100, prevhash := p100.val, height := 100 },
          { hash := h101, prevhash := p101.val, height := 101 },
          { hash := h103, prevhash := p103.val, height := 103 },
          { hash := h104, prevhash := p104.val, height := 104 } ] 288
      = Except.ok [{ Height := 102, Hash := p103 }, { Height := 99, Hash := p100 }] := by
  unfold GetBlockGaps gapRows
  rw [flatMap_filter_of_nil _
    (fun h => decide (h + 1 ∈ ([100, 101, 103, 104] : List Int)))]
  · simp only [List.map_cons, List.map_nil]
    rw [missingBlocks_S6]
    simp [scanGaps, NewHash_val]
  · intro h _ hp
    simp only [List.mem_cons, List.mem_singleton, List.not_mem_nil, or_false,
      decide_eq_false_iff_not, not_or] at hp
    obtain ⟨a1, a2, a3, a4⟩ := hp
    have b1 : ¬ ((100 : Int) = h + 1) := fun e => a1 e.symm
    have b2 : ¬ ((101 : Int) = h + 1) := fun e => a2 e.symm
    have b3 : ¬ ((103 : Int) = h + 1) := fun e => a3 e.symm
    have b4 : ¬ ((104 : Int) = h + 1) := fun e => a4 e.symm
    simp [List.filter, b1, b2, b3, b4]

/-- C11, as stated, fails: with blocks at heights 100 and 103 only, the
heights 101 and 102 are missing within the last 3 blocks, and the result holds
102 alone. -/
theorem GetBlockGaps_all_missing_literal_fails :
    ¬ (∀ (blocks : List BlockRow) (r : Int) (gaps : List BlockGap) (m h : Int), 0 ≤ r →
        GetBlockGaps blocks r = Except.ok gaps →
        maxHeight (blocks.map (fun b => b.height)) = some m →
        m - r ≤ h → h ≤ m → (∀ b ∈ blocks, (b.height : Int) ≠ h) →
        ∃ g ∈ gaps, (g.Height : Int) = h) := by
  intro hall
  have hres : GetBlockGaps (sampleBlocks [100, 103]) 3
      = Except.ok [{ Height := 102, Hash := sampleHash 102 }] := rfl
  obtain ⟨g, hg, hh⟩ := hall (sampleBlocks [100, 103]) 3 _ 103 101 (by decide) hres
    rfl (by decide) (by decide) (by decide)
  simp at hg
  subst hg
  simp at hh

/-- C11 (amended): when the query succeeds, every height of the last `r`
blocks at which no block row exists and right above which a block row exists
appears in the result, with the previous hash of that block. -/
theorem GetBlockGaps_complete (blocks : List BlockRow) (r : Int) (gaps : List BlockGap)
    (m h : Int) (b : BlockRow)
    (hok : GetBlockGaps blocks r = Except.ok gaps)
    (hm : maxHeight (blocks.map (fun b => b.height)) = some m)
    (hlo : m - r ≤ h) (hhi : h ≤ m)
    (hmiss : ∀ b ∈ blocks, (b.height : Int) ≠ h)
    (hb : b ∈ blocks) (hnext : (b.height : Int) = h + 1) :
    ∃ g ∈ gaps, (g.Height : Int) = h ∧ g.Hash.val = b.prevhash := by
  have hrows := scanGaps_ok _ _ hok
  have hmem : (h, b.prevhash) ∈ gapRows blocks r :=
    (mem_gapRows blocks r h b.prevhash).2 ⟨m, hm, hlo, hhi, hmiss, b, hb, hnext, rfl⟩
  rw [hrows] at hmem
  obtain ⟨g, hg, heq⟩ := List.mem_map.1 hmem
  simp only [Prod.mk.injEq] at heq
  exact ⟨g, hg, heq.1, heq.2⟩

theorem GetBlockGaps_complete_witness :
    ∃ g ∈ [({ Height := 102, Hash := sampleHash 102 } : BlockGap)],
      (g.Height : Int) = 102 ∧ g.Hash.val = (sampleHash 102).val :=
  GetBlockGaps_complete (sampleBlocks [100, 103]) 3
    [{ Height := 102, Hash := sampleHash 102 }] 103 102
    { hash := (sampleHash 103).val, prevhash := (sampleHash 102).val, height := 103 }
    rfl rfl (by decide) (by decide) (by decide) (by decide) (by decide)

/-- C12: every gap `GetBlockGaps` returns has a height within the last `r`
blocks at which no block row exists, its hash is the previous hash of a stored
block at the next height, and the gaps come in descending order of height. -/
theorem GetBlockGaps_sound (blocks : List BlockRow) (r : Int) (gaps : List BlockGap)
    (hok : GetBlockGaps blocks r = Except.ok gaps) :
    (∀ g ∈ gaps, ∃ m, maxHeight (blocks.map (fun b => b.height)) = some m
        ∧ m - r ≤ (g.Height : Int) ∧ (g.Height : Int) ≤ m
        ∧ (∀ b ∈ blocks, b.height ≠ g.Height)
        ∧ ∃ b ∈ blocks, b.height = g.Height + 1 ∧ b.prevhash = g.Hash.val)
    ∧ gaps.Pairwise (fun a b => a.Height ≥ b.Height) := by
  have hrows := scanGaps_ok _ _ hok
  constructor
  · intro g hg
    have hmem : ((g.Height : Int), g.Hash.val) ∈ gapRows blocks r := by
      rw [hrows]
      exact List.mem_map.2 ⟨g, hg, rfl⟩
    obtain ⟨m, hm, hlo, hhi, hmiss, b, hb, hnext, hprev⟩ :=
      (mem_gapRows blocks r _ _).1 hmem
    refine ⟨m, hm, hlo, hhi, ?_, b, hb, ?_, hprev⟩
    · intro b2 hb2 heq
      exact hmiss b2 hb2 (by rw [heq])
    · exact_mod_cast hnext
  · have hp := gapRows_pairwise blocks r
    rw [hrows, List.pairwise_map] at hp
    refine List.Pairwise.imp ?_ hp
    intro a b hab
    have hab2 : (a.Height : Int) ≥ (b.Height : Int) := hab
    exact_mod_cast hab2

theorem GetBlockGaps_sound_witness :
    [({ Height := 102, Hash := sampleHash 102 } : BlockGap)].Pairwise
      (fun a b => a.Height ≥ b.Height) :=
  (GetBlockGaps_sound (sampleBlocks [100, 103]) 3
    [{ Height := 102, Hash := sampleHash 102 }] rfl).2

/-- C13, as stated, fails: with blocks exactly at heights 100, 101, 103 and 104
and range 288 the result is not a single gap. -/
theorem GetBlockGaps_S6_literal_fails :
    ¬ (∃ g : BlockGap, GetBlockGaps (sampleBlocks [100, 101, 103, 104]) 288 = Except.ok [g]) := by
  rintro ⟨g, hg⟩
  have h := GetBlockGaps_S6 (sampleHash 100).val (sampleHash 101).val (sampleHash 103).val
    (sampleHash 104).val (sampleHash 99) (sampleHash 100) (sampleHash 102) (sampleHash 103)
  have hsame : sampleBlocks [100, 101, 103, 104]
      = [ { hash := (sampleHash 100).val, prevhash := (sampleHash 99).val, height := 100 },
          { hash := (sampleHash 101).val, prevhash := (sampleHash 100).val, height := 101 },
          { hash := (sampleHash 103).val, prevhash := (sampleHash 102).val, height := 103 },
          { hash := (sampleHash 104).val, prevhash := (sampleHash 103).val, height := 104 } ] := rfl
  rw [hsame, h] at hg
  simp at hg

/-- C13 (amended): when the stored blocks are exactly those at heights 100,
101, 103 and 104, `GetBlockGaps` with range 288 returns exactly two gaps, in
this order: height 102 with the previous hash of the block at height 103, and
height 99 with the previous hash of the block at height 100. -/
theorem GetBlockGaps_S6_two_gaps (h100 h101 h103 h104 : List Nat)
    (p100 p101 p103 p104 : Hash) :
    GetBlockGaps
        [ { hash := h100, prevhash := p100.val, height := 100 },
          { hash := h101, prevhash := p101.val, height := 101 },
          { hash := h103, prevhash := p103.val, height := 103 },
          { hash := h104, prevhash := p104.val, height := 104 } ] 288
      = Except.ok [{ Height := 102, Hash := p103 }, { Height := 99, Hash := p100 }] :=
  GetBlockGaps_S6 h100 h101 h103 h104 p100 p101 p103 p104

/-! ## Callbacks -/

/-- The attempts of the loop from pass `i` with `n` passes to go are the
passes `i, i+1, ...` up to some pass; a pass that gets status 200 is the last
one; and when every pass fails after its request was sent, all `n` passes are
made and the loop ends with the final log. -/
theorem sendCallbackLoop_attempts (attempt : Nat → CallbackAttempt) :
    ∀ (n i d : Nat), ∃ k, k ≤ n
      ∧ attemptsMade (sendCallbackLoop attempt n i d) = List.range' i k
      ∧ (∀ j, i ≤ j → j < i + k → attempt j = CallbackAttempt.response 200 → j + 1 = i + k)
      ∧ ((∀ j, i ≤ j → j < i + n → (attempt j).failsAfterDo = true) →
          k = n ∧ CallbackEvent.logGaveUp CallbackTries ∈ sendCallbackLoop attempt n i d) := by
  intro n
  induction n with
  | zero =>
    intro i d
    exact ⟨0, le_refl _, by simp [sendCallbackLoop, attemptsMade],
      fun j h1 h2 => by omega, fun _ => ⟨rfl, by simp [sendCallbackLoop]⟩⟩
  | succ n ih =>
    intro i d
    cases ha : attempt i with
    | marshalError e =>
      refine ⟨0, Nat.zero_le _, by simp [sendCallbackLoop, ha, attemptsMade],
        fun j h1 h2 => by omega, ?_⟩
      intro hall
      have := hall i (le_refl _) (by omega)
      simp [ha, CallbackAttempt.failsAfterDo] at this
    | newRequestError e =>
      refine ⟨0, Nat.zero_le _, by simp [sendCallbackLoop, ha, attemptsMade],
        fun j h1 h2 => by omega, ?_⟩
      intro hall
      have := hall i (le_refl _) (by omega)
      simp [ha, CallbackAttempt.failsAfterDo] at this
    | doError e =>
      obtain ⟨k, hk, hatt, hlast, hfull⟩ := ih (i + 1) d
      refine ⟨k + 1, by omega, ?_, ?_, ?_⟩
      · simp only [sendCallbackLoop, ha, attemptsMade, List.filterMap_cons]
        rw [List.range'_succ]
        simp only [attemptsMade] at hatt
        rw [hatt]
      · intro j h1 h2 h200
        by_cases hj : j = i
        · subst hj; rw [ha] at h200; cases h200
        · have := hlast j (by omega) (by omega) h200
          omega
      · intro hall
        obtain ⟨h1, h2⟩ := hfull (fun j hj1 hj2 => hall j (by omega) (by omega))
        refine ⟨by omega, ?_⟩
        simp only [sendCallbackLoop, ha, List.mem_cons]
        exact Or.inr (Or.inr h2)
    | response code =>
      by_cases hc : code = 200
      · subst hc
        refine ⟨1, by omega, by simp [sendCallbackLoop, ha, attemptsMade],
          fun j h1 h2 _ => by omega, ?_⟩
        intro hall
        have := hall i (le_refl _) (by omega)
        simp [ha, CallbackAttempt.failsAfterDo] at this
      · obtain ⟨k, hk, hatt, hlast, hfull⟩ := ih (i + 1) (d * 2)
        refine ⟨k + 1, by omega, ?_, ?_, ?_⟩
        · simp only [sendCallbackLoop, ha, hc, if_false, attemptsMade, List.filterMap_cons]
          rw [List.range'_succ]
          simp only [attemptsMade] at hatt
          rw [hatt]
        · intro j h1 h2 h200
          by_cases hj : j = i
          · subst hj
            rw [ha] at h200
            simp at h200
            exact absurd h200 hc
          · have := hlast j (by omega) (by omega) h200
            omega
        · intro hall
          obtain ⟨h1, h2⟩ := hfull (fun j hj1 hj2 => hall j (by omega) (by omega))
          refine ⟨by omega, ?_⟩
          simp only [sendCallbackLoop, ha, hc, if_false, List.mem_cons]
          exact Or.inr (Or.inr (Or.inr h2))

/-- C14: `SendCallback` makes at most 5 HTTP attempts; after an attempt that
gets status 200 it makes no further attempt; and when every pass can build its
request and none gets status 200 it makes exactly the 5 attempts and then
gives up. -/
theorem SendCallback_attempts (attempt : Nat → CallbackAttempt) :
    (attemptsMade (SendCallback attempt)).length ≤ 5
    ∧ (∀ k j, k ∈ attemptsMade (SendCallback attempt) →
        attempt k = CallbackAttempt.response 200 → k < j →
        j ∉ attemptsMade (SendCallback attempt))
    ∧ ((∀ i, i < 5 → (attempt i).failsAfterDo = true) →
        attemptsMade (SendCallback attempt) = [0, 1, 2, 3, 4]
          ∧ CallbackEvent.logGaveUp 5 ∈ SendCallback attempt) := by
  obtain ⟨k, hk, hatt, hlast, hfull⟩ :=
    sendCallbackLoop_attempts attempt CallbackTries 0 CallbackIntervalSeconds
  have hk5 : k ≤ 5 := hk
  unfold SendCallback
  rw [hatt]
  refine ⟨by simp; exact hk5, ?_, ?_⟩
  · intro a j ha h200 hlt hj
    rw [List.mem_range'_1] at ha hj
    have := hlast a (by omega) (by omega) h200
    omega
  · intro hall
    obtain ⟨h1, h2⟩ := hfull (fun j _ hj2 => hall j (by simpa [CallbackTries] using hj2))
    subst h1
    exact ⟨by decide, h2⟩

/-- C15 fails when an attempt ends in a transport error: `SendCallback` goes on
to the next attempt without any wait (five attempts, no sleep at all), where
the claim has waits of 5, 10, 20 and 40 seconds; only after responses other
than 200 are the waits 5, 10, 20, 40 (and 80 before giving up). -/
theorem SendCallback_transport_error_no_delay :
    attemptsMade (SendCallback (fun _ => CallbackAttempt.doError "connection refused"))
        = [0, 1, 2, 3, 4]
    ∧ sleepsMade (SendCallback (fun _ => CallbackAttempt.doError "connection refused")) = []
    ∧ SendCallback
          (fun i => if i = 0 then CallbackAttempt.doError "connection refused"
            else CallbackAttempt.response 200)
        = [ CallbackEvent.Do 0,
            CallbackEvent.logError "Couldn't send transaction info through callback url",
            CallbackEvent.Do 1 ]
    ∧ sleepsMade (SendCallback (fun _ => CallbackAttempt.response 500)) = [5, 10, 20, 40, 80] := by
  refine ⟨rfl, rfl, rfl, rfl⟩

/-! ## Peers -/

/-- `WriteMsg` looks at `writeConn` alone: it fails exactly when `writeConn` is
nil, and otherwise the message is put on the outbound buffer. -/
theorem Peer.WriteMsg_iff_writeConn (p : Peer) (msg : Message) :
    (p.WriteMsg msg = Except.error "peer is not connected" ↔ p.writeConn = none)
    ∧ (p.writeConn ≠ none →
        p.WriteMsg msg = Except.ok { p with writeChan := p.writeChan ++ [msg] }) := by
  unfold Peer.WriteMsg
  cases h : p.writeConn with
  | none => simp
  | some c => simp

/-- C16 fails in a reachable state: when the remote side closes the connection
between the moment `connect` has seen both flags and the moment it assigns
`writeConn`, the peer ends with `writeConn` set and `readConn` nil;
`Connected()` is false there, yet `WriteMsg` queues the message and returns no
error. -/
theorem WriteMsg_queues_while_not_connected :
    NewPeer.run handshakeThenEOF = some stalePeer
    ∧ stalePeer.Connected = false
    ∧ stalePeer.readConn = none ∧ stalePeer.writeConn = some 1
    ∧ ∀ msg : Message,
        stalePeer.WriteMsg msg = Except.ok { stalePeer with writeChan := [msg] } := by
  refine ⟨rfl, rfl, rfl, rfl, ?_⟩
  intro msg
  rfl

/-- C17 fails in a reachable state: after the steps of `handshakeThenEOF` the
peer has `writeConn` set while both flags are false; after the next
`connect` has dialled, `Connected()` is true while both flags are still false.
The second half of the claim holds: `disconnect` clears both flags and both
connections. -/
theorem Connected_without_handshake :
    NewPeer.run handshakeThenEOF = some stalePeer
    ∧ stalePeer.writeConn = some 1
    ∧ stalePeer.sentVerAck = false ∧ stalePeer.receivedVerAck = false
    ∧ (∃ q, NewPeer.run (handshakeThenEOF ++ [PeerAction.connectStart, PeerAction.dial (some 2)])
          = some q
        ∧ q.Connected = true ∧ q.sentVerAck = false ∧ q.receivedVerAck = false)
    ∧ ∀ p : Peer, p.disconnect.readConn = none ∧ p.disconnect.writeConn = none
        ∧ p.disconnect.sentVerAck = false ∧ p.disconnect.receivedVerAck = false := by
  refine ⟨rfl, rfl, rfl, rfl, ⟨_, rfl, rfl, rfl, rfl⟩, ?_⟩
  intro p
  exact ⟨rfl, rfl, rfl, rfl⟩

theorem writesMade_append_no_write (l1 l2 : List WriterEvent)
    (hl : ∀ e ∈ l1, ∀ m, e ≠ WriterEvent.WriteMessage m) :
    writesMade (l1 ++ l2) = writesMade l2 := by
  induction l1 with
  | nil => rfl
  | cons e rest ih =>
    have hrest : ∀ e ∈ rest, ∀ m, e ≠ WriterEvent.WriteMessage m :=
      fun e he => hl e (List.mem_cons_of_mem _ he)
    cases e with
    | WriteMessage m => exact absurd rfl (hl _ (List.mem_cons_self _ _) m)
    | logError t => simpa [writesMade] using ih hrest
    | HandleTransactionSent m => simpa [writesMade] using ih hrest

theorem writesMade_cons_write (msg : Message) (extra tailEvents : List WriterEvent)
    (hex : ∀ e ∈ extra, ∀ m, e ≠ WriterEvent.WriteMessage m) :
    writesMade (WriterEvent.WriteMessage msg :: (extra ++ tailEvents))
      = msg :: writesMade tailEvents := by
  have h1 : writesMade (WriterEvent.WriteMessage msg :: (extra ++ tailEvents))
      = msg :: writesMade (extra ++ tailEvents) := by
    simp [writesMade]
  rw [h1, writesMade_append_no_write extra tailEvents hex]

/-- A message the writer gets past: it is handed to the socket, a failure of
the write is logged, and the loop goes on with the rest of the queue. -/
theorem writeChannelHandler_goes_on (HandleTransactionSent : Message → Option String)
    (q : Message × WriteResult) (tail : List (Message × WriteResult))
    (hq : writerGoesOn q = true) :
    ∃ extra : List WriterEvent,
      (∀ e ∈ extra, ∀ m, e ≠ WriterEvent.WriteMessage m)
      ∧ (∀ err, q.2 = WriteResult.failed (WriteError.other err) →
          WriterEvent.logError ("Failed to write message: " ++ err) ∈ extra)
      ∧ writeChannelHandler HandleTransactionSent (q :: tail)
        = ((writeChannelHandler HandleTransactionSent tail).1,
           WriterEvent.WriteMessage q.1
             :: (extra ++ (writeChannelHandler HandleTransactionSent tail).2)) := by
  obtain ⟨msg0, res0⟩ := q
  cases res0 with
  | noConn => simp [writerGoesOn] at hq
  | written =>
    cases msg0 with
    | MsgTx tx =>
      cases hh : HandleTransactionSent (Message.MsgTx tx) with
      | none =>
        exact ⟨[WriterEvent.HandleTransactionSent (Message.MsgTx tx)],
          by simp, by simp, by simp [writeChannelHandler, hh]⟩
      | some e =>
        exact ⟨[WriterEvent.HandleTransactionSent (Message.MsgTx tx),
            WriterEvent.logError ("Unable to process tx: " ++ e)],
          by simp, by simp, by simp [writeChannelHandler, hh]⟩
    | MsgPing n => exact ⟨[], by simp, by simp, by simp [writeChannelHandler]⟩
    | MsgPong n => exact ⟨[], by simp, by simp, by simp [writeChannelHandler]⟩
    | MsgInv l => exact ⟨[], by simp, by simp, by simp [writeChannelHandler]⟩
    | MsgGetData l =>
      cases l with
      | nil => simp [writerGoesOn] at hq
      | cons iv l2 => exact ⟨[], by simp, by simp, by simp [writeChannelHandler]⟩
    | other c => exact ⟨[], by simp, by simp, by simp [writeChannelHandler]⟩
  | failed we =>
    cases we with
    | EOF => simp [writerGoesOn] at hq
    | other err =>
      cases msg0 with
      | MsgTx tx =>
        cases hh : HandleTransactionSent (Message.MsgTx tx) with
        | none =>
          exact ⟨[WriterEvent.logError ("Failed to write message: " ++ err),
              WriterEvent.HandleTransactionSent (Message.MsgTx tx)],
            by simp, by simp, by simp [writeChannelHandler, hh]⟩
        | some e =>
          exact ⟨[WriterEvent.logError ("Failed to write message: " ++ err),
              WriterEvent.HandleTransactionSent (Message.MsgTx tx),
              WriterEvent.logError ("Unable to process tx: " ++ e)],
            by simp, by simp, by simp [writeChannelHandler, hh]⟩
      | MsgPing n =>
        exact ⟨[WriterEvent.logError ("Failed to write message: " ++ err)],
          by simp, by simp, by simp [writeChannelHandler]⟩
      | MsgPong n =>
        exact ⟨[WriterEvent.logError ("Failed to write message: " ++ err)],
          by simp, by simp, by simp [writeChannelHandler]⟩
      | MsgInv l =>
        exact ⟨[WriterEvent.logError ("Failed to write message: " ++ err)],
          by simp, by simp, by simp [writeChannelHandler]⟩
      | MsgGetData l =>
        cases l with
        | nil => simp [writerGoesOn] at hq
        | cons iv l2 =>
          exact ⟨[WriterEvent.logError ("Failed to write message: " ++ err)],
            by simp, by simp, by simp [writeChannelHandler]⟩
      | other c =>
        exact ⟨[WriterEvent.logError ("Failed to write message: " ++ err)],
          by simp, by simp, by simp [writeChannelHandler]⟩

/-- A message the writer does not get past: it is handed to the socket and the
writer panics, whatever is queued behind it. -/
theorem writeChannelHandler_stops (HandleTransactionSent : Message → Option String)
    (q : Message × WriteResult) (tail : List (Message × WriteResult))
    (hq : writerGoesOn q = false) :
    ∃ (text : String) (extra : List WriterEvent),
      (∀ e ∈ extra, ∀ m, e ≠ WriterEvent.WriteMessage m)
      ∧ writeChannelHandler HandleTransactionSent (q :: tail)
        = (Outcome.panicked text, WriterEvent.WriteMessage q.1 :: extra)
      ∧ (q.2 = WriteResult.failed WriteError.EOF → text = "WRITE EOF")
      ∧ (q.2 = WriteResult.noConn →
          text = "invalid memory address or nil pointer dereference")
      ∧ (q.2 ≠ WriteResult.failed WriteError.EOF → q.2 ≠ WriteResult.noConn →
          q.1 = Message.MsgGetData [] ∧ text = "index out of range [0] with length 0") := by
  obtain ⟨msg0, res0⟩ := q
  cases res0 with
  | noConn =>
    exact ⟨"invalid memory address or nil pointer dereference", [], by simp,
      by simp [writeChannelHandler], by simp, by simp, by simp⟩
  | written =>
    cases msg0 with
    | MsgGetData l =>
      cases l with
      | nil =>
        exact ⟨"index out of range [0] with length 0", [], by simp,
          by simp [writeChannelHandler], by simp, by simp, by simp⟩
      | cons iv l2 => simp [writerGoesOn] at hq
    | MsgTx tx => simp [writerGoesOn] at hq
    | MsgPing n => simp [writerGoesOn] at hq
    | MsgPong n => simp [writerGoesOn] at hq
    | MsgInv l => simp [writerGoesOn] at hq
    | other c => simp [writerGoesOn] at hq
  | failed we =>
    cases we with
    | EOF =>
      exact ⟨"WRITE EOF", [], by simp, by simp [writeChannelHandler], by simp, by simp,
        by simp⟩
    | other err =>
      cases msg0 with
      | MsgGetData l =>
        cases l with
        | nil =>
          exact ⟨"index out of range [0] with length 0",
            [WriterEvent.logError ("Failed to write message: " ++ err)],
            by simp, by simp [writeChannelHandler], by simp, by simp, by simp⟩
        | cons iv l2 => simp [writerGoesOn] at hq
      | MsgTx tx => simp [writerGoesOn] at hq
      | MsgPing n => simp [writerGoesOn] at hq
      | MsgPong n => simp [writerGoesOn] at hq
      | MsgInv l => simp [writerGoesOn] at hq
      | other c => simp [writerGoesOn] at hq

/-- C18, as stated, fails: a write that fails with end-of-file makes the
writer panic; the message queued behind it is never written. -/
theorem writeChannelHandler_literal_fails :
    ¬ (∀ (HandleTransactionSent : Message → Option String)
        (queue : List (Message × WriteResult)),
        (∀ q ∈ queue, q.2 ≠ WriteResult.noConn) →
        (writeChannelHandler HandleTransactionSent queue).1 = Outcome.returned ()
          ∧ writesMade (writeChannelHandler HandleTransactionSent queue).2
            = queue.map Prod.fst) := by
  intro h
  have h1 := (h (fun _ => none)
    [(Message.MsgPing 1, WriteResult.failed WriteError.EOF),
     (Message.MsgPong 2, WriteResult.written)] (by decide)).1
  simp [writeChannelHandler] at h1

/-- C18 (amended): as long as every write returns, with nil or with an error
other than end-of-file, and no GETDATA message without vectors is queued, the
writer hands every queued message to the socket, in order, logs every write
failure and goes on to the next message. At the first queued message of which
this is not so, the writer panics after handing it to the socket and writes
nothing that is queued behind it: with "WRITE EOF" when the write fails with
end-of-file, on the nil connection when `disconnect` has cleared `writeConn`,
and on `m.InvList[0]` for a GETDATA message without vectors. -/
theorem writeChannelHandler_continues (HandleTransactionSent : Message → Option String)
    (queue : List (Message × WriteResult)) (hall : ∀ q ∈ queue, writerGoesOn q = true) :
    ((writeChannelHandler HandleTransactionSent queue).1 = Outcome.returned ()
        ∧ writesMade (writeChannelHandler HandleTransactionSent queue).2 = queue.map Prod.fst
        ∧ ∀ msg err, (msg, WriteResult.failed (WriteError.other err)) ∈ queue →
            WriterEvent.logError ("Failed to write message: " ++ err)
              ∈ (writeChannelHandler HandleTransactionSent queue).2)
      ∧ (∀ (q0 : Message × WriteResult) (post : List (Message × WriteResult)),
          writerGoesOn q0 = false →
          writesMade (writeChannelHandler HandleTransactionSent (queue ++ q0 :: post)).2
              = queue.map Prod.fst ++ [q0.1]
            ∧ (q0.2 = WriteResult.failed WriteError.EOF →
                (writeChannelHandler HandleTransactionSent (queue ++ q0 :: post)).1
                  = Outcome.panicked "WRITE EOF")
            ∧ (q0.2 = WriteResult.noConn →
                (writeChannelHandler HandleTransactionSent (queue ++ q0 :: post)).1
                  = Outcome.panicked "invalid memory address or nil pointer dereference")
            ∧ (q0.2 ≠ WriteResult.failed WriteError.EOF → q0.2 ≠ WriteResult.noConn →
                q0.1 = Message.MsgGetData []
                ∧ (writeChannelHandler HandleTransactionSent (queue ++ q0 :: post)).1
                  = Outcome.panicked "index out of range [0] with length 0")) := by
  induction queue with
  | nil =>
    refine ⟨⟨rfl, rfl, ?_⟩, ?_⟩
    · intro msg err h; simp at h
    · intro q0 post hq0
      obtain ⟨text, extra, hex, heq, h1, h2, h3⟩ :=
        writeChannelHandler_stops HandleTransactionSent q0 post hq0
      rw [List.nil_append, heq]
      refine ⟨?_, ?_, ?_, ?_⟩
      · have := writesMade_cons_write q0.1 extra [] hex
        simp only [List.append_nil] at this
        rw [this]
        rfl
      · intro he; rw [h1 he]
      · intro he; rw [h2 he]
      · intro he1 he2
        exact ⟨(h3 he1 he2).1, by rw [(h3 he1 he2).2]⟩
  | cons q rest ih =>
    have hq : writerGoesOn q = true := hall q (List.mem_cons_self _ _)
    have hrest : ∀ x ∈ rest, writerGoesOn x = true :=
      fun x hx => hall x (List.mem_cons_of_mem _ hx)
    obtain ⟨⟨i1, i2, i3⟩, i4⟩ := ih hrest
    constructor
    · obtain ⟨extra, hex, hlog, heq⟩ :=
        writeChannelHandler_goes_on HandleTransactionSent q rest hq
      rw [heq]
      refine ⟨i1, ?_, ?_⟩
      · rw [writesMade_cons_write q.1 extra _ hex, i2]
        rfl
      · intro msg err hmem
        rcases List.mem_cons.1 hmem with hm | hm
        · have hq2 : q.2 = WriteResult.failed (WriteError.other err) := by rw [← hm]
          have := hlog err hq2
          simp [this]
        · have := i3 msg err hm
          simp [this]
    · intro q0 post hq0
      obtain ⟨extra, hex, _, heq⟩ :=
        writeChannelHandler_goes_on HandleTransactionSent q (rest ++ q0 :: post) hq
      obtain ⟨j1, j2, j3, j4⟩ := i4 q0 post hq0
      rw [List.cons_append, heq]
      refine ⟨?_, j2, j3, j4⟩
      rw [writesMade_cons_write q.1 extra _ hex, j1]
      rfl

theorem writeChannelHandler_continues_witness :
    (writeChannelHandler (fun _ => none)
        [(Message.MsgPing 1, WriteResult.failed (WriteError.other "broken pipe")),
         (Message.MsgPong 2, WriteResult.written)]).1 = Outcome.returned ()
    ∧ writesMade (writeChannelHandler (fun _ => none)
        [(Message.MsgPing 1, WriteResult.failed (WriteError.other "broken pipe")),
         (Message.MsgPong 2, WriteResult.written)]).2 = [Message.MsgPing 1, Message.MsgPong 2]
    ∧ (writeChannelHandler (fun _ => none)
        ([(Message.MsgPing 1, WriteResult.failed (WriteError.other "broken pipe")),
          (Message.MsgPong 2, WriteResult.written)]
          ++ (Message.MsgGetData [], WriteResult.written)
            :: [(Message.MsgPong 3, WriteResult.written)])).1
        = Outcome.panicked "index out of range [0] with length 0" :=
  ⟨(writeChannelHandler_continues (fun _ => none)
      [(Message.MsgPing 1, WriteResult.failed (WriteError.other "broken pipe")),
       (Message.MsgPong 2, WriteResult.written)] (by decide)).1.1,
   (writeChannelHandler_continues (fun _ => none)
      [(Message.MsgPing 1, WriteResult.failed (WriteError.other "broken pipe")),
       (Message.MsgPong 2, WriteResult.written)] (by decide)).1.2.1,
   (((writeChannelHandler_continues (fun _ => none)
      [(Message.MsgPing 1, WriteResult.failed (WriteError.other "broken pipe")),
       (Message.MsgPong 2, WriteResult.written)] (by decide)).2
      (Message.MsgGetData [], WriteResult.written)
      [(Message.MsgPong 3, WriteResult.written)] (by decide)).2.2.2
      (by decide) (by decide)).2⟩

/-- The vectors of a GETDATA message are handled one after the other; each adds
its expected TX message, if any, to the end of the outbound buffer. -/
theorem handleGetDataMsg_eq (GetTransactionBytes : InvVect → Option (List Nat) × Option String)
    (NewTxFromBytes : List Nat → Except String (List Nat)) :
    ∀ (InvList : List InvVect) (writeChan : List Message),
      handleGetDataMsg GetTransactionBytes NewTxFromBytes writeChan InvList
        = writeChan
          ++ InvList.filterMap (expectedTxMessage GetTransactionBytes NewTxFromBytes) := by
  intro InvList
  induction InvList with
  | nil => intro writeChan; simp [handleGetDataMsg]
  | cons invVect rest ih =>
    intro writeChan
    unfold handleGetDataMsg
    cases ht : invVect.Typ with
    | InvTypeBlock =>
      simp only [ht]
      rw [ih, List.filterMap_cons]
      simp [expectedTxMessage, ht]
    | other v =>
      simp only [ht]
      rw [ih, List.filterMap_cons]
      simp [expectedTxMessage, ht]
    | InvTypeTx =>
      simp only [ht]
      rcases hg : GetTransactionBytes invVect with ⟨bytes, err⟩
      cases err with
      | some e =>
        simp only [hg]
        rw [ih, List.filterMap_cons]
        simp [expectedTxMessage, ht, hg]
      | none =>
        cases bytes with
        | none =>
          simp only [hg]
          rw [ih, List.filterMap_cons]
          simp [expectedTxMessage, ht, hg]
        | some txBytes =>
          simp only [hg]
          cases hn : NewTxFromBytes txBytes with
          | error e =>
            simp only [hn]
            rw [ih, List.filterMap_cons]
            simp [expectedTxMessage, ht, hg, hn]
          | ok tx =>
            simp only [hn]
            rw [ih, List.filterMap_cons]
            simp [expectedTxMessage, ht, hg, hn]

/-- C19: `handleGetDataMsg` puts on the outbound buffer, in inventory order,
exactly one TX message for each transaction vector whose bytes the handler
returns without error, not nil and parseable, and nothing for block vectors,
vectors of unknown type and transaction vectors for which the handler or the
parser fails; the vectors after a failure are handled all the same. -/
theorem handleGetDataMsg_enqueues (GetTransactionBytes : InvVect → Option (List Nat) × Option String)
    (NewTxFromBytes : List Nat → Except String (List Nat)) (writeChan : List Message)
    (InvList : List InvVect) :
    handleGetDataMsg GetTransactionBytes NewTxFromBytes writeChan InvList
        = writeChan
          ++ InvList.filterMap (expectedTxMessage GetTransactionBytes NewTxFromBytes)
    ∧ (∀ (before after : List InvVect),
        handleGetDataMsg GetTransactionBytes NewTxFromBytes writeChan (before ++ after)
          = handleGetDataMsg GetTransactionBytes NewTxFromBytes
              (handleGetDataMsg GetTransactionBytes NewTxFromBytes writeChan before) after)
    ∧ (∀ invVect : InvVect,
        (invVect.Typ ≠ InvType.InvTypeTx
          ∨ (GetTransactionBytes invVect).2 ≠ none
          ∨ (GetTransactionBytes invVect).1 = none
          ∨ (∃ txBytes err, (GetTransactionBytes invVect).1 = some txBytes
              ∧ NewTxFromBytes txBytes = Except.error err)) →
        handleGetDataMsg GetTransactionBytes NewTxFromBytes writeChan [invVect] = writeChan)
    ∧ (∀ (invVect : InvVect) (txBytes tx : List Nat),
        invVect.Typ = InvType.InvTypeTx →
        GetTransactionBytes invVect = (some txBytes, none) →
        NewTxFromBytes txBytes = Except.ok tx →
        handleGetDataMsg GetTransactionBytes NewTxFromBytes writeChan [invVect]
          = writeChan ++ [Message.MsgTx tx]) := by
  refine ⟨handleGetDataMsg_eq _ _ _ _, ?_, ?_, ?_⟩
  · intro before after
    simp only [handleGetDataMsg_eq, List.filterMap_append, List.append_assoc]
  · intro invVect h
    rw [handleGetDataMsg_eq]
    have hnone : expectedTxMessage GetTransactionBytes NewTxFromBytes invVect = none := by
      unfold expectedTxMessage
      rcases h with h | h | h | ⟨txBytes, err, h1, h2⟩
      · simp [h]
      · rcases hg : GetTransactionBytes invVect with ⟨bytes, e⟩
        rw [hg] at h
        cases e with
        | none => exact absurd rfl h
        | some e2 =>
          cases bytes <;> simp
      · rcases hg : GetTransactionBytes invVect with ⟨bytes, e⟩
        rw [hg] at h
        simp only at h
        subst h
        simp
      · rcases hg : GetTransactionBytes invVect with ⟨bytes, e⟩
        rw [hg] at h1
        simp only at h1
        subst h1
        cases e with
        | none => simp [h2]
        | some e2 => simp
    simp [hnone]
  · intro invVect txBytes tx ht hg hn
    rw [handleGetDataMsg_eq]
    simp [expectedTxMessage, ht, hg, hn]

/-- The inventory list built from a batch: one transaction vector for each
entry that is a hash of 32 bytes, in batch order, as long as `AddInvVect` adds
the vector. -/
theorem buildInvList_eq (AddInvVect : List InvVect → InvVect → List InvVect × Option String)
    (bound : Nat)
    (hadd : ∀ (l : List InvVect) (iv : InvVect), l.length < bound →
      (AddInvVect l iv).1 = l ++ [iv]) :
    ∀ (batch : List (List Nat)) (InvList : List InvVect),
      InvList.length + batch.length ≤ bound →
      buildInvList AddInvVect InvList batch
        = InvList ++ batch.filterMap
            (fun txid => (NewHash txid).map (NewInvVect InvType.InvTypeTx)) := by
  intro batch
  induction batch with
  | nil => intro InvList _; simp [buildInvList]
  | cons txid rest ih =>
    intro InvList hlen
    simp only [List.length_cons] at hlen
    unfold buildInvList
    cases hn : NewHash txid with
    | none =>
      simp only [hn]
      rw [ih InvList (by omega), List.filterMap_cons]
      simp [hn]
    | some hash =>
      simp only [hn]
      rw [hadd InvList _ (by omega), ih _ (by simp; omega), List.filterMap_cons]
      simp [hn]

/-- While every buffer has room or its writer receives, the loop over the
peers comes to its end and has queued the message with every peer. -/
theorem sendToPeers_served (writerReceives : String → Bool) (invMsg : Message) :
    ∀ peers : List (String × Peer),
      (∀ ap ∈ peers, ap.2.writeChan.length < writeChanCapacity ∨ writerReceives ap.1 = true) →
      sendToPeers writerReceives invMsg peers = (true, peers.map (afterSend invMsg)) := by
  intro peers
  induction peers with
  | nil => intro _; rfl
  | cons ap rest ih =>
    intro h
    obtain ⟨address, peer⟩ := ap
    have hrest := ih (fun x hx => h x (List.mem_cons_of_mem _ hx))
    have hap := h (address, peer) (List.mem_cons_self _ _)
    by_cases hroom : peer.writeChan.length < writeChanCapacity
    · simp [sendToPeers, SafeSend, hroom, hrest, afterSend]
    · have hrec : writerReceives address = true := by
        rcases hap with hap | hap
        · exact absurd hap hroom
        · exact hap
      simp [sendToPeers, SafeSend, hroom, hrec, hrest, afterSend]

/-- At the first peer whose buffer is full and whose writer does not receive,
the loop stops: the peers before it hold the message, that peer and the peers
after it are as they were. -/
theorem sendToPeers_blocked (writerReceives : String → Bool) (invMsg : Message)
    (address : String) (peer : Peer) (post : List (String × Peer))
    (hfull : ¬ peer.writeChan.length < writeChanCapacity)
    (hrec : writerReceives address = false) :
    ∀ pre : List (String × Peer),
      (∀ ap ∈ pre, ap.2.writeChan.length < writeChanCapacity ∨ writerReceives ap.1 = true) →
      sendToPeers writerReceives invMsg (pre ++ (address, peer) :: post)
        = (false, pre.map (afterSend invMsg) ++ (address, peer) :: post) := by
  intro pre
  induction pre with
  | nil =>
    intro _
    simp [sendToPeers, SafeSend, hfull, hrec]
  | cons ap rest ih =>
    intro h
    obtain ⟨a0, p0⟩ := ap
    have hrest := ih (fun x hx => h x (List.mem_cons_of_mem _ hx))
    have hap := h (a0, p0) (List.mem_cons_self _ _)
    by_cases hroom : p0.writeChan.length < writeChanCapacity
    · simp [sendToPeers, SafeSend, hroom, hrest, afterSend]
    · have hrec0 : writerReceives a0 = true := by
        rcases hap with hap | hap
        · exact absurd hap hroom
        · exact hap
      simp [sendToPeers, SafeSend, hroom, hrec0, hrest, afterSend]

theorem AddInvVectUpTo_adds (bound : Nat) (hb : bound ≤ 50000) (l : List InvVect)
    (iv : InvVect) (hl : l.length < bound) : (AddInvVectUpTo 50000 l iv).1 = l ++ [iv] := by
  have hle : ¬ (l.length + 1 > 50000) := by omega
  simp [AddInvVectUpTo, hle]

/-- C20, as stated, fails: with two peers, the first with 100 messages in its
buffer and a writer that waits for its connection, the call does not return
and the second peer is not sent the message. -/
theorem sendInvBatch_literal_fails :
    ¬ (∀ (AddInvVect : List InvVect → InvVect → List InvVect × Option String)
        (writerReceives : String → Bool) (batch : List (List Nat))
        (peers : List (String × Peer)),
        (∀ (l : List InvVect) (iv : InvVect), l.length < batch.length →
          (AddInvVect l iv).1 = l ++ [iv]) →
        (sendInvBatch AddInvVect writerReceives batch peers).1 = true
          ∧ ∀ ap ∈ (sendInvBatch AddInvVect writerReceives batch peers).2,
              ap.2.writeChan.getLast?
                = some (Message.MsgInv (batch.filterMap
                    (fun txid => (NewHash txid).map (NewInvVect InvType.InvTypeTx))))) := by
  intro h
  have h1 := (h (AddInvVectUpTo 50000) (fun _ => false) [(sampleHash 1).val]
    [ ("peer1:8333", { writeChan := List.replicate 100 (Message.MsgPing 0) }),
      ("peer2:8333", {}) ]
    (fun l iv hl => AddInvVectUpTo_adds 1 (by decide) l iv hl)).1
  simp [sendInvBatch, sendToPeers, SafeSend, writeChanCapacity] at h1

/-- C20 (amended): for a batch of announced transaction ids, `sendInvBatch`
builds one INV message that holds, in batch order, exactly one transaction
vector for each entry that is a hash of 32 bytes (the other entries are
skipped) and sends that same message to the peers of the manager in turn.
When every peer's buffer of 100 messages has room, or its writer receives from
it, the call returns and every peer holds the message as the last of its
buffer. At the first peer whose buffer is full and whose writer does not
receive, the call does not return: the peers before it hold the message, that
peer and the peers after it do not. The method `AddInvVect` of the wire
package is taken to add the vector while the message holds fewer vectors than
the batch has entries. -/
theorem sendInvBatch_announces
    (AddInvVect : List InvVect → InvVect → List InvVect × Option String)
    (writerReceives : String → Bool) (batch : List (List Nat)) (peers : List (String × Peer))
    (hadd : ∀ (l : List InvVect) (iv : InvVect), l.length < batch.length →
      (AddInvVect l iv).1 = l ++ [iv]) :
    ((∀ ap ∈ peers, ap.2.writeChan.length < writeChanCapacity ∨ writerReceives ap.1 = true) →
        sendInvBatch AddInvVect writerReceives batch peers
          = (true, peers.map (afterSend (Message.MsgInv (batch.filterMap
              (fun txid => (NewHash txid).map (NewInvVect InvType.InvTypeTx)))))))
      ∧ (∀ (pre post : List (String × Peer)) (address : String) (peer : Peer),
          peers = pre ++ (address, peer) :: post →
          (∀ ap ∈ pre, ap.2.writeChan.length < writeChanCapacity
            ∨ writerReceives ap.1 = true) →
          ¬ peer.writeChan.length < writeChanCapacity →
          writerReceives address = false →
          sendInvBatch AddInvVect writerReceives batch peers
            = (false, pre.map (afterSend (Message.MsgInv (batch.filterMap
                (fun txid => (NewHash txid).map (NewInvVect InvType.InvTypeTx)))))
                ++ (address, peer) :: post)) := by
  have hmsg : buildInvList AddInvVect [] batch
      = batch.filterMap (fun txid => (NewHash txid).map (NewInvVect InvType.InvTypeTx)) := by
    rw [buildInvList_eq AddInvVect batch.length hadd batch [] (by simp)]
    simp
  refine ⟨?_, ?_⟩
  · intro hroom
    unfold sendInvBatch
    simp only [hmsg]
    exact sendToPeers_served writerReceives _ peers hroom
  · intro pre post address peer hp hpre hfull hrec
    unfold sendInvBatch
    simp only [hmsg]
    rw [hp]
    exact sendToPeers_blocked writerReceives _ address peer post hfull hrec pre hpre

theorem sendInvBatch_announces_witness :
    sendInvBatch (AddInvVectUpTo 50000) (fun _ => false)
        [(sampleHash 1).val, [1, 2, 3], (sampleHash 2).val]
        [("peer1:8333", {}), ("peer2:8333", { writeChan := [Message.MsgPing 9] })]
      = (true,
          [ ("peer1:8333",
              { writeChan := [Message.MsgInv
                  [ NewInvVect InvType.InvTypeTx (sampleHash 1),
                    NewInvVect InvType.InvTypeTx (sampleHash 2) ]] }),
            ("peer2:8333",
              { writeChan := [Message.MsgPing 9, Message.MsgInv
                  [ NewInvVect InvType.InvTypeTx (sampleHash 1),
                    NewInvVect InvType.InvTypeTx (sampleHash 2) ]] }) ]) :=
  (sendInvBatch_announces (AddInvVectUpTo 50000) (fun _ => false)
    [(sampleHash 1).val, [1, 2, 3], (sampleHash 2).val]
    [("peer1:8333", {}), ("peer2:8333", { writeChan := [Message.MsgPing 9] })]
    (fun l iv hl => AddInvVectUpTo_adds 3 (by decide) l iv hl)).1 (by decide)

/-! ## Store read errors, callback URLs and forced UTXO checks -/

/-- The UTXO loop asks only the bitcoin node. -/
theorem checkInputs_storeGet (c : Collaborators)
    (g : Hash → Option StoreData × Option String) :
    ∀ inputs : List Input, checkInputs { c with storeGet := g } inputs = checkInputs c inputs := by
  intro inputs
  induction inputs with
  | nil => rfl
  | cons input rest ih =>
    simp only [checkInputs]
    rw [ih]

/-- The tail of `putTransactionInit` reads nothing of the store's answer but
whether a record came with it. -/
theorem initCheck_storeGet (s : Server) (lib : Library) (c : Collaborators)
    (g : Hash → Option StoreData × Option String) (req : TransactionRequest)
    (rtr : RegisterTransactionResponse) (hash : Hash) (status : Status) (trace : List Effect)
    (hc : (c.storeGet hash).1 = none) (hg : (g hash).1 = none) :
    initCheck s lib { c with storeGet := g } req rtr hash status trace
      = initCheck s lib c req rtr hash status trace := by
  have h1 : checkStore { c with storeGet := g } hash = none := by
    simp [checkStore, hg]
  have h2 : checkStore c hash = none := by
    simp [checkStore, hc]
  have h3 : CheckUtxos lib { c with storeGet := g } req.RawTx = CheckUtxos lib c req.RawTx := by
    unfold CheckUtxos
    cases lib.NewTxFromBytes req.RawTx with
    | error e => rfl
    | ok inputs => exact checkInputs_storeGet c g inputs
  unfold initCheck
  simp only [h1, h2, h3]

/-- C21 fails in the code: when the store read of `checkStore` brings no
record, the error that comes with it plays no part, so that
`putTransactionInit` goes on as for a transaction the store does not hold, and
from the read on it never returns an error; without forced UTXO checks it
returns the hash for processing with no status record. But with forced UTXO
checks a successful `CheckUtxos` runs into `err.Error()` on a nil error and the
call panics, so the submission fails; a failed `CheckUtxos` gives status
REJECTED and no error. A read that fails with "read timeout" on a server with
forced UTXO checks is an example of the panic. -/
theorem putTransactionInit_read_error_ignored (s : Server) (lib : Library)
    (c : Collaborators) (ctx : Context) (req : TransactionRequest)
    (g : Hash → Option StoreData × Option String)
    (hc : (c.storeGet (lib.DoubleHashH req.RawTx)).1 = none)
    (hg : (g (lib.DoubleHashH req.RawTx)).1 = none) :
    putTransactionInit s lib { c with storeGet := g } ctx req = putTransactionInit s lib c ctx req
      ∧ (∀ (rtr : RegisterTransactionResponse) (status : Status) (trace : List Effect)
          (r : InitResult),
          (initCheck s lib { c with storeGet := g } req rtr (lib.DoubleHashH req.RawTx)
              status trace).1 = Outcome.returned r →
          r.err = none)
      ∧ (s.forceCheckUtxos = false →
          ∀ (rtr : RegisterTransactionResponse) (status : Status) (trace : List Effect),
          (initCheck s lib { c with storeGet := g } req rtr (lib.DoubleHashH req.RawTx)
              status trace).1
            = Outcome.returned { status := status, hash := some (lib.DoubleHashH req.RawTx) })
      ∧ (s.forceCheckUtxos = true →
          ∀ (rtr : RegisterTransactionResponse) (status : Status) (trace : List Effect),
          ((CheckUtxos lib c req.RawTx).1 = none →
              (initCheck s lib { c with storeGet := g } req rtr (lib.DoubleHashH req.RawTx)
                  status trace).1
                = Outcome.panicked "invalid memory address or nil pointer dereference")
            ∧ (∀ err : String, (CheckUtxos lib c req.RawTx).1 = some err →
              (initCheck s lib { c with storeGet := g } req rtr (lib.DoubleHashH req.RawTx)
                  status trace).1
                = Outcome.returned
                    { status := Status.UNKNOWN, hash := none, err := none
                      transactionStatus := some
                        { Status := Status.REJECTED
                          Txid := Hash.String (lib.DoubleHashH req.RawTx)
                          MerklePath := rtr.MerklePath, RejectReason := err } }))
      ∧ (putTransactionInit { source := "B", forceCheckUtxos := true } demoLibrary
            { demoCollaborators "B" none 0 with
              storeGet := fun _ => (none, some "read timeout") }
            {} { RawTx := [1, 2, 3] }).1
          = Outcome.panicked "invalid memory address or nil pointer dereference" := by
  have h1 : checkStore { c with storeGet := g } (lib.DoubleHashH req.RawTx) = none := by
    simp [checkStore, hg]
  have h3 : CheckUtxos lib { c with storeGet := g } req.RawTx = CheckUtxos lib c req.RawTx := by
    unfold CheckUtxos
    cases lib.NewTxFromBytes req.RawTx with
    | error e => rfl
    | ok inputs => exact checkInputs_storeGet c g inputs
  refine ⟨?_, ?_, ?_, ?_, rfl⟩
  · unfold putTransactionInit
    simp only [initCheck_storeGet s lib c g req _ _ _ _ hc hg]
  · intro rtr status trace r hr
    unfold initCheck at hr
    simp only [h1] at hr
    by_cases hf : s.forceCheckUtxos = true
    · simp only [hf, if_true] at hr
      cases hu : (CheckUtxos lib { c with storeGet := g } req.RawTx).1 with
      | none => simp [hu] at hr
      | some e =>
        simp only [hu, Outcome.returned.injEq] at hr
        rw [← hr]
        rfl
    · simp only [hf] at hr
      simp only [Bool.false_eq_true, if_false, Outcome.returned.injEq] at hr
      rw [← hr]
  · intro hf rtr status trace
    unfold initCheck
    simp [h1, hf]
  · intro hf rtr status trace
    refine ⟨?_, ?_⟩
    · intro hu
      unfold initCheck
      simp [h1, hf, h3, hu]
    · intro err hu
      unfold initCheck
      simp [h1, hf, h3, hu, initStatus]

theorem putTransactionInit_read_error_ignored_witness :
    (initCheck { source := "B", forceCheckUtxos := true } demoLibrary
        { demoCollaborators "B" none 0 with storeGet := fun _ => (none, some "read timeout") }
        { RawTx := [1, 2, 3] } {} (padHash [1, 2, 3]) Status.UNKNOWN []).1
      = Outcome.panicked "invalid memory address or nil pointer dereference" :=
  ((putTransactionInit_read_error_ignored { source := "B", forceCheckUtxos := true }
    demoLibrary (demoCollaborators "B" none 0) {} { RawTx := [1, 2, 3] }
    (fun _ => (none, some "read timeout")) rfl rfl).2.2.2.1 rfl {} Status.UNKNOWN []).1 rfl

/-- C22: the empty callback URL is accepted, and a request whose callback URL
is not empty and does not parse as a request URI gets the error
"invalid URL [...]" around the parser's message and no status, with no call
made to BlockTx, the store or the processor. -/
theorem PutTransaction_invalid_callback (s : Server) (lib : Library) (c : Collaborators)
    (ctx : Context) (req : TransactionRequest) (err : String)
    (hne : req.CallbackUrl ≠ "") (hinv : lib.ParseRequestURI req.CallbackUrl = some err) :
    ValidateCallbackURL lib "" = none
      ∧ PutTransaction s lib c ctx req
        = (Outcome.returned (Except.error ("invalid URL [" ++ err ++ "]")), []) := by
  refine ⟨by simp [ValidateCallbackURL], ?_⟩
  have hv : ValidateCallbackURL lib req.CallbackUrl = some ("invalid URL [" ++ err ++ "]") := by
    simp [ValidateCallbackURL, hne, hinv]
  unfold PutTransaction
  simp only [hv]

theorem PutTransaction_invalid_callback_witness :
    ValidateCallbackURL demoLibrary "" = none
      ∧ PutTransaction { source := "B" } demoLibrary (demoCollaborators "B" none 0) {}
          { RawTx := [1, 2, 3], CallbackUrl := "api.callback.com" }
        = (Outcome.returned (Except.error
            ("invalid URL [" ++ "parse \"api.callback.com\": invalid URI for request" ++ "]")),
          []) :=
  PutTransaction_invalid_callback { source := "B" } demoLibrary (demoCollaborators "B" none 0) {}
    { RawTx := [1, 2, 3], CallbackUrl := "api.callback.com" }
    "parse \"api.callback.com\": invalid URI for request" (by decide) (by decide)

/-- C30 fails in the code: with forced UTXO checks, once the store holds no
record, a successful `CheckUtxos` (nil error) makes `putTransactionInit` panic
on `err.Error()` instead of returning the hash for processing; a failed
`CheckUtxos` gives status REJECTED with the failure text as reject reason and
no error, as claimed. A transaction with one input that the node knows is an
example of the panic. -/
theorem putTransactionInit_forced_utxo_check (s : Server) (lib : Library) (c : Collaborators)
    (req : TransactionRequest) (rtr : RegisterTransactionResponse) (hash : Hash)
    (status : Status) (trace : List Effect)
    (hf : s.forceCheckUtxos = true) (hs : (c.storeGet hash).1 = none) :
    ((CheckUtxos lib c req.RawTx).1 = none →
        (initCheck s lib c req rtr hash status trace).1
          = Outcome.panicked "invalid memory address or nil pointer dereference")
      ∧ (∀ err : String, (CheckUtxos lib c req.RawTx).1 = some err →
        (initCheck s lib c req rtr hash status trace).1
          = Outcome.returned
              { status := Status.UNKNOWN, hash := none, err := none
                transactionStatus := some
                  { Status := Status.REJECTED, Txid := Hash.String hash
                    MerklePath := rtr.MerklePath, RejectReason := err } })
      ∧ (putTransactionInit { source := "B", forceCheckUtxos := true } demoLibrary
            (demoCollaborators "B" none 0) {} { RawTx := [1, 2, 3] }).1
          = Outcome.panicked "invalid memory address or nil pointer dereference" := by
  have h1 : checkStore c hash = none := by
    simp [checkStore, hs]
  refine ⟨?_, ?_, rfl⟩
  · intro hu
    unfold initCheck
    simp [h1, hf, hu]
  · intro err hu
    unfold initCheck
    simp [h1, hf, hu, initStatus]

theorem putTransactionInit_forced_utxo_check_witness :
    (CheckUtxos demoLibrary (demoCollaborators "B" none 0) [1, 2, 3]).1 = none
      ∧ (initCheck { source := "B", forceCheckUtxos := true } demoLibrary
          (demoCollaborators "B" none 0) { RawTx := [1, 2, 3] } {} (padHash [1, 2, 3])
          Status.UNKNOWN []).1
        = Outcome.panicked "invalid memory address or nil pointer dereference" :=
  ⟨rfl, (putTransactionInit_forced_utxo_check { source := "B", forceCheckUtxos := true }
    demoLibrary (demoCollaborators "B" none 0) { RawTx := [1, 2, 3] } {} (padHash [1, 2, 3])
    Status.UNKNOWN [] rfl rfl).1 rfl⟩

/-- C29, as stated, fails: under target MINED a REJECTED response followed by
a STORED response, neither reaching the target, ends on the timeout with status
STORED and no reject reason, not with status REJECTED. -/
theorem processTransaction_rejected_literal_fails :
    ¬ (∀ (w : Status) (txid : String) (pre post : List StatusAndError) (e : StatusAndError),
        e.Status = Status.REJECTED →
        specOrd (if w = Status.UNKNOWN then Status.SEEN_ON_NETWORK else w) > 7 →
        (∀ x ∈ pre, specOrd x.Status
          < specOrd (if w = Status.UNKNOWN then Status.SEEN_ON_NETWORK else w)) →
        (∀ x ∈ post, specOrd x.Status
          < specOrd (if w = Status.UNKNOWN then Status.SEEN_ON_NETWORK else w)) →
        processTransaction w txid (pre ++ e :: post)
          = { Txid := txid, Status := Status.REJECTED, RejectReason := e.Err.getD "",
              TimedOut := true }) := by
  intro h
  have h1 := h Status.MINED "tx" []
    [{ Hash := none, Status := Status.STORED, Err := none }]
    { Hash := none, Status := Status.REJECTED, Err := some "bad" }
    rfl (by decide) (by intro x hx; cases hx) (by decide)
  revert h1
  decide

/-- C29 (amended): with the target `t` that is `w`, or `SEEN_ON_NETWORK` when
`w` is 0, and no earlier response reaching `t`: when the ordinal of `t` is
above 7 a REJECTED response does not end the wait, and if no later response
reaches `t` the call ends on the timeout with the status and reject reason of
the last response received, which are REJECTED and its reason when nothing
follows the REJECTED response; when the ordinal of `t` is at most 7 the call
returns at the REJECTED response with its reason and without the timeout
flag. -/
theorem processTransaction_rejected (w : Status) (txid : String)
    (pre post : List StatusAndError) (e : StatusAndError)
    (he : e.Status = Status.REJECTED)
    (hpre : ∀ x ∈ pre, specOrd x.Status
      < specOrd (if w = Status.UNKNOWN then Status.SEEN_ON_NETWORK else w)) :
    (specOrd (if w = Status.UNKNOWN then Status.SEEN_ON_NETWORK else w) > 7 →
        (∀ x ∈ post, specOrd x.Status
          < specOrd (if w = Status.UNKNOWN then Status.SEEN_ON_NETWORK else w)) →
        processTransaction w txid (pre ++ e :: post)
            = { Txid := txid, TimedOut := true,
                Status := ((e :: post).getLast?.map (fun x => x.Status)).getD Status.UNKNOWN,
                RejectReason := ((e :: post).getLast?.bind (fun x => x.Err)).getD "" }
          ∧ processTransaction w txid (pre ++ [e])
            = { Txid := txid, TimedOut := true, Status := Status.REJECTED,
                RejectReason := e.Err.getD "" })
      ∧ (specOrd (if w = Status.UNKNOWN then Status.SEEN_ON_NETWORK else w) ≤ 7 →
        processTransaction w txid (pre ++ e :: post)
          = { Txid := txid, TimedOut := false, Status := Status.REJECTED,
              RejectReason := e.Err.getD "" }) := by
  refine ⟨?_, ?_⟩
  · intro ht hpost
    have hlt : specOrd e.Status
        < specOrd (if w = Status.UNKNOWN then Status.SEEN_ON_NETWORK else w) := by
      rw [he]
      exact ht
    have hall : ∀ x ∈ pre ++ e :: post, specOrd x.Status
        < specOrd (if w = Status.UNKNOWN then Status.SEEN_ON_NETWORK else w) := by
      intro x hx
      rcases List.mem_append.1 hx with hx | hx
      · exact hpre x hx
      · rcases List.mem_cons.1 hx with hx | hx
        · rw [hx]; exact hlt
        · exact hpost x hx
    have hall2 : ∀ x ∈ pre ++ [e], specOrd x.Status
        < specOrd (if w = Status.UNKNOWN then Status.SEEN_ON_NETWORK else w) := by
      intro x hx
      rcases List.mem_append.1 hx with hx | hx
      · exact hpre x hx
      · rw [List.mem_singleton.1 hx]; exact hlt
    refine ⟨?_, ?_⟩
    · rw [processTransaction_timeout_in_force w txid _ hall]
      rw [List.getLast?_append_of_ne_nil pre (List.cons_ne_nil e post)]
    · rw [processTransaction_timeout_in_force w txid _ hall2]
      simp [he]
  · intro ht
    unfold processTransaction
    have hr : hasWaitForStatusReached e.Status
        (if w = Status.UNKNOWN then Status.SEEN_ON_NETWORK else w) = true := by
      apply (reached_iff_specOrd _ _).2
      rw [he]
      exact ht
    rw [waitLoop_first_reached _ e post hr pre { Txid := txid }
      (fun x hx => reached_false_of_lt _ _ (hpre x hx))]
    simp only [recordResponse, he]
    cases e.Err <;> rfl

theorem processTransaction_rejected_witness :
    processTransaction Status.UNKNOWN "tx"
        ([{ Hash := none, Status := Status.STORED, Err := none }]
          ++ [{ Hash := none, Status := Status.REJECTED, Err := some "bad" }])
      = { Txid := "tx", TimedOut := true, Status := Status.REJECTED, RejectReason := "bad" } :=
  ((processTransaction_rejected Status.UNKNOWN "tx"
    [{ Hash := none, Status := Status.STORED, Err := none }] []
    { Hash := none, Status := Status.REJECTED, Err := some "bad" } rfl (by decide)).1
      (by decide) (by intro x hx; cases hx)).2

/-! ## Status lookup and lock release -/

/-- C23: when the txid decodes, the store returns its record without an error
and the txid parses as a hash, `GetTransactionStatus` succeeds whatever the
Merkle path lookup returns as its error: the status record carries the stored
status, reject reason, block height and hash and the timestamps that are set,
and as Merkle path the string the lookup returned; when the store read returns
an error, that error is returned and no status. -/
theorem GetTransactionStatus_ignores_merkle_error
    (DecodeString : String → Except String (List Nat))
    (NewHashFromStr : String → Except String Hash)
    (storeGet : List Nat → Option StoreData × Option String)
    (GetTransactionMerklePath : Hash → String × Option String) (Txid : String)
    (txBytes : List Nat) (hd : DecodeString Txid = Except.ok txBytes) :
    (∀ (data : StoreData) (hash dataHash : Hash),
        storeGet txBytes.reverse = (some data, none) →
        NewHashFromStr Txid = Except.ok hash →
        data.Hash = some dataHash →
        GetTransactionStatus DecodeString NewHashFromStr storeGet GetTransactionMerklePath Txid
          = Outcome.returned (Except.ok
              { TimedOut := false
                Txid := Hash.String dataHash
                StoredAt := if data.StoredAt = 0 then none else some data.StoredAt
                AnnouncedAt := if data.AnnouncedAt = 0 then none else some data.AnnouncedAt
                MinedAt := if data.MinedAt = 0 then none else some data.MinedAt
                Status := data.Status
                RejectReason := data.RejectReason
                BlockHeight := data.BlockHeight
                BlockHash := (data.BlockHash.map Hash.String).getD ""
                MerklePath := (GetTransactionMerklePath hash).1 }))
      ∧ (∀ (data : Option StoreData) (err : String),
        storeGet txBytes.reverse = (data, some err) →
        GetTransactionStatus DecodeString NewHashFromStr storeGet GetTransactionMerklePath Txid
          = Outcome.returned (Except.error err)) := by
  refine ⟨?_, ?_⟩
  · intro data hash dataHash hs hn hh
    simp only [GetTransactionStatus, getTransactionData, hd, hs, hn, hh]
    cases data.BlockHash <;> rfl
  · intro data err hs
    simp only [GetTransactionStatus, getTransactionData, hd, hs]

theorem GetTransactionStatus_ignores_merkle_error_witness :
    GetTransactionStatus (fun _ => Except.ok [1, 2, 3]) (fun _ => Except.ok (padHash [3, 2, 1]))
        (fun _ => (some { Hash := some (padHash [3, 2, 1]), Status := Status.MINED,
                          StoredAt := 5, BlockHeight := 7 }, none))
        (fun _ => ("", some "failed to get tx merkle path")) "010203"
      = Outcome.returned (Except.ok
          { Txid := Hash.String (padHash [3, 2, 1]), Status := Status.MINED, StoredAt := some 5,
            BlockHeight := 7, MerklePath := "" }) :=
  (GetTransactionStatus_ignores_merkle_error (fun _ => Except.ok [1, 2, 3])
    (fun _ => Except.ok (padHash [3, 2, 1]))
    (fun _ => (some { Hash := some (padHash [3, 2, 1]), Status := Status.MINED,
                      StoredAt := 5, BlockHeight := 7 }, none))
    (fun _ => ("", some "failed to get tx merkle path")) "010203" [1, 2, 3] rfl).1
    { Hash := some (padHash [3, 2, 1]), Status := Status.MINED, StoredAt := 5, BlockHeight := 7 }
    (padHash [3, 2, 1]) (padHash [3, 2, 1]) rfl rfl rfl

/-- C24, as stated, fails: when the store reports 2147483648 rows, the
response holds -2147483648. -/
theorem SetUnlockedByName_literal_fails :
    ¬ (∀ (storeSetUnlockedByName : String → Int × Option String) (Name : String)
        (recordsAffected : Int),
        - 9223372036854775808 ≤ recordsAffected → recordsAffected ≤ 9223372036854775807 →
        storeSetUnlockedByName Name = (recordsAffected, none) →
        SetUnlockedByName storeSetUnlockedByName Name
          = Except.ok { RecordsAffected := recordsAffected }) := by
  intro h
  have h1 := h (fun _ => (2147483648, none)) "test" 2147483648 (by decide) (by decide) rfl
  simp [SetUnlockedByName, int32] at h1

/-- C24 (amended): when the store fails, its error is returned and no
response; otherwise `RecordsAffected` is the count of the store converted to
`int32`, which is the count itself when it lies between -2147483648 and
2147483647 and differs from it by a multiple of 4294967296 otherwise. -/
theorem SetUnlockedByName_int32 (storeSetUnlockedByName : String → Int × Option String)
    (Name : String) :
    (∀ err : String, (storeSetUnlockedByName Name).2 = some err →
        SetUnlockedByName storeSetUnlockedByName Name = Except.error err)
      ∧ ((storeSetUnlockedByName Name).2 = none →
        SetUnlockedByName storeSetUnlockedByName Name
            = Except.ok { RecordsAffected := int32 (storeSetUnlockedByName Name).1 }
          ∧ (- 2147483648 ≤ (storeSetUnlockedByName Name).1
              → (storeSetUnlockedByName Name).1 ≤ 2147483647
              → int32 (storeSetUnlockedByName Name).1 = (storeSetUnlockedByName Name).1)
          ∧ - 2147483648 ≤ int32 (storeSetUnlockedByName Name).1
          ∧ int32 (storeSetUnlockedByName Name).1 ≤ 2147483647
          ∧ (4294967296 : Int) ∣
              (storeSetUnlockedByName Name).1 - int32 (storeSetUnlockedByName Name).1) := by
  refine ⟨?_, ?_⟩
  · intro err he
    simp [SetUnlockedByName, he]
  · intro hn
    refine ⟨by simp [SetUnlockedByName, hn], ?_, ?_, ?_, ?_⟩
    · intro h1 h2
      unfold int32
      omega
    · unfold int32
      omega
    · unfold int32
      omega
    · unfold int32
      omega

/-! ## The methods of the processor response map -/

theorem ResponseItems.mem_Delete (m : ResponseItems) (hash : Hash)
    (kv : Hash × ProcessorResponse) :
    kv ∈ ResponseItems.Delete m hash ↔ kv ∈ m ∧ kv.1 ≠ hash := by
  simp [ResponseItems.Delete, List.mem_filter]

theorem ResponseItems.Get_nil (hash : Hash) : ResponseItems.Get [] hash = none := rfl

theorem ResponseItems.Get_cons (k : Hash) (v : ProcessorResponse) (m : ResponseItems)
    (hash : Hash) :
    ResponseItems.Get ((k, v) :: m) hash = if k = hash then some v else ResponseItems.Get m hash := by
  unfold ResponseItems.Get
  by_cases h : k = hash
  · simp [List.find?, h]
  · simp [List.find?, h]

theorem ResponseItems.Get_Delete (m : ResponseItems) (k hash : Hash) :
    ResponseItems.Get (ResponseItems.Delete m k) hash
      = if k = hash then none else ResponseItems.Get m hash := by
  induction m with
  | nil => simp [ResponseItems.Delete, ResponseItems.Get_nil]
  | cons a rest ih =>
    obtain ⟨k1, v1⟩ := a
    have hd : ResponseItems.Delete ((k1, v1) :: rest) k
        = if k1 = k then ResponseItems.Delete rest k
          else (k1, v1) :: ResponseItems.Delete rest k := by
      by_cases h : k1 = k <;> simp [ResponseItems.Delete, List.filter, h]
    rw [hd]
    by_cases h1 : k1 = k
    · rw [if_pos h1, ih, ResponseItems.Get_cons]
      by_cases h2 : k = hash
      · simp [h2]
      · have h3 : ¬ k1 = hash := by rw [h1]; exact h2
        simp [h2, h3]
    · rw [if_neg h1, ResponseItems.Get_cons, ih, ResponseItems.Get_cons]
      by_cases h2 : k = hash
      · have h3 : ¬ k1 = hash := by rw [← h2]; exact h1
        simp [h2, h3]
      · simp [h2]

theorem ResponseItems.Get_Set (m : ResponseItems) (k : Hash) (v : ProcessorResponse)
    (hash : Hash) :
    ResponseItems.Get (ResponseItems.Set m k v) hash
      = if k = hash then some v else ResponseItems.Get m hash := by
  unfold ResponseItems.Set
  rw [ResponseItems.Get_cons, ResponseItems.Get_Delete]
  by_cases h : k = hash <;> simp [h]

theorem ResponseItems.Get_eq_none (m : ResponseItems) (hash : Hash)
    (h : hash ∉ m.map Prod.fst) : ResponseItems.Get m hash = none := by
  induction m with
  | nil => rfl
  | cons a rest ih =>
    obtain ⟨k1, v1⟩ := a
    simp only [List.map_cons, List.mem_cons, not_or] at h
    rw [ResponseItems.Get_cons, if_neg (fun e => h.1 e.symm), ih h.2]

/-- In a map with one entry per key, an entry is in the map exactly when `Get`
on its key gives its value. -/
theorem ResponseItems.mem_iff_Get (m : ResponseItems) (hnd : (m.map Prod.fst).Nodup)
    (kv : Hash × ProcessorResponse) :
    kv ∈ m ↔ ResponseItems.Get m kv.1 = some kv.2 := by
  induction m with
  | nil => simp [ResponseItems.Get_nil]
  | cons a rest ih =>
    obtain ⟨k1, v1⟩ := a
    simp only [List.map_cons, List.nodup_cons] at hnd
    rw [ResponseItems.Get_cons, List.mem_cons]
    by_cases h : k1 = kv.1
    · rw [if_pos h]
      constructor
      · intro hm
        rcases hm with hm | hm
        · rw [hm]
        · exfalso
          apply hnd.1
          rw [h]
          exact List.mem_map_of_mem Prod.fst hm
      · intro hv
        left
        have hv2 : v1 = kv.2 := Option.some.inj hv
        exact Prod.ext h.symm hv2.symm
    · rw [if_neg h, ← ih hnd.2]
      constructor
      · intro hm
        rcases hm with hm | hm
        · exfalso
          apply h
          rw [hm]
        · exact hm
      · intro hm
        exact Or.inr hm

theorem ResponseItems.keys_Delete_sublist (m : ResponseItems) (hash : Hash) :
    ((ResponseItems.Delete m hash).map Prod.fst).Sublist (m.map Prod.fst) :=
  List.Sublist.map Prod.fst (List.filter_sublist _)

theorem ResponseItems.nodup_Delete (m : ResponseItems) (hash : Hash)
    (hnd : (m.map Prod.fst).Nodup) : ((ResponseItems.Delete m hash).map Prod.fst).Nodup :=
  List.Nodup.sublist (ResponseItems.keys_Delete_sublist m hash) hnd

theorem ResponseItems.nodup_Set (m : ResponseItems) (hash : Hash) (value : ProcessorResponse)
    (hnd : (m.map Prod.fst).Nodup) : ((ResponseItems.Set m hash value).map Prod.fst).Nodup := by
  unfold ResponseItems.Set
  simp only [List.map_cons, List.nodup_cons]
  refine ⟨?_, ResponseItems.nodup_Delete m hash hnd⟩
  intro hmem
  obtain ⟨kv, hkv, hk⟩ := List.mem_map.1 hmem
  exact ((ResponseItems.mem_Delete m hash kv).1 hkv).2 hk

/-- The loop of `Clean` keeps the entries of `items` whose key is not the key
of an expired entry it has visited. -/
theorem cleanLoop_eq_filter (timeNow Expiry : Int) :
    ∀ (l : List (Hash × ProcessorResponse)) (items : ResponseItems),
      cleanLoop timeNow Expiry l items
        = items.filter (fun kv =>
            !(l.any (fun x => decide (x.1 = kv.1) && decide (timeNow - x.2.Start > Expiry)))) := by
  intro l
  induction l with
  | nil =>
    intro items
    simp [cleanLoop]
  | cons a rest ih =>
    intro items
    obtain ⟨key, item⟩ := a
    by_cases hx : timeNow - item.Start > Expiry
    · simp only [cleanLoop, hx, if_true]
      rw [ih, ResponseItems.Delete, List.filter_filter]
      apply List.filter_congr
      intro kv _
      simp only [List.any_cons, hx, decide_True, Bool.and_true, Bool.not_or]
      by_cases hk : kv.1 = key
      · simp [hk]
      · have hk2 : ¬ key = kv.1 := fun e => hk e.symm
        simp [hk, hk2]
    · simp only [cleanLoop, hx, if_false]
      rw [ih]
      apply List.filter_congr
      intro kv _
      simp [List.any_cons, hx]

theorem cleanLoop_sublist (timeNow Expiry : Int) (l : List (Hash × ProcessorResponse))
    (items : ResponseItems) :
    ((cleanLoop timeNow Expiry l items).map Prod.fst).Sublist (items.map Prod.fst) := by
  rw [cleanLoop_eq_filter]
  exact List.Sublist.map Prod.fst (List.filter_sublist _)

theorem cleanLoop_mem (timeNow Expiry : Int) (l : List (Hash × ProcessorResponse))
    (items : ResponseItems) (kv : Hash × ProcessorResponse)
    (h : kv ∈ cleanLoop timeNow Expiry l items) : kv ∈ items := by
  rw [cleanLoop_eq_filter] at h
  exact (List.mem_filter.1 h).1

/-- With one entry per key `Clean` keeps the entries that have not expired on
the system clock. -/
theorem Clean_eq_filter (m : ProcessorResponseMap) (timeNow : Int)
    (hnd : (m.ResponseItems.map Prod.fst).Nodup) :
    (m.Clean timeNow).ResponseItems
      = m.ResponseItems.filter (fun kv => !decide (timeNow - kv.2.Start > m.Expiry)) := by
  unfold ProcessorResponseMap.Clean
  simp only
  rw [cleanLoop_eq_filter]
  apply List.filter_congr
  intro kv hkv
  congr 1
  by_cases hx : timeNow - kv.2.Start > m.Expiry
  · simp only [hx, decide_True]
    rw [List.any_eq_true]
    exact ⟨kv, hkv, by simp [hx]⟩
  · simp only [hx, decide_False]
    rw [List.any_eq_false]
    intro x hxm
    by_cases hk : x.1 = kv.1
    · have hx1 : ResponseItems.Get m.ResponseItems x.1 = some x.2 :=
        (ResponseItems.mem_iff_Get _ hnd x).1 hxm
      have hx2 : ResponseItems.Get m.ResponseItems kv.1 = some kv.2 :=
        (ResponseItems.mem_iff_Get _ hnd kv).1 hkv
      rw [hk, hx2] at hx1
      have hv : kv.2 = x.2 := Option.some.inj hx1
      rw [← hv]
      simp [hx]
    · simp [hk]

/-- When every item carries the hash it is stored under, the loop of `Hashes`
appends the keys of the entries that pass. -/
theorem hashesLoop_keyed (fn : ProcessorResponse → Bool) :
    ∀ (l : List (Hash × ProcessorResponse)) (hashes : List Hash),
      (∀ kv ∈ l, kv.2.Hash = some kv.1) →
      hashesLoop fn l hashes = Outcome.returned (hashes ++ keysPassing l fn) := by
  intro l
  induction l with
  | nil =>
    intro hashes _
    simp [hashesLoop, keysPassing]
  | cons a rest ih =>
    intro hashes hk
    obtain ⟨k, item⟩ := a
    have hitem : item.Hash = some k := hk (k, item) (List.mem_cons_self _ _)
    have hrest : ∀ kv ∈ rest, kv.2.Hash = some kv.1 :=
      fun kv hkv => hk kv (List.mem_cons_of_mem _ hkv)
    by_cases hf : fn item = true
    · simp only [hashesLoop, hf, if_true, hitem]
      rw [ih _ hrest]
      simp [keysPassing, List.filter, hf]
    · simp only [hashesLoop, hf]
      rw [if_neg (by simp), ih _ hrest]
      simp [keysPassing, List.filter, hf]

theorem keysPassing_nodup (m : ResponseItems) (fn : ProcessorResponse → Bool)
    (hnd : (m.map Prod.fst).Nodup) : (keysPassing m fn).Nodup :=
  List.Nodup.sublist (List.Sublist.map Prod.fst (List.filter_sublist _)) hnd

theorem mem_keysPassing (m : ResponseItems) (fn : ProcessorResponse → Bool)
    (hnd : (m.map Prod.fst).Nodup) (h : Hash) :
    h ∈ keysPassing m fn ↔ ∃ v, ResponseItems.Get m h = some v ∧ fn v = true := by
  unfold keysPassing
  rw [List.mem_map]
  constructor
  · rintro ⟨kv, hkv, hk⟩
    rw [List.mem_filter] at hkv
    refine ⟨kv.2, ?_, hkv.2⟩
    rw [← hk]
    exact (ResponseItems.mem_iff_Get m hnd kv).1 hkv.1
  · rintro ⟨v, hv, hf⟩
    refine ⟨(h, v), ?_, rfl⟩
    rw [List.mem_filter]
    exact ⟨(ResponseItems.mem_iff_Get m hnd (h, v)).2 hv, hf⟩

/-- One call keeps one entry per key, and keeps every item under its own hash
when a `Set` stores it there. -/
theorem call_invariant (m : ProcessorResponseMap) (c : MapCall)
    (hnd : (m.ResponseItems.map Prod.fst).Nodup) :
    ((m.call c).ResponseItems.map Prod.fst).Nodup
      ∧ (c.keyed = true → (∀ kv ∈ m.ResponseItems, kv.2.Hash = some kv.1) →
          ∀ kv ∈ (m.call c).ResponseItems, kv.2.Hash = some kv.1) := by
  cases c with
  | Set hash value =>
    refine ⟨ResponseItems.nodup_Set _ hash value hnd, ?_⟩
    intro hc hk kv hkv
    simp only [ProcessorResponseMap.call, ResponseItems.Set, List.mem_cons] at hkv
    rcases hkv with hkv | hkv
    · rw [hkv]
      simpa [MapCall.keyed] using hc
    · exact hk kv ((ResponseItems.mem_Delete _ hash kv).1 hkv).1
  | Delete hash =>
    refine ⟨ResponseItems.nodup_Delete _ hash hnd, ?_⟩
    intro _ hk kv hkv
    exact hk kv ((ResponseItems.mem_Delete _ hash kv).1 hkv).1
  | Clear =>
    refine ⟨by simp [ProcessorResponseMap.call, ProcessorResponseMap.Clear], ?_⟩
    intro _ _ kv hkv
    simp [ProcessorResponseMap.call, ProcessorResponseMap.Clear] at hkv
  | Clean timeNow =>
    refine ⟨List.Nodup.sublist (cleanLoop_sublist timeNow m.Expiry _ _) hnd, ?_⟩
    intro _ hk kv hkv
    exact hk kv (cleanLoop_mem timeNow m.Expiry _ _ kv hkv)

theorem calls_invariant (cs : List MapCall) :
    ∀ m : ProcessorResponseMap, (m.ResponseItems.map Prod.fst).Nodup →
      ((m.calls cs).ResponseItems.map Prod.fst).Nodup
        ∧ ((∀ c ∈ cs, MapCall.keyed c = true) →
            (∀ kv ∈ m.ResponseItems, kv.2.Hash = some kv.1) →
            ∀ kv ∈ (m.calls cs).ResponseItems, kv.2.Hash = some kv.1) := by
  induction cs with
  | nil =>
    intro m hnd
    exact ⟨hnd, fun _ hk => hk⟩
  | cons c rest ih =>
    intro m hnd
    have h1 := call_invariant m c hnd
    have h2 := ih (m.call c) h1.1
    refine ⟨h2.1, ?_⟩
    intro hcs hk
    exact h2.2 (fun c2 hc2 => hcs c2 (List.mem_cons_of_mem _ hc2))
      (h1.2 (hcs c (List.mem_cons_self _ _)) hk)

/-- C25, as stated, fails: after `Set` has stored under one hash an item that
carries another, `Hashes` returns the hash of the item, not the key. -/
theorem Hashes_keys_literal_fails :
    ¬ (∀ (m : ProcessorResponseMap) (cs : List MapCall)
        (filterFunc : List (ProcessorResponse → Bool)),
        m.ResponseItems = [] →
        ResponseItems.Hashes (m.calls cs).ResponseItems filterFunc
          = Outcome.returned
              (keysPassing (m.calls cs).ResponseItems (filterInForce filterFunc))) := by
  intro h
  have h1 := h (NewProcessorResponseMap 0 [])
    [MapCall.Set (padHash [1]) { Hash := some (padHash [2]) }] [] rfl
  revert h1
  decide

/-- C25 (amended): in every state reached from a new map through `Set`,
`Delete`, `Clear` and `Clean` in which each `Set` stored its item under the
hash the item carries, every entry's key is its item's hash and `Hashes`
returns, each once, the keys of the entries whose item passes the filter: all
keys, as many as `Len`, without a filter. -/
theorem Hashes_keys (m : ProcessorResponseMap) (cs : List MapCall)
    (filterFunc : List (ProcessorResponse → Bool))
    (h0 : m.ResponseItems = []) (hcs : ∀ c ∈ cs, MapCall.keyed c = true) :
    (∀ kv ∈ (m.calls cs).ResponseItems, kv.2.Hash = some kv.1)
      ∧ ResponseItems.Hashes (m.calls cs).ResponseItems filterFunc
        = Outcome.returned (keysPassing (m.calls cs).ResponseItems (filterInForce filterFunc))
      ∧ (keysPassing (m.calls cs).ResponseItems (filterInForce filterFunc)).Nodup
      ∧ (∀ h : Hash, h ∈ keysPassing (m.calls cs).ResponseItems (filterInForce filterFunc)
          ↔ ∃ v, ResponseItems.Get (m.calls cs).ResponseItems h = some v
              ∧ filterInForce filterFunc v = true)
      ∧ ResponseItems.Hashes (m.calls cs).ResponseItems []
        = Outcome.returned ((m.calls cs).ResponseItems.map Prod.fst)
      ∧ ((m.calls cs).ResponseItems.map Prod.fst).length
        = ResponseItems.Len (m.calls cs).ResponseItems := by
  have hnd0 : (m.ResponseItems.map Prod.fst).Nodup := by simp [h0]
  have hk0 : ∀ kv ∈ m.ResponseItems, kv.2.Hash = some kv.1 := by simp [h0]
  have hinv := calls_invariant cs m hnd0
  have hk := hinv.2 hcs hk0
  refine ⟨hk, ?_, keysPassing_nodup _ _ hinv.1, mem_keysPassing _ _ hinv.1, ?_, ?_⟩
  · unfold ResponseItems.Hashes
    rw [hashesLoop_keyed _ _ _ hk]
    simp
  · unfold ResponseItems.Hashes
    rw [hashesLoop_keyed _ _ _ hk]
    simp [keysPassing, filterInForce]
  · simp [ResponseItems.Len]

theorem Hashes_keys_witness :
    ResponseItems.Hashes
        ((NewProcessorResponseMap 0 []).calls
          [ MapCall.Set (padHash [1]) { Hash := some (padHash [1]), Status := Status.STORED },
            MapCall.Set (padHash [2]) { Hash := some (padHash [2]), Status := Status.MINED },
            MapCall.Delete (padHash [3]) ]).ResponseItems
        [fun r => decide (r.Status = Status.STORED)]
      = Outcome.returned [padHash [1]] :=
  (Hashes_keys (NewProcessorResponseMap 0 [])
    [ MapCall.Set (padHash [1]) { Hash := some (padHash [1]), Status := Status.STORED },
      MapCall.Set (padHash [2]) { Hash := some (padHash [2]), Status := Status.MINED },
      MapCall.Delete (padHash [3]) ]
    [fun r => decide (r.Status = Status.STORED)] rfl (by decide)).2.1

theorem itemsLoop_nodup (fn : ProcessorResponse → Bool) :
    ∀ (l : List (Hash × ProcessorResponse)) (items : ResponseItems),
      (items.map Prod.fst).Nodup → ((itemsLoop fn l items).map Prod.fst).Nodup := by
  intro l
  induction l with
  | nil =>
    intro items h
    exact h
  | cons a rest ih =>
    intro items h
    obtain ⟨k, v⟩ := a
    by_cases hf : fn v = true
    · simp only [itemsLoop, hf, if_true]
      exact ih _ (ResponseItems.nodup_Set items k v h)
    · simp only [itemsLoop, hf]
      rw [if_neg (by simp)]
      exact ih _ h

/-- What `Get` finds in the map the loop of `Items` builds from a map with one
entry per key. -/
theorem itemsLoop_Get (fn : ProcessorResponse → Bool) (hash : Hash) :
    ∀ (l : List (Hash × ProcessorResponse)) (items : ResponseItems),
      (l.map Prod.fst).Nodup →
      ResponseItems.Get (itemsLoop fn l items) hash
        = match ResponseItems.Get l hash with
          | some v => if fn v = true then some v else ResponseItems.Get items hash
          | none => ResponseItems.Get items hash := by
  intro l
  induction l with
  | nil =>
    intro items _
    simp [itemsLoop, ResponseItems.Get_nil]
  | cons a rest ih =>
    intro items hnd
    obtain ⟨k, v⟩ := a
    simp only [List.map_cons, List.nodup_cons] at hnd
    rw [ResponseItems.Get_cons]
    by_cases hk : k = hash
    · have hnone : ResponseItems.Get rest hash = none := by
        apply ResponseItems.Get_eq_none
        rw [← hk]
        exact hnd.1
      by_cases hf : fn v = true
      · simp only [itemsLoop, hf, if_true]
        rw [ih _ hnd.2, hnone]
        simp [ResponseItems.Get_Set, hk, hf]
      · simp only [itemsLoop, hf]
        rw [if_neg (by simp), ih _ hnd.2, hnone]
        simp [hk, hf]
    · by_cases hf : fn v = true
      · simp only [itemsLoop, hf, if_true]
        rw [ih _ hnd.2, ResponseItems.Get_Set]
        simp [hk]
      · simp only [itemsLoop, hf]
        rw [if_neg (by simp), ih _ hnd.2]
        simp [hk]

/-- C26: on a map with one entry per key, `Items` returns a map whose entries
are exactly the entries of the response map whose item passes the filter, with
their keys and items; without a filter these are all the entries; the response
map itself is as before the call. -/
theorem Items_filter (m : ResponseItems) (filterFunc : List (ProcessorResponse → Bool))
    (hnd : (m.map Prod.fst).Nodup) :
    (∀ kv : Hash × ProcessorResponse,
        kv ∈ (ResponseItems.Items m filterFunc).1
          ↔ kv ∈ m ∧ filterInForce filterFunc kv.2 = true)
      ∧ (∀ hash : Hash,
          ResponseItems.Get (ResponseItems.Items m filterFunc).1 hash
            = (ResponseItems.Get m hash).filter (filterInForce filterFunc))
      ∧ ((ResponseItems.Items m filterFunc).1.map Prod.fst).Nodup
      ∧ (∀ kv : Hash × ProcessorResponse, kv ∈ (ResponseItems.Items m []).1 ↔ kv ∈ m)
      ∧ (ResponseItems.Items m filterFunc).2 = m := by
  have hget : ∀ (fs : List (ProcessorResponse → Bool)) (hash : Hash),
      ResponseItems.Get (ResponseItems.Items m fs).1 hash
        = (ResponseItems.Get m hash).filter (filterInForce fs) := by
    intro fs hash
    unfold ResponseItems.Items
    simp only
    rw [itemsLoop_Get _ hash m [] hnd, ResponseItems.Get_nil]
    cases hg : ResponseItems.Get m hash with
    | none => rfl
    | some v =>
      by_cases hf : filterInForce fs v = true
      · simp [Option.filter, hf]
      · simp [Option.filter, hf]
  have hnd2 : ∀ fs : List (ProcessorResponse → Bool),
      ((ResponseItems.Items m fs).1.map Prod.fst).Nodup := by
    intro fs
    unfold ResponseItems.Items
    exact itemsLoop_nodup _ m [] (by simp)
  have hmem : ∀ (fs : List (ProcessorResponse → Bool)) (kv : Hash × ProcessorResponse),
      kv ∈ (ResponseItems.Items m fs).1 ↔ kv ∈ m ∧ filterInForce fs kv.2 = true := by
    intro fs kv
    rw [ResponseItems.mem_iff_Get _ (hnd2 fs) kv, hget fs kv.1,
      ResponseItems.mem_iff_Get m hnd kv]
    cases hg : ResponseItems.Get m kv.1 with
    | none => simp [Option.filter]
    | some v =>
      by_cases hf : filterInForce fs v = true
      · simp only [Option.filter, hf, if_true, Option.some.injEq]
        constructor
        · intro hv
          rw [← hv]
          exact ⟨rfl, hf⟩
        · intro hv
          exact hv.1
      · simp only [Option.filter, hf]
        constructor
        · intro hv
          simp at hv
        · intro hv
          exfalso
          apply hf
          have hv1 : v = kv.2 := Option.some.inj hv.1
          rw [hv1]
          exact hv.2
  refine ⟨hmem filterFunc, hget filterFunc, hnd2 filterFunc, ?_, rfl⟩
  intro kv
  rw [hmem [] kv]
  simp [filterInForce]

theorem Items_filter_witness :
    ResponseItems.Get
        (ResponseItems.Items
          [ (padHash [1], { Hash := some (padHash [1]), Status := Status.STORED }),
            (padHash [2], { Hash := some (padHash [2]), Status := Status.MINED }) ]
          [fun r => decide (r.Status = Status.MINED)]).1 (padHash [2])
      = (ResponseItems.Get
          [ (padHash [1], { Hash := some (padHash [1]), Status := Status.STORED }),
            (padHash [2], { Hash := some (padHash [2]), Status := Status.MINED }) ]
          (padHash [2])).filter (filterInForce [fun r => decide (r.Status = Status.MINED)]) :=
  (Items_filter
    [ (padHash [1], { Hash := some (padHash [1]), Status := Status.STORED }),
      (padHash [2], { Hash := some (padHash [2]), Status := Status.MINED }) ]
    [fun r => decide (r.Status = Status.MINED)] (by decide)).2.1 (padHash [2])

/-- C27 fails in the code: on a map with one entry per key `Clean` removes
exactly the entries whose age on the system clock (`time.Since`) is above
`Expiry` and keeps the others, those of age `Expiry` included, but the clock
set by `WithNowResponseMap` plays no part. A map with expiry 100 and a clock
fixed at 2000 keeps an entry started at 950 when the system clock shows 1000,
although its age on the configured clock is 1050. -/
theorem Clean_uses_system_clock (m : ProcessorResponseMap) (timeNow : Int)
    (hnd : (m.ResponseItems.map Prod.fst).Nodup) :
    (m.Clean timeNow).ResponseItems
        = m.ResponseItems.filter (fun kv => !decide (timeNow - kv.2.Start > m.Expiry))
      ∧ (∀ nowFunc : Int → Int,
          ((WithNowResponseMap nowFunc m).Clean timeNow).ResponseItems
            = (m.Clean timeNow).ResponseItems)
      ∧ (((NewProcessorResponseMap 100 [WithNowResponseMap (fun _ => 2000)]).call
            (MapCall.Set (padHash [1]) { Hash := some (padHash [1]), Start := 950 })).Clean
            1000).ResponseItems
          = [(padHash [1], { Hash := some (padHash [1]), Start := 950 })]
      ∧ ((NewProcessorResponseMap 100 [WithNowResponseMap (fun _ => 2000)]).now 1000 - 950
          > (NewProcessorResponseMap 100 [WithNowResponseMap (fun _ => 2000)]).Expiry) := by
  refine ⟨Clean_eq_filter m timeNow hnd, ?_, by decide, by decide⟩
  intro nowFunc
  rfl

theorem Clean_uses_system_clock_witness :
    (({ Expiry := 100, now := id
        ResponseItems :=
          [ (padHash [1], { Hash := some (padHash [1]), Start := 899 }),
            (padHash [2], { Hash := some (padHash [2]), Start := 900 }) ] } :
        ProcessorResponseMap).Clean 1000).ResponseItems
      = [(padHash [2], { Hash := some (padHash [2]), Start := 900 })] :=
  (Clean_uses_system_clock
    { Expiry := 100, now := id
      ResponseItems :=
        [ (padHash [1], { Hash := some (padHash [1]), Start := 899 }),
          (padHash [2], { Hash := some (padHash [2]), Start := 900 }) ] }
    1000 (by decide)).1

/-- C28, as stated, fails: when two keys hold the same item, `IncrementRetry`
on one key changes the count read under the other. -/
theorem IncrementRetry_literal_fails :
    ¬ (∀ (m : PointerItems) (hash : Hash) (n : Nat) (after : PointerItems),
        m.IncrementRetry hash = Outcome.returned (n, after) →
        ∀ h : Hash, h ≠ hash → after.Get h = m.Get h) := by
  intro h
  have h1 := h
    ((({ objects := [{ Hash := some (padHash [1]), Retries := 3 }] } : PointerItems).Set
      (padHash [1]) 0).Set (padHash [2]) 0)
    (padHash [1]) 4
    { objects := [{ Hash := some (padHash [1]), Retries := 4 }]
      entries := [(padHash [2], 0), (padHash [1], 0)] }
    rfl (padHash [2]) (by decide)
  revert h1
  decide

/-- C28 (amended): for a hash the map does not hold, `Retries` and
`IncrementRetry` return 0 and the map stays as it is. For a hash it holds with
an item, `IncrementRetry` sets the counter of that item to the old count plus
one modulo 4294967296, which is the old count plus one below 4294967295 and 0
at 4294967295, returns the new count, which `Retries` returns afterwards, and
leaves the keys, their pointers and every other item as they were: a key that
holds another item reads what it read before, a key that holds the same item
reads the new count. For a hash that holds a nil item both calls panic. -/
theorem IncrementRetry_frame (m : PointerItems) (hash : Hash) :
    (m.lookup hash = none →
        m.Retries hash = Outcome.returned 0
          ∧ m.IncrementRetry hash = Outcome.returned (0, m))
      ∧ (∀ ptr : Nat, m.lookup hash = some ptr → m.objects[ptr]? = none →
          m.Retries hash = Outcome.panicked "invalid memory address or nil pointer dereference"
            ∧ m.IncrementRetry hash
              = Outcome.panicked "invalid memory address or nil pointer dereference")
      ∧ (∀ (ptr : Nat) (item : ProcessorResponse),
          m.lookup hash = some ptr → m.objects[ptr]? = some item →
          m.IncrementRetry hash
              = Outcome.returned ((item.Retries + 1) % 4294967296,
                  (m.store ptr (item.withRetries ((item.Retries + 1) % 4294967296))))
            ∧ (item.Retries < 4294967295 →
                (item.Retries + 1) % 4294967296 = item.Retries + 1)
            ∧ (item.Retries = 4294967295 → (item.Retries + 1) % 4294967296 = 0)
            ∧ PointerItems.Retries
                (m.store ptr (item.withRetries ((item.Retries + 1) % 4294967296))) hash
              = Outcome.returned ((item.Retries + 1) % 4294967296)
            ∧ (∀ h : Hash,
                PointerItems.lookup
                  (m.store ptr (item.withRetries ((item.Retries + 1) % 4294967296))) h
                = m.lookup h)
            ∧ (∀ h : Hash, m.lookup h = some ptr →
                PointerItems.Get
                  (m.store ptr (item.withRetries ((item.Retries + 1) % 4294967296))) h
                = some (item.withRetries ((item.Retries + 1) % 4294967296)))
            ∧ (∀ h : Hash, m.lookup h ≠ some ptr →
                PointerItems.Get
                  (m.store ptr (item.withRetries ((item.Retries + 1) % 4294967296))) h
                = m.Get h)) := by
  refine ⟨?_, ?_, ?_⟩
  · intro hl
    simp [PointerItems.Retries, PointerItems.IncrementRetry, hl]
  · intro ptr hl ho
    simp [PointerItems.Retries, PointerItems.IncrementRetry, hl, ho]
  · intro ptr item hl ho
    have hlt : ptr < m.objects.length := by
      rcases Nat.lt_or_ge ptr m.objects.length with h | h
      · exact h
      · rw [List.getElem?_eq_none h] at ho
        cases ho
    have hset : (m.objects.set ptr (item.withRetries ((item.Retries + 1) % 4294967296)))[ptr]?
        = some (item.withRetries ((item.Retries + 1) % 4294967296)) := by
      simp [List.getElem?_set, hlt]
    have hlook : ∀ h : Hash,
        (m.store ptr (item.withRetries ((item.Retries + 1) % 4294967296))).lookup h
          = m.lookup h := fun _ => rfl
    have hobj : (m.store ptr (item.withRetries ((item.Retries + 1) % 4294967296))).objects
        = m.objects.set ptr (item.withRetries ((item.Retries + 1) % 4294967296)) := rfl
    refine ⟨?_, ?_, ?_, ?_, hlook, ?_, ?_⟩
    · simp only [PointerItems.IncrementRetry, hl, ho, ProcessorResponse.IncrementRetry]
      rfl
    · intro h
      exact Nat.mod_eq_of_lt (by omega)
    · intro h
      rw [h]
    · unfold PointerItems.Retries
      rw [hlook, hl]
      simp only [hobj, hset]
      rfl
    · intro h hh
      unfold PointerItems.Get
      rw [hlook, hh]
      simp only [hobj, hset]
    · intro h hh
      unfold PointerItems.Get
      rw [hlook]
      cases hlk : m.lookup h with
      | none => rfl
      | some p2 =>
        have hne : ptr ≠ p2 := by
          intro e
          apply hh
          rw [hlk, e]
        simp only [hobj]
        rw [List.getElem?_set_ne hne]

end Arc
